import Mathlib

/-!
# go-imap: the response reader, the command correlator, the idle controller and the
command functions

A shallow embedding of `handler.go`, `cmd.go` and `imap/client.go`.

* A Go `[]byte` or `string` is a `List Nat` (one number per byte); every
  concrete input below only uses values under 256.
* The `Client` struct is a Lean structure; a method of `*Client` is a function from
  the state to a result and the next state.
* A run-time panic and a goroutine parked on a channel or a mutex are results of
  their own (`Res.panic`, `Res.blocked`).
* The buffered reader `c.r` is the list of bytes the server still sends before the
  stream ends; a read that finds too few bytes is a failed read.
* `make([]byte, n)` returns a slice for `n` up to `Client.allocLimit`, a limit of the
  process the client runs in, and panics for a longer one.
* `Debug` output changes no state and is left out.
-/

namespace Imap

/-- A Go byte string. -/
abbrev Bytes := List Nat

/-! ## Errors, replies, mailbox, transport -/

/-- The error values of the package (`handler.go` 13-19, `client.go` 13-16, `cmd.go` 12-15). -/
inductive Err where
  | ErrResultNo
  | ErrResultBad
  | ErrConnDead
  | ErrNilRep
  deriving DecidableEq, Repr

/-- Run-time panics of the Go code that the embedding keeps track of. -/
inductive Fault where
  /-- method call on the nil `net.Conn` interface -/
  | nilConn
  /-- slice bounds out of range, `line[2:ind]` with `ind < 2` -/
  | sliceBounds
  /-- index out of range, `rep.data[i+1]` -/
  | indexRange
  /-- fatal error `sync: unlock of unlocked mutex` -/
  | unlockUnlocked
  /-- the runtime refuses `make([]byte, n)`: `makeslice: len out of range`, or it runs out
  of memory -/
  | makeslice
  deriving DecidableEq, Repr

/-- Embeds `repValue` of `client.go` 23-26; a nil `data` is the empty list. -/
structure repValue where
  err : Option Err
  data : List Bytes
  deriving DecidableEq, Repr

/-- Embeds `MailboxInfo` of `imap/type.go` 3-9. -/
structure MailboxInfo where
  Name : Bytes
  Exists : Int
  Recent : Int
  Flags : List Bytes
  deriving DecidableEq, Repr

/-- The transport `net.Conn`, seen from the client: the bytes handed to `Write` so far,
whether `Write` reports an error, and whether it is the TLS wrapper. -/
structure Conn where
  written : Bytes
  failing : Bool
  secure : Bool
  deriving DecidableEq, Repr

/-- Embeds `Client` of `client.go` 29-46.  `rep` is a channel of capacity 1: `none` is the nil
channel, `some q` a channel holding the replies `q`.  `mux` is true while the mutex is
held.  `UpdateCallback` records whether the callback is set; `started` counts the
`go c.UpdateCallback()` statements executed, `handshakes` the TLS handshakes attempted.
`allocLimit` belongs to the process the client runs in: the largest `n` for which
`make([]byte, n)` returns a slice. -/
structure Client where
  conn : Option Conn
  r : Bytes
  state : Nat
  latestTag : Int
  latestRep : List Bytes
  bulkSize : Int
  mux : Bool
  doneEmitted : Bool
  rep : Option (List repValue)
  cmd : Bytes
  tlsHostname : Bytes
  selectedMailbox : Option MailboxInfo
  idling : Bool
  UpdateCallback : Bool
  started : Nat
  handshakes : Nat
  allocLimit : Nat
  deriving DecidableEq, Repr

/-- What a piece of code does: it finishes with a value, it panics, or it parks on a
channel operation or on a mutex, in the state reached so far. -/
inductive Res (α : Type) where
  | ok (a : α)
  | panic (f : Fault)
  | blocked (c : Client)
  deriving DecidableEq, Repr

/-- Embeds `justConnected = iota` (`client.go` 19). -/
def justConnected : Nat := 0

/-- The second constant of the block (`client.go` 20). -/
def normal : Nat := 1

/-! ## Library functions used by the code (Go standard library) -/

/-- ASCII digit. -/
def isDigit (b : Nat) : Bool := decide (48 ≤ b) && decide (b ≤ 57)

/-- ASCII upper-case letter. -/
def isUpper (b : Nat) : Bool := decide (65 ≤ b) && decide (b ≤ 90)

/-- Embeds `bytes.HasPrefix(s, p)` and `strings.HasPrefix`. -/
def startsWith : Bytes → Bytes → Bool
  | _, [] => true
  | [], _ :: _ => false
  | x :: xs, p :: ps => decide (x = p) && startsWith xs ps

/-- Embeds `bytes.Index(s, sep)` and `strings.Index`: the first position where `sep` occurs,
`none` for the result -1. -/
def Index : Bytes → Bytes → Option Nat
  | [], sep => if sep = [] then some 0 else none
  | x :: xs, sep =>
    if startsWith (x :: xs) sep then some 0 else (Index xs sep).map (· + 1)

/-- Embeds `bufio.Reader.ReadBytes('\n')`: the bytes up to and including the first line feed,
what is left of the stream, and whether the read succeeded (`err == nil`).  When the
stream ends before a line feed, everything is consumed and the read fails. -/
def ReadBytes : Bytes → Bytes × Bytes × Bool
  | [] => ([], [], false)
  | b :: rest =>
    if b = 10 then ([b], rest, true)
    else ((b :: (ReadBytes rest).1), (ReadBytes rest).2.1, (ReadBytes rest).2.2)

/-- Embeds `io.ReadFull(c.r, bulk)` with `len(bulk) = n`: exactly `n` bytes, or a failed read
that has consumed what was there. -/
def ReadFull (n : Nat) (s : Bytes) : Option Bytes × Bytes :=
  if n ≤ s.length then (some (s.take n), s.drop n) else (none, [])

/-- The value of a string of decimal digits. -/
def digitsVal (s : Bytes) : Nat := s.foldl (fun acc d => acc * 10 + (d - 48)) 0

/-- The digits of a number text, its optional sign `+` or `-` taken off. -/
def stripSign : Bytes → Bytes
  | 43 :: t => t
  | 45 :: t => t
  | s => s

/-- Embeds `strconv.Atoi` on a 64-bit platform, the error dropped as the callers do
(`x, _ := strconv.Atoi(s)`): an optional sign and decimal digits; 0 on a syntax error;
the nearest bound of `int` when out of range. -/
def Atoi (s : Bytes) : Int :=
  if stripSign s = [] ∨ (stripSign s).all isDigit = false then 0
  else if s.head? = some 45 then max (-(digitsVal (stripSign s) : Int)) (-(2 : Int) ^ 63)
  else min (digitsVal (stripSign s) : Int) ((2 : Int) ^ 63 - 1)

/-- Decimal digits of a natural number, most significant first, onto `acc`. -/
def natDigitsAux : Nat → Nat → Bytes → Bytes
  | 0, _, acc => acc
  | fuel + 1, n, acc =>
    if n < 10 then (n + 48) :: acc
    else natDigitsAux fuel (n / 10) ((n % 10 + 48) :: acc)

/-- Decimal rendering of a natural number. -/
def natDigits (n : Nat) : Bytes := natDigitsAux (n + 1) n []

/-- Embeds `strconv.Itoa`. -/
def Itoa (n : Int) : Bytes :=
  if n < 0 then 45 :: natDigits n.natAbs else natDigits n.toNat

/-! ## The three regular expressions

Go's `regexp` is leftmost-first; `.` matches every byte but the line feed, `\d` is
`[0-9]`, `$` (no `m` flag) is the end of the text, and a `{` that opens no repetition is
a literal brace.  Each pattern is anchored on both sides, so a match is the whole text
and the submatches are fixed by the greedy choices spelled out below. -/

/-- The tail `.*\r\n$` of the three patterns: no line feed, then CR LF at the very end. -/
def dotStarCRLF : Bytes → Bool
  | [] => false
  | [_] => false
  | [a, b] => decide (a = 13) && decide (b = 10)
  | a :: b :: c :: rest => decide (a ≠ 10) && dotStarCRLF (b :: c :: rest)

/-- Embeds `regexOK.FindSubmatch(line)` for `^([0-9]+) ([A-Z]{2,3}).*\r\n$` (`handler.go` 21):
the submatches 1 and 2.  The first group is the whole leading run of digits (a space
must follow); the second group takes a third capital when there is one (the rest then
still matches `.*\r\n$`), two otherwise. -/
def regexOK (line : Bytes) : Option (Bytes × Bytes) :=
  let tag := line.takeWhile isDigit
  if tag = [] then none
  else match line.dropWhile isDigit with
    | 32 :: a :: b :: rest =>
      if isUpper a && isUpper b && dotStarCRLF rest then
        match rest with
        | c :: _ => if isUpper c then some (tag, [a, b, c]) else some (tag, [a, b])
        | [] => none
      else none
    | _ => none

/-- The second submatch of `regexOK` on a line `<tag> <A><B><text>\r\n`: the two
capitals, and the first byte of the text as well when it is a capital. -/
def statusWord (a b : Nat) : Bytes → Bytes
  | [] => [a, b]
  | x :: _ => if isUpper x then [a, b, x] else [a, b]

/-- Embeds `regexBulkStart.FindSubmatch(line)` for `^.*{(\d+)}\r\n$` (`handler.go` 22):
submatch 1.  The text ends in `}\r\n`; before it comes the whole trailing run of
digits, not empty; before that a `{`; and no line feed in front of the brace. -/
def regexBulkStart (line : Bytes) : Option Bytes :=
  match line.reverse with
  | 10 :: 13 :: 125 :: t =>
    let ds := (t.takeWhile isDigit).reverse
    if ds = [] then none
    else match t.dropWhile isDigit with
      | 123 :: pre => if pre.all (fun b => decide (b ≠ 10)) then some ds else none
      | _ => none
  | _ => none

/-- Embeds `regexFetchResult.FindSubmatch(line)` for `^(\d+) FETCH.*\r\n$` (`cmd.go` 17):
submatch 1, the whole leading run of digits. -/
def regexFetchResult (line : Bytes) : Option Bytes :=
  let seq := line.takeWhile isDigit
  if seq = [] then none
  else match line.dropWhile isDigit with
    | 32 :: 70 :: 69 :: 84 :: 67 :: 72 :: rest =>
      if dotStarCRLF rest then some seq else none
    | _ => none

/-! ## Byte strings of the source text -/

/-- The text `* OK`. -/
def tokGreeting : Bytes := [42, 32, 79, 75]

/-- The text `* BYE`. -/
def tokBye : Bytes := [42, 32, 66, 89, 69]

/-- The text `* `. -/
def tokStar : Bytes := [42, 32]

/-- The text ` EXISTS\r\n`. -/
def tokExists : Bytes := [32, 69, 88, 73, 83, 84, 83, 13, 10]

/-- The text ` RECENT\r\n`. -/
def tokRecent : Bytes := [32, 82, 69, 67, 69, 78, 84, 13, 10]

/-- The text `NO`. -/
def tokNo : Bytes := [78, 79]

/-- The text `BAD`. -/
def tokBad : Bytes := [66, 65, 68]

/-- The text `STARTTLS`. -/
def tokStartTLS : Bytes := [83, 84, 65, 82, 84, 84, 76, 83]

/-- The text `NOOP`. -/
def tokNoop : Bytes := [78, 79, 79, 80]

/-- The text ` NOOP\r\n`. -/
def reqNoop : Bytes := [32, 78, 79, 79, 80, 13, 10]

/-- The text `IDLE`. -/
def tokIdle : Bytes := [73, 68, 76, 69]

/-- The text ` IDLE\r\n`. -/
def reqIdle : Bytes := [32, 73, 68, 76, 69, 13, 10]

/-- The text `DONE\r\n`. -/
def tokDone : Bytes := [68, 79, 78, 69, 13, 10]

/-- The text `FETCH`. -/
def tokFetch : Bytes := [70, 69, 84, 67, 72]

/-! ## client.go -/

/-- Sequencing of results. -/
def Res.bind {α β : Type} (x : Res α) (f : α → Res β) : Res β :=
  match x with
  | .ok a => f a
  | .panic e => .panic e
  | .blocked c => .blocked c

/-- Embeds `write` (`client.go` 48-57): a call on the nil interface panics; otherwise the data
is handed to `conn.Write` and any error of it becomes `ErrConnDead`. -/
def write (c : Client) (data : Bytes) : Res (Client × Option Err) :=
  match c.conn with
  | none => .panic .nilConn
  | some k =>
    .ok ({ c with conn := some { k with written := k.written ++ data } },
         if k.failing then some .ErrConnDead else none)

/-- Embeds `writeString` (`client.go` 59-61). -/
def writeString (c : Client) (data : Bytes) : Res (Client × Option Err) := write c data

/-- Embeds `GetSelectedMailboxInfo` (`client.go` 63-69). -/
def GetSelectedMailboxInfo (c : Client) : MailboxInfo :=
  match c.selectedMailbox with
  | some m => m
  | none => { Name := [], Exists := 0, Recent := 0, Flags := [] }

/-- The bound `maxAlloc` of the Go runtime on a 64-bit platform (`runtime/malloc.go`):
`makeslice` panics on every longer slice, whatever memory the machine has. -/
def maxAlloc : Nat := 2 ^ 48

/-- The client that `Dial` builds (`client.go` 77-80) on a transport whose server
sends `stream`, in a process that allocates up to the bound of the runtime. -/
def dialed (k : Conn) (stream : Bytes) : Client :=
  { conn := some k, r := stream, state := justConnected, latestTag := 0, latestRep := [],
    bulkSize := 0, mux := false, doneEmitted := false, rep := none, cmd := [],
    tlsHostname := [], selectedMailbox := none, idling := false, UpdateCallback := false,
    started := 0, handshakes := 0, allocLimit := maxAlloc }

/-! ## cmd.go: the correlator -/

/-- Two's complement wrap of `int32` arithmetic. -/
def wrap32 (x : Int) : Int := (x + 2 ^ 31) % 2 ^ 32 - 2 ^ 31

/-- Embeds `newTag` (`cmd.go` 19-21): `atomic.AddInt32(&c.latestTag, 1)` rendered by `Itoa`. -/
def newTag (c : Client) : Client × Bytes :=
  ({ c with latestTag := wrap32 (c.latestTag + 1) }, Itoa (wrap32 (c.latestTag + 1)))

/-- Embeds `prepareCmd` (`cmd.go` 23-32): the results are the named returns `tag` and `err`.
`c.mux.Lock()` parks the caller while the mutex is held. -/
def prepareCmd (c : Client) (cmd : Bytes) : Res (Client × Bytes × Option Err) :=
  let c1 := { c with cmd := cmd }
  match c1.conn with
  | none => .ok (c1, [], none)
  | some _ =>
    let c2 := (newTag c1).1
    let tag := (newTag c1).2
    if c2.mux then .blocked c2
    else .ok ({ c2 with mux := true, rep := some [] }, tag, none)

/-- Embeds `cleanCmd` (`cmd.go` 34-38); unlocking a mutex that is not held is fatal. -/
def cleanCmd (c : Client) : Res Client :=
  if c.mux then .ok { c with rep := none, mux := false }
  else .panic .unlockUnlocked

/-- The receive `<-c.rep`: parks on the nil channel and on an empty one. -/
def recv (c : Client) : Res (Client × repValue) :=
  match c.rep with
  | none => .blocked c
  | some [] => .blocked c
  | some (v :: q) => .ok ({ c with rep := some q }, v)

/-- The send `c.rep <- v` on the channel of capacity 1: parks when the slot is taken
(and on the nil channel). -/
def send (c : Client) (v : repValue) : Res Client :=
  match c.rep with
  | none => .blocked c
  | some [] => .ok { c with rep := some [v] }
  | some (_ :: _) => .blocked c

/-- How far a command function got before its receive: it has returned (state and
error), or it is parked at `rep := <-c.rep`. -/
inductive Sent where
  | returned (c : Client) (err : Option Err)
  | waiting (c : Client)
  deriving DecidableEq, Repr

/-- The opening shared by the command functions, here with `Noop`'s line numbers
(`cmd.go` 101-110): `prepareCmd`, return on its error, `defer c.cleanCmd()`, write the
request `tag + request`, return on a write error (the deferred `cleanCmd` runs). -/
def issue (c : Client) (cmd request : Bytes) : Res Sent :=
  (prepareCmd c cmd).bind fun p =>
    match p.2.2 with
    | some e => .ok (.returned p.1 (some e))
    | none =>
      (writeString p.1 (p.2.1 ++ request)).bind fun w =>
        match w.2 with
        | some e => (cleanCmd w.1).bind fun c3 => .ok (.returned c3 (some e))
        | none => .ok (.waiting w.1)

/-- The closing shared by the command functions that return only an error
(`cmd.go` 112-121): receive, hand back the reply's error, and run the deferred
`cleanCmd`.  The reader never sends a nil pointer, so `ErrNilRep` does not arise. -/
def await (c : Client) : Res (Client × Option Err) :=
  (recv c).bind fun p => (cleanCmd p.1).bind fun c2 => .ok (c2, p.2.err)

/-- Embeds `Noop` up to its receive (`cmd.go` 100-110). -/
def NoopSend (c : Client) : Res Sent := issue c tokNoop reqNoop

/-! ## cmd.go: the idle controller -/

/-- Embeds `Idle` up to its receive (`cmd.go` 337-355): after a successful write
`doneEmitted` is cleared and `idling` is set. -/
def IdleSend (c : Client) : Res Sent :=
  (issue c tokIdle reqIdle).bind fun s =>
    match s with
    | .returned c1 e => .ok (.returned c1 e)
    | .waiting c1 => .ok (.waiting { c1 with doneEmitted := false, idling := true })

/-- Embeds `Idle` from its receive on (`cmd.go` 356-365): whatever the reply, the deferred
function clears `idling` and `doneEmitted`, then the deferred `cleanCmd` runs. -/
def IdleReturn (c : Client) : Res (Client × Option Err) :=
  (recv c).bind fun p =>
    (cleanCmd { p.1 with idling := false, doneEmitted := false }).bind fun c2 =>
      .ok (c2, p.2.err)

/-- Embeds `Done` (`cmd.go` 369-377).  `doneMux` is held for the whole body, so calls of
`Done` from several goroutines run one after the other, as composed here. -/
def Done (c : Client) : Res (Client × Option Err) :=
  if c.idling && !c.doneEmitted then
    (writeString c tokDone).bind fun w => .ok ({ w.1 with doneEmitted := true }, w.2)
  else .ok (c, none)

/-- Calls of `Done` one after the other, `k` of them. -/
def DoneTimes : Nat → Client → Res Client
  | 0, c => .ok c
  | k + 1, c => (Done c).bind fun p => DoneTimes k p.1

/-! ## cmd.go: interpreting a FETCH reply -/

/-- The Go map `map[int][]byte` as a list of entries with distinct keys. -/
abbrev FetchMap := List (Int × Bytes)

instance : DecidableEq FetchMap := inferInstanceAs (DecidableEq (List (Int × Bytes)))

/-- The assignment `data[seq] = v`. -/
def FetchMap.set (m : FetchMap) (seq : Int) (v : Bytes) : FetchMap :=
  m.filter (fun e => decide (e.1 ≠ seq)) ++ [(seq, v)]

/-- The lookup `data[seq]`. -/
def FetchMap.get (m : FetchMap) (seq : Int) : Option Bytes :=
  (m.find? (fun e => decide (e.1 = seq))).map (·.2)

/-- The loop of `FetchRFC822` (`cmd.go` 282-291) and of `FetchRFC822Header` (323-332),
on the entries from index `i` on: an entry that matches `regexFetchResult` stores
`rep.data[i+1]` (a panic when there is none) and moves on by three, any other entry
moves on by one. -/
def fetchLoop : List Bytes → FetchMap → Res FetchMap
  | [], m => .ok m
  | line :: rest, m =>
    match regexFetchResult line with
    | none => fetchLoop rest m
    | some sub =>
      match rest with
      | [] => .panic .indexRange
      | [v] => .ok (m.set (Atoi sub) v)
      | v :: _ :: rest2 => fetchLoop rest2 (m.set (Atoi sub) v)

/-- Embeds `strings.Join(strSeqs, ",")`. -/
def joinComma : List Bytes → Bytes
  | [] => []
  | [a] => a
  | a :: b :: rest => a ++ 44 :: joinComma (b :: rest)

/-- Embeds `FetchRFC822` up to its receive (`cmd.go` 255-270): the request is
`tag + " FETCH " + strings.Join(strSeqs, ",") + " RFC822\r\n"`. -/
def FetchRFC822Send (c : Client) (seqs : List Int) : Res Sent :=
  issue c tokFetch
    ([32, 70, 69, 84, 67, 72, 32] ++ joinComma (seqs.map Itoa) ++
      [32, 82, 70, 67, 56, 50, 50, 13, 10])

/-- Embeds `FetchRFC822Header` up to its receive (`cmd.go` 296-311): the request ends in
` RFC822.HEADER\r\n`. -/
def FetchRFC822HeaderSend (c : Client) (seqs : List Int) : Res Sent :=
  issue c tokFetch
    ([32, 70, 69, 84, 67, 72, 32] ++ joinComma (seqs.map Itoa) ++
      [32, 82, 70, 67, 56, 50, 50, 46, 72, 69, 65, 68, 69, 82, 13, 10])

/-- Embeds `FetchRFC822` from its receive on (`cmd.go` 272-292): the reply's error if any,
otherwise the map built from the reply's data; the deferred `cleanCmd` runs last. -/
def FetchRFC822Return (c : Client) : Res (Client × Option FetchMap × Option Err) :=
  (recv c).bind fun p =>
    match p.2.err with
    | some e => (cleanCmd p.1).bind fun c2 => .ok (c2, none, some e)
    | none =>
      (fetchLoop p.2.data []).bind fun m =>
        (cleanCmd p.1).bind fun c2 => .ok (c2, some m, none)

/-- Embeds `FetchRFC822Header` from its receive on (`cmd.go` 313-333): the same statements. -/
def FetchRFC822HeaderReturn (c : Client) : Res (Client × Option FetchMap × Option Err) :=
  (recv c).bind fun p =>
    match p.2.err with
    | some e => (cleanCmd p.1).bind fun c2 => .ok (c2, none, some e)
    | none =>
      (fetchLoop p.2.data []).bind fun m =>
        (cleanCmd p.1).bind fun c2 => .ok (c2, some m, none)

/-! ## handler.go: the response reader -/

/-- Lines 43-46: `bytes.Index(line, " EXISTS\r\n")` and, when found, the assignment of
`Atoi(line[2:ind])`; the slice expression panics when `ind < 2`. -/
def setExists (mb : MailboxInfo) (line : Bytes) : Res (MailboxInfo × Bool) :=
  match Index line tokExists with
  | none => .ok (mb, false)
  | some ind =>
    if ind < 2 then .panic .sliceBounds
    else .ok ({ mb with Exists := Atoi ((line.take ind).drop 2) }, true)

/-- Lines 47-50: the same for ` RECENT\r\n`; `updated` is carried through. -/
def setRecent (mb : MailboxInfo) (updated : Bool) (line : Bytes) : Res (MailboxInfo × Bool) :=
  match Index line tokRecent with
  | none => .ok (mb, updated)
  | some ind =>
    if ind < 2 then .panic .sliceBounds
    else .ok ({ mb with Recent := Atoi ((line.take ind).drop 2) }, true)

/-- Lines 41-59: the counters of the selected mailbox and the start of the callback. -/
def updateCounters (c : Client) (line : Bytes) : Res Client :=
  match c.selectedMailbox with
  | none => .ok c
  | some mb =>
    (setExists mb line).bind fun e =>
      (setRecent e.1 e.2 line).bind fun u =>
        .ok { c with
              selectedMailbox := some u.1
              started := if u.2 && c.UpdateCallback then c.started + 1 else c.started }

/-- Lines 61-73: the literal after a line that matches `regexBulkStart`.  The
`make([]byte, bulkSize)` of line 63 comes before any byte of the literal is read and
panics when the announced length is more than the process can allocate; `(\d+)` has no
sign, so the length is never negative.  Each `break` leaves the `switch` only, so the loop
goes on with the state reached. -/
def readBulk (c : Client) (line : Bytes) : Res Client :=
  match regexBulkStart line with
  | none => .ok c
  | some sub =>
    if c.allocLimit < (Atoi sub).toNat then .panic .makeslice
    else
      match ReadFull (Atoi sub).toNat c.r with
      | (none, rest) => .ok { c with r := rest }
      | (some bulk, rest) =>
        if (ReadBytes rest).2.2 then
          .ok { c with r := (ReadBytes rest).2.1, latestRep := c.latestRep ++ [bulk] }
        else .ok { c with r := (ReadBytes rest).2.1 }

/-- Lines 40-75: a line that begins with `* `. -/
def untagged (c : Client) (line : Bytes) : Res Client :=
  (updateCounters c line).bind fun c1 =>
    readBulk { c1 with latestRep := c1.latestRep ++ [line.drop 2] } line

/-- Lines 96-104: the handshake when the pending command is STARTTLS.  Its outcome
number `c.handshakes` is `tls c.handshakes`: `none` when it fails, `some s` when it
succeeds and the reader is reset onto the secured stream `s`.  The result is the new
state and whether the code goes on to deliver the reply (`false` after the `break`). -/
def upgrade (tls : Nat → Option Bytes) (c : Client) : Res (Client × Bool) :=
  if c.cmd = tokStartTLS then
    match c.conn with
    | none => .panic .nilConn
    | some k =>
      match tls c.handshakes with
      | none => .ok ({ c with handshakes := c.handshakes + 1 }, false)
      | some s =>
        .ok ({ c with handshakes := c.handshakes + 1
                      conn := some { k with secure := true }
                      r := s }, true)
  else .ok (c, true)

/-- Lines 76-110: a line that matches `regexOK`, with its second submatch. -/
def tagged (tls : Nat → Option Bytes) (c : Client) (status : Bytes) : Res Client :=
  let data := c.latestRep
  let c1 := { c with latestRep := [] }
  match c1.rep with
  | none => .ok c1
  | some _ =>
    if status = tokNo then send c1 { err := some .ErrResultNo, data := [] }
    else if status = tokBad then send c1 { err := some .ErrResultBad, data := [] }
    else
      (upgrade tls c1).bind fun u =>
        if u.2 then send u.1 { err := none, data := data } else .ok u.1

/-- The body of the `for` loop (`handler.go` 28-112) on a line just read.  The `break`
of line 38 leaves the `switch`, not the loop: the state is unchanged and the loop goes
on. -/
def listenBody (tls : Nat → Option Bytes) (c : Client) (line : Bytes) : Res Client :=
  if c.state = justConnected then
    if startsWith line tokGreeting then .ok { c with state := normal } else .ok c
  else if c.state = normal then
    if startsWith line tokBye then .ok c
    else if startsWith line tokStar then untagged c line
    else
      match regexOK line with
      | some sub => tagged tls c sub.2
      | none => .ok { c with latestRep := c.latestRep ++ [line] }
  else .ok c

/-- Lines 114-120: what `listen` does after the loop. -/
def listenExit (c : Client) : Res Client :=
  let c1 := { c with conn := none }
  match c1.rep with
  | none => .ok c1
  | some _ => send c1 { err := some .ErrConnDead, data := [] }

/-- One turn of the `for` statement (`handler.go` 27): read a line; `none` when the
read fails and the loop is left, otherwise the result of the body. -/
def listenIter (tls : Nat → Option Bytes) (c : Client) : Option (Res Client) :=
  if (ReadBytes c.r).2.2 then
    some (listenBody tls { c with r := (ReadBytes c.r).2.1 } (ReadBytes c.r).1)
  else none

/-- Embeds `listen` (`handler.go` 24-121): the `for` loop and the code after it, with at most
`fuel` turns of the loop; `none` when the fuel runs out (`listen_total`: some fuel is
always enough). -/
def listen (tls : Nat → Option Bytes) : Nat → Client → Option (Res Client)
  | 0, _ => none
  | fuel + 1, c =>
    match listenIter tls c with
    | none => some (listenExit { c with r := (ReadBytes c.r).2.1 })
    | some (.ok c1) => listen tls fuel c1
    | some (.panic f) => some (.panic f)
    | some (.blocked c1) => some (.blocked c1)

/-- The reader's turns run `n` times from `c`: `none` when the loop was left or the
reader stopped on the way. -/
def turns (tls : Nat → Option Bytes) : Nat → Client → Option Client
  | 0, c => some c
  | n + 1, c =>
    match listenIter tls c with
    | some (.ok c1) => turns tls n c1
    | _ => none

/-! ## Concrete inputs -/

/-- A client on which the reader has run to its end: the transport is gone. -/
def deadClient : Client :=
  { conn := none, r := [], state := normal, latestTag := 3, latestRep := [],
    bulkSize := 0, mux := false, doneEmitted := false, rep := none, cmd := [],
    tlsHostname := [], selectedMailbox := none, idling := false, UpdateCallback := false,
    started := 0, handshakes := 0, allocLimit := maxAlloc }

/-- A connected client in stage Normal with no command pending, in a process that
allocates every length the runtime admits (up to `maxAlloc`). -/
def liveClient : Client :=
  { conn := some { written := [], failing := false, secure := false }, r := [],
    state := normal, latestTag := 0, latestRep := [], bulkSize := 0, mux := false,
    doneEmitted := false, rep := none, cmd := [], tlsHostname := [],
    selectedMailbox := none, idling := false, UpdateCallback := false, started := 0,
    handshakes := 0, allocLimit := maxAlloc }

/-- The client `liveClient` once `Idle` is parked at its receive: `1 IDLE\r\n` written,
the mutex held, the reply channel made, `idling` set. -/
def idleClient : Client :=
  { liveClient with
    conn := some { written := [49, 32, 73, 68, 76, 69, 13, 10], failing := false,
                   secure := false }
    latestTag := 1, mux := true, rep := some [], cmd := tokIdle, idling := true }

/-- The text `* BYE\r\n* 3 EXISTS\r\n`. -/
def byeThenExists : Bytes :=
  [42, 32, 66, 89, 69, 13, 10, 42, 32, 51, 32, 69, 88, 73, 83, 84, 83, 13, 10]

/-- The text `* BYE\r\n7 OK\r\n`. -/
def byeThenOK : Bytes := [42, 32, 66, 89, 69, 13, 10, 55, 32, 79, 75, 13, 10]

/-- A selected mailbox named `INBOX` with both counters at 0. -/
def inbox : MailboxInfo :=
  { Name := [73, 78, 66, 79, 88], Exists := 0, Recent := 0, Flags := [] }

/-- The client `liveClient` once `Noop` is parked at its receive: tag `1` allotted,
`1 NOOP\r\n` written, the mutex held, the reply channel made and empty. -/
def pendingClient : Client :=
  { liveClient with
    conn := some { written := [49, 32, 78, 79, 79, 80, 13, 10], failing := false,
                   secure := false }
    latestTag := 1, mux := true, rep := some [], cmd := tokNoop }

/-- The text `* 1 FETCH (RFC822 {2}\r\nhi)\r\n* 2 FETCH (RFC822 {2}\r\nyo)\r\n1 OK\r\n`:
a well-formed reply to `1 FETCH 1,2 RFC822` for two messages. -/
def fetchTwo : Bytes :=
  [42, 32, 49, 32, 70, 69, 84, 67, 72, 32, 40, 82, 70, 67, 56, 50, 50, 32, 123, 50, 125, 13, 10,
   104, 105, 41, 13, 10,
   42, 32, 50, 32, 70, 69, 84, 67, 72, 32, 40, 82, 70, 67, 56, 50, 50, 32, 123, 50, 125, 13, 10,
   121, 111, 41, 13, 10,
   49, 32, 79, 75, 13, 10]

/-- The same reply for `1 FETCH 1,2 RFC822.HEADER`: the lines read
`* 1 FETCH (RFC822.HEADER {2}\r\n` and `* 2 FETCH (RFC822.HEADER {2}\r\n`. -/
def fetchTwoHeader : Bytes :=
  [42, 32, 49, 32, 70, 69, 84, 67, 72, 32, 40, 82, 70, 67, 56, 50, 50, 46, 72, 69, 65, 68, 69,
   82, 32, 123, 50, 125, 13, 10,
   104, 105, 41, 13, 10,
   42, 32, 50, 32, 70, 69, 84, 67, 72, 32, 40, 82, 70, 67, 56, 50, 50, 46, 72, 69, 65, 68, 69,
   82, 32, 123, 50, 125, 13, 10,
   121, 111, 41, 13, 10,
   49, 32, 79, 75, 13, 10]

/-- The client `liveClient` once `FetchRFC822([]int{1, 2})` is parked at its receive. -/
def fetchPending : Client :=
  { liveClient with
    conn := some { written := [49, 32, 70, 69, 84, 67, 72, 32, 49, 44, 50, 32, 82, 70, 67, 56,
                               50, 50, 13, 10],
                   failing := false, secure := false }
    latestTag := 1, mux := true, rep := some [], cmd := tokFetch }

/-- The client `liveClient` once `FetchRFC822Header([]int{1, 2})` is parked at its
receive. -/
def fetchHeaderPending : Client :=
  { liveClient with
    conn := some { written := [49, 32, 70, 69, 84, 67, 72, 32, 49, 44, 50, 32, 82, 70, 67, 56,
                               50, 50, 46, 72, 69, 65, 68, 69, 82, 13, 10],
                   failing := false, secure := false }
    latestTag := 1, mux := true, rep := some [], cmd := tokFetch }

/-- The map and error that a command function hands back, without the state. -/
def fetched (x : Res (Client × Option FetchMap × Option Err)) :
    Res (Option FetchMap × Option Err) :=
  x.bind fun p => .ok p.2

/-- The reader runs `n` turns on `stream` from `c`, then `finish` runs on the state
reached. -/
def afterTurns {α : Type} (tls : Nat → Option Bytes) (n : Nat) (c : Client) (stream : Bytes)
    (finish : Client → Res α) : Option (Res α) :=
  (turns tls n { c with r := stream }).map finish

/-- The text `1 NO\r\n2 OK\r\n`. -/
def noThenOK : Bytes := [49, 32, 78, 79, 13, 10, 50, 32, 79, 75, 13, 10]

/-- The client `pendingClient` after `1 NO\r\n` was read and `Noop` has returned, once
`StartTLS("h")` is parked at its receive: tag `2` allotted, `2 STARTTLS\r\n` written,
the mutex held, the reply channel made and empty, `2 OK\r\n` on the stream. -/
def tlsAfterNo : Client :=
  { pendingClient with
    r := [50, 32, 79, 75, 13, 10]
    conn := some { written := [49, 32, 78, 79, 79, 80, 13, 10,
                               50, 32, 83, 84, 65, 82, 84, 84, 76, 83, 13, 10],
                   failing := false, secure := false }
    latestTag := 2, cmd := tokStartTLS, tlsHostname := [104] }

/-- The transport of `pendingClient`: `1 NOOP\r\n` has been written. -/
def pendingConn : Conn :=
  { written := [49, 32, 78, 79, 79, 80, 13, 10], failing := false, secure := false }

/-- A client in stage Normal with `INBOX` selected and the callback set, about to read
`* 42 EXISTS\r\n`. -/
def watching : Client :=
  { liveClient with
    r := [42, 32, 52, 50, 32, 69, 88, 73, 83, 84, 83, 13, 10]
    selectedMailbox := some inbox
    UpdateCallback := true }

/-! ## What the server sends between two tagged completions -/

/-- One unit of what the reader reads in a turn of its loop, other than a tagged
completion: an untagged line `* <text>\n`; an untagged line `* <pre>{<ds>}\r\n` with
its literal `payload` and the `trailer` up to the next line feed; any other line
`<text>\n`. -/
inductive Item where
  | untagged (text : Bytes)
  | literal (pre ds payload trailer : Bytes)
  | plain (text : Bytes)
  deriving DecidableEq, Repr

/-- The bytes of an item on the stream. -/
def Item.wire : Item → Bytes
  | .untagged text => 42 :: 32 :: (text ++ [10])
  | .literal pre ds payload trailer =>
    42 :: 32 :: (pre ++ 123 :: (ds ++ 125 :: 13 :: 10 :: (payload ++ (trailer ++ [10]))))
  | .plain text => text ++ [10]

/-- The entries of an item in the data of a reply: an untagged line without its
`* `, a literal's line without its `* ` and then its payload as one entry, any other
line as it is. -/
def Item.entries : Item → List Bytes
  | .untagged text => [text ++ [10]]
  | .literal pre ds payload _ => [pre ++ 123 :: (ds ++ [125, 13, 10]), payload]
  | .plain text => [text ++ [10]]

/-- The items as a server sends them.  An untagged line holds one line feed, at its end,
is not a BYE line, carries no literal marker, and is not the bare `* EXISTS\r\n` or
`* RECENT\r\n` (on which `line[2:ind]` panics).  A literal announces, in digits that
fit an `int`, the length of its payload, which is at most `limit`, the length that
`make` allocates, and is not a BYE line.  Any other line holds one line feed, at its end,
does not begin with `* ` and does not match `regexOK`. -/
def Item.wellFormed (limit : Nat) : Item → Prop
  | .untagged text =>
    10 ∉ text ∧ startsWith (42 :: 32 :: (text ++ [10])) tokBye = false ∧
      regexBulkStart (42 :: 32 :: (text ++ [10])) = none ∧
      text ≠ [69, 88, 73, 83, 84, 83, 13] ∧ text ≠ [82, 69, 67, 69, 78, 84, 13]
  | .literal pre ds payload trailer =>
    10 ∉ pre ∧ ds ≠ [] ∧ (∀ d ∈ ds, isDigit d = true) ∧ digitsVal ds < 2 ^ 63 ∧
      digitsVal ds ≤ limit ∧ payload.length = digitsVal ds ∧ 10 ∉ trailer ∧
      startsWith (42 :: 32 :: (pre ++ 123 :: (ds ++ [125, 13, 10]))) tokBye = false
  | .plain text =>
    10 ∉ text ∧ startsWith (text ++ [10]) tokStar = false ∧ regexOK (text ++ [10]) = none

/-- The stream of a run of items. -/
def wires : List Item → Bytes
  | [] => []
  | i :: rest => i.wire ++ wires rest

/-- The entries of a run of items, in order. -/
def entriesOf : List Item → List Bytes
  | [] => []
  | i :: rest => i.entries ++ entriesOf rest

/-- The fields of the client that reading an item does not touch. -/
def control (c : Client) :
    Option Conn × Nat × Int × Bool × Option (List repValue) × Bytes × Nat :=
  (c.conn, c.state, c.latestTag, c.mux, c.rep, c.cmd, c.allocLimit)

/-- The text `* 5 EXISTS\r\n* 1 FETCH (RFC822 {2}\r\nhi)\r\n1 OK\r\n`. -/
def pushFetchOK : Bytes :=
  [42, 32, 53, 32, 69, 88, 73, 83, 84, 83, 13, 10,
   42, 32, 49, 32, 70, 69, 84, 67, 72, 32, 40, 82, 70, 67, 56, 50, 50, 32, 123, 50, 125, 13, 10,
   104, 105, 41, 13, 10,
   49, 32, 79, 75, 13, 10]


/-! ## cmd.go: STARTTLS, LOGIN, SELECT, SEARCH -/

/-- The text ` STARTTLS\r\n`. -/
def reqStartTLS : Bytes := [32, 83, 84, 65, 82, 84, 84, 76, 83, 13, 10]

/-- The text `LOGIN`. -/
def tokLogin : Bytes := [76, 79, 71, 73, 78]

/-- The text `SELECT`. -/
def tokSelect : Bytes := [83, 69, 76, 69, 67, 84]

/-- The text `SEARCH`. -/
def tokSearch : Bytes := [83, 69, 65, 82, 67, 72]

/-- The text `FLAGS ` with its space. -/
def tokFlags : Bytes := [70, 76, 65, 71, 83, 32]

/-- The text `\r\n`. -/
def crlf : Bytes := [13, 10]

/-- The state a command function has reached, returned or parked. -/
def Sent.client : Sent → Client
  | .returned c _ => c
  | .waiting c => c

/-- Embeds `StartTLS` up to its receive (`cmd.go` 41-54): `prepareCmd`, the deferred
`cleanCmd`, `c.tlsHostname = hostname`, the write of `tag + " STARTTLS\r\n"`. -/
def StartTLSSend (c : Client) (hostname : Bytes) : Res Sent :=
  (prepareCmd c tokStartTLS).bind fun p =>
    match p.2.2 with
    | some e => .ok (.returned p.1 (some e))
    | none =>
      (writeString { p.1 with tlsHostname := hostname } (p.2.1 ++ reqStartTLS)).bind fun w =>
        match w.2 with
        | some e => (cleanCmd w.1).bind fun c3 => .ok (.returned c3 (some e))
        | none => .ok (.waiting w.1)

/-- Embeds `Login` up to its receive (`cmd.go` 150-160): the request is
`fmt.Sprintf("%s %s %s %s\r\n", tag, "LOGIN", user, pass)`. -/
def LoginSend (c : Client) (user pass : Bytes) : Res Sent :=
  issue c tokLogin (32 :: tokLogin ++ 32 :: user ++ 32 :: pass ++ crlf)

/-- Embeds `Select` up to its receive (`cmd.go` 175-185): the request is
`tag + " SELECT " + name + "\r\n"`. -/
def SelectSend (c : Client) (name : Bytes) : Res Sent :=
  issue c tokSelect (32 :: tokSelect ++ 32 :: name ++ crlf)

/-- Embeds `Search` up to its receive (`cmd.go` 220-230): the request is
`tag + " SEARCH " + criteria + "\r\n"`. -/
def SearchSend (c : Client) (criteria : Bytes) : Res Sent :=
  issue c tokSearch (32 :: tokSearch ++ 32 :: criteria ++ crlf)

/-- Embeds `strings.Split(s, " ")`: the pieces between the spaces, one more than there
are spaces; the empty text gives one empty piece. -/
def splitSpace : Bytes → List Bytes
  | [] => [[]]
  | b :: rest =>
    if b = 32 then [] :: splitSpace rest
    else match splitSpace rest with
      | h :: t => (b :: h) :: t
      | [] => [[b]]

/-- Lines 209-212 of `Select`: `lineString[6 : len(line)-2]` (a panic when the entry
has fewer than eight bytes), the first `(` and the first `)` taken out, the rest split
at the spaces. -/
def flagsOf (line : Bytes) : Res (List Bytes) :=
  if line.length < 8 then .panic .sliceBounds
  else .ok (splitSpace ((((line.take (line.length - 2)).drop 6).erase 40).erase 41))

/-- The body of the loop of `Select` (`cmd.go` 199-214) on one entry of the reply. -/
def selectLine (info : MailboxInfo) (line : Bytes) : Res MailboxInfo :=
  match Index line tokExists with
  | some ind => .ok { info with Exists := Atoi (line.take ind) }
  | none =>
    match Index line tokRecent with
    | some ind => .ok { info with Recent := Atoi (line.take ind) }
    | none =>
      if startsWith line tokFlags then
        (flagsOf line).bind fun fl => .ok { info with Flags := fl }
      else .ok info

/-- The loop of `Select` (`cmd.go` 198-215). -/
def selectLoop : List Bytes → MailboxInfo → Res MailboxInfo
  | [], info => .ok info
  | line :: rest, info => (selectLine info line).bind fun i => selectLoop rest i

/-- Embeds `Select` from its receive on (`cmd.go` 187-216): the reply's error if any;
otherwise `info = &MailboxInfo{Name: name}` is installed as `c.selectedMailbox` and
filled from the reply's data (the two are one object); the deferred `cleanCmd` runs
last. -/
def SelectReturn (c : Client) (name : Bytes) :
    Res (Client × Option MailboxInfo × Option Err) :=
  (recv c).bind fun p =>
    match p.2.err with
    | some e => (cleanCmd p.1).bind fun c2 => .ok (c2, none, some e)
    | none =>
      (selectLoop p.2.data { Name := name, Exists := 0, Recent := 0, Flags := [] }).bind
        fun info =>
          (cleanCmd { p.1 with selectedMailbox := some info }).bind fun c2 =>
            .ok (c2, some info, none)

/-- The tags of `n` calls of `newTag` one after the other. -/
def tagsFrom : Nat → Client → List Bytes
  | 0, _ => []
  | n + 1, c => (newTag c).2 :: tagsFrom n (newTag c).1

/-- The stream of a run of lines, each given without its line feed. -/
def wireLines : List Bytes → Bytes
  | [] => []
  | text :: rest => text ++ 10 :: wireLines rest

/-! ## More concrete inputs -/

/-- The client `liveClient` once `StartTLS("h")` is parked at its receive: tag `1`
allotted, `1 STARTTLS\r\n` written, the mutex held, the reply channel made and empty. -/
def tlsPending : Client :=
  { liveClient with
    conn := some { written := [49, 32, 83, 84, 65, 82, 84, 84, 76, 83, 13, 10],
                   failing := false, secure := false }
    latestTag := 1, mux := true, rep := some [], cmd := tokStartTLS, tlsHostname := [104] }

/-- The text `1 OK\r\n* 3 EXISTS\r\n`. -/
def okThenExists : Bytes :=
  [49, 32, 79, 75, 13, 10, 42, 32, 51, 32, 69, 88, 73, 83, 84, 83, 13, 10]

/-- The text `1 OK\r\n1 OK\r\n`. -/
def okTwice : Bytes := [49, 32, 79, 75, 13, 10, 49, 32, 79, 75, 13, 10]

/-- A handshake oracle: the first handshake fails, every later one succeeds and the
secured stream is empty. -/
def failsOnce (n : Nat) : Option Bytes := if n = 0 then none else some []

/-- The text `* 1 FETCH (FLAGS (\Seen))\r\n1 OK\r\n`: a reply to a FETCH whose only
untagged line carries no literal. -/
def fetchFlagsOnly : Bytes :=
  [42, 32, 49, 32, 70, 69, 84, 67, 72, 32, 40, 70, 76, 65, 71, 83, 32, 40, 92, 83, 101, 101,
   110, 41, 41, 13, 10,
   49, 32, 79, 75, 13, 10]

/-- The client `liveClient` once `Select("INBOX")` is parked at its receive. -/
def selectPending : Client :=
  { liveClient with
    conn := some { written := [49, 32, 83, 69, 76, 69, 67, 84, 32, 73, 78, 66, 79, 88, 13, 10],
                   failing := false, secure := false }
    latestTag := 1, mux := true, rep := some [], cmd := tokSelect }

/-- The text `* FLAGS ()\r\n1 OK\r\n`. -/
def flagsEmptyOK : Bytes :=
  [42, 32, 70, 76, 65, 71, 83, 32, 40, 41, 13, 10, 49, 32, 79, 75, 13, 10]

/-- The mailbox and error that `Select` hands back, without the state. -/
def selected (x : Res (Client × Option MailboxInfo × Option Err)) :
    Res (Option MailboxInfo × Option Err) :=
  x.bind fun p => .ok p.2

/-- The mailbox name `x\r\n2 LOGOUT`. -/
def nameWithCRLF : Bytes := [120, 13, 10, 50, 32, 76, 79, 71, 79, 85, 84]

/-- The text `1 SELECT x\r\n2 LOGOUT\r\n`. -/
def twoLines : Bytes :=
  [49, 32, 83, 69, 76, 69, 67, 84, 32, 120, 13, 10, 50, 32, 76, 79, 71, 79, 85, 84, 13, 10]

/-- The transport of `liveClient`. -/
def liveConn : Conn := { written := [], failing := false, secure := false }

/-- The request line of the spec's wire framing, `<tag> <COMMAND-NAME> <arguments>\r\n`,
as the spec words it. -/
def specRequestLine (tag cmd args : Bytes) : Bytes := tag ++ 32 :: (cmd ++ 32 :: (args ++ crlf))

/-- Embeds `strings.Join(flags, " ")`, the way a server writes a list of flags. -/
def joinSpace : List Bytes → Bytes
  | [] => []
  | [a] => a
  | a :: b :: rest => a ++ 32 :: joinSpace (b :: rest)

/-- The entry `FLAGS (<flags>)\r\n` of a reply to SELECT. -/
def flagsEntry (flags : List Bytes) : Bytes :=
  tokFlags ++ 40 :: (joinSpace flags ++ [41, 13, 10])

/-- An entry of the data of a reply to SELECT: `n EXISTS\r\n`, `n RECENT\r\n`,
`FLAGS (<flags>)\r\n`, or an entry that matches none of the three tests of the loop of
`Select`. -/
inductive SelectEntry where
  | existsN (n : Nat)
  | recentN (n : Nat)
  | flags (fl : List Bytes)
  | other (text : Bytes)
  deriving DecidableEq, Repr

/-- The bytes of an entry. -/
def SelectEntry.wire : SelectEntry → Bytes
  | .existsN n => Itoa (n : Int) ++ tokExists
  | .recentN n => Itoa (n : Int) ++ tokRecent
  | .flags fl => flagsEntry fl
  | .other text => text

/-- The entries as a server sends them: a number fits an `int`; a flag holds no space,
no closing parenthesis and no line feed; an entry of the fourth kind holds neither
` EXISTS\r\n` nor ` RECENT\r\n` and does not begin with `FLAGS `. -/
def SelectEntry.wellFormed : SelectEntry → Prop
  | .existsN n => n < 2 ^ 63
  | .recentN n => n < 2 ^ 63
  | .flags fl => ∀ f ∈ fl, 32 ∉ f ∧ 41 ∉ f ∧ 10 ∉ f
  | .other text =>
    Index text tokExists = none ∧ Index text tokRecent = none ∧ startsWith text tokFlags = false

/-- The number of the last entry `n EXISTS\r\n`, and `init` when there is none. -/
def lastExists (init : Int) : List SelectEntry → Int
  | [] => init
  | .existsN n :: rest => lastExists (n : Int) rest
  | _ :: rest => lastExists init rest

/-- The number of the last entry `n RECENT\r\n`, and `init` when there is none. -/
def lastRecent (init : Int) : List SelectEntry → Int
  | [] => init
  | .recentN n :: rest => lastRecent (n : Int) rest
  | _ :: rest => lastRecent init rest

/-- The flags of the last entry `FLAGS (<flags>)\r\n`, the list of one empty string when
that entry is `FLAGS ()\r\n`, and `init` when there is none. -/
def lastFlags (init : List Bytes) : List SelectEntry → List Bytes
  | [] => init
  | .flags fl :: rest => lastFlags (if fl = [] then [[]] else fl) rest
  | _ :: rest => lastFlags init rest

/-- A reply to `Select("INBOX")`: `3 EXISTS`, `OK\r\n`, `FLAGS (\Seen \Deleted)`,
`2 RECENT` and `5 EXISTS`, in this order. -/
def inboxEntries : List SelectEntry :=
  [.existsN 3, .other [79, 75, 13, 10],
   .flags [[92, 83, 101, 101, 110], [92, 68, 101, 108, 101, 116, 101, 100]],
   .recentN 2, .existsN 5]

/-! # Theorems -/

/-! ## Lemmas on results -/

@[simp] theorem Res.bind_ok {α β : Type} (a : α) (f : α → Res β) : (Res.ok a).bind f = f a := rfl

@[simp] theorem Res.bind_panic {α β : Type} (e : Fault) (f : α → Res β) :
    (Res.panic e : Res α).bind f = .panic e := rfl

@[simp] theorem Res.bind_blocked {α β : Type} (c : Client) (f : α → Res β) :
    (Res.blocked c : Res α).bind f = .blocked c := rfl

/-! ## Lemmas on the library functions -/

theorem isDigit_ne_lf {d : Nat} (h : isDigit d = true) : d ≠ 10 := by
  simp [isDigit] at h
  omega

theorem isDigit_not_star {d : Nat} (h : isDigit d = true) : d ≠ 42 := by
  simp [isDigit] at h
  omega

theorem digits_no_lf {t : Bytes} (h : ∀ d ∈ t, isDigit d = true) : 10 ∉ t := by
  intro hmem
  exact isDigit_ne_lf (h 10 hmem) rfl

/-- A line that ends at the first line feed is read whole. -/
theorem ReadBytes_line (body rest : Bytes) (h : 10 ∉ body) :
    ReadBytes (body ++ 10 :: rest) = (body ++ [10], rest, true) := by
  induction body with
  | nil => simp [ReadBytes]
  | cons x xs ih =>
    have hx : x ≠ 10 := by
      intro hx
      exact h (by simp [hx])
    have hxs : 10 ∉ xs := by
      intro hm
      exact h (by simp [hm])
    simp [ReadBytes, hx, ih hxs]

/-- A successful read consumes at least one byte. -/
theorem ReadBytes_shorter (s : Bytes) (h : (ReadBytes s).2.2 = true) :
    (ReadBytes s).2.1.length < s.length := by
  induction s with
  | nil => simp [ReadBytes] at h
  | cons x xs ih =>
    by_cases hx : x = 10
    · simp [ReadBytes, hx]
    · simp only [ReadBytes, hx, if_false] at h ⊢
      have := ih h
      simp only [List.length_cons]
      omega

/-- A failed read leaves nothing. -/
theorem ReadBytes_failed (s : Bytes) (h : (ReadBytes s).2.2 = false) :
    (ReadBytes s).2.1 = [] := by
  induction s with
  | nil => simp [ReadBytes]
  | cons x xs ih =>
    by_cases hx : x = 10
    · simp [ReadBytes, hx] at h
    · simp only [ReadBytes, hx, if_false] at h ⊢
      exact ih h

/-- The tail `.*\r\n$` accepts every text without a line feed followed by CR LF. -/
theorem dotStarCRLF_text (text : Bytes) (h : 10 ∉ text) :
    dotStarCRLF (text ++ [13, 10]) = true := by
  induction text with
  | nil => simp [dotStarCRLF]
  | cons x xs ih =>
    have hx : x ≠ 10 := by
      intro hx
      exact h (by simp [hx])
    have hxs : 10 ∉ xs := by
      intro hm
      exact h (by simp [hm])
    have := ih hxs
    cases xs with
    | nil => simp [dotStarCRLF, hx]
    | cons y ys =>
      cases ys with
      | nil => simpa [dotStarCRLF, hx] using this
      | cons z zs => simpa [dotStarCRLF, hx] using this

/-- What `regexOK` finds does not depend on the digits of the tag: on a line that
begins with a non-empty run of digits `t` and a space, it is what it finds with the tag
`0`, the first submatch replaced by `t`. -/
theorem regexOK_tag (t rest : Bytes) (ht : t ≠ []) (hd : ∀ d ∈ t, isDigit d = true) :
    regexOK (t ++ 32 :: rest) = (regexOK (48 :: 32 :: rest)).map (fun p => (t, p.2)) := by
  have h1 : (t ++ 32 :: rest).takeWhile isDigit = t := by
    rw [List.takeWhile_append_of_pos hd]
    simp [isDigit]
  have h2 : (t ++ 32 :: rest).dropWhile isDigit = 32 :: rest := by
    rw [List.dropWhile_append_of_pos hd]
    simp [isDigit]
  have h3 : (48 :: 32 :: rest).takeWhile isDigit = [48] := by simp [isDigit]
  have h4 : (48 :: 32 :: rest).dropWhile isDigit = 32 :: rest := by simp [isDigit]
  unfold regexOK
  simp only [h1, h2, h3, h4, ht, if_false]
  rcases rest with _ | ⟨a, _ | ⟨b, rest⟩⟩
  · simp
  · simp
  · simp only [List.cons_ne_nil, if_false]
    split
    · rcases rest with _ | ⟨c, rest⟩
      · simp
      · by_cases hc : isUpper c = true <;> simp [hc]
    · simp

/-- A line that begins with a digit begins with neither `* BYE` nor `* `. -/
theorem startsWith_digit (t rest p : Bytes) (ht : t ≠ []) (hd : ∀ d ∈ t, isDigit d = true) :
    startsWith (t ++ rest) (42 :: p) = false := by
  cases t with
  | nil => exact absurd rfl ht
  | cons d t =>
    have := isDigit_not_star (hd d (by simp))
    simp [startsWith, this]

/-- The turn of the loop on a stream whose first line is `body` and a line feed. -/
theorem listenIter_line (tls : Nat → Option Bytes) (c : Client) (body rest : Bytes)
    (hr : c.r = body ++ 10 :: rest) (h : 10 ∉ body) :
    listenIter tls c = some (listenBody tls { c with r := rest } (body ++ [10])) := by
  simp [listenIter, hr, ReadBytes_line body rest h]

/-- The submatches of `regexOK` on `<tag> <A><B><text>\r\n`, for capitals `A`, `B` and a
text without a line feed: the tag, and the status word, which takes the first byte of
the text when that is a capital too. -/
theorem regexOK_line (t text : Bytes) (a b : Nat) (ht : t ≠ [])
    (hd : ∀ d ∈ t, isDigit d = true) (ha : isUpper a = true) (hb : isUpper b = true)
    (htext : 10 ∉ text) :
    regexOK (t ++ 32 :: a :: b :: (text ++ [13, 10])) =
      some (t, statusWord a b text) := by
  rw [regexOK_tag t _ ht hd]
  have h3 : (48 :: 32 :: a :: b :: (text ++ [13, 10])).takeWhile isDigit = [48] := by
    simp [isDigit]
  have h4 : (48 :: 32 :: a :: b :: (text ++ [13, 10])).dropWhile isDigit =
      32 :: a :: b :: (text ++ [13, 10]) := by simp [isDigit]
  unfold regexOK
  simp only [h3, h4, ha, hb, dotStarCRLF_text text htext]
  cases text with
  | nil => simp [isUpper, statusWord]
  | cons x xs => by_cases hx : isUpper x = true <;> simp [hx, statusWord]

/-- A tagged line in stage Normal goes to `tagged` with its status word. -/
theorem listenBody_tagged (tls : Nat → Option Bytes) (c : Client) (t rest st : Bytes)
    (hs : c.state = normal) (ht : t ≠ []) (hd : ∀ d ∈ t, isDigit d = true)
    (hm : regexOK (t ++ 32 :: rest) = some (t, st)) :
    listenBody tls c (t ++ 32 :: rest) = tagged tls c st := by
  unfold listenBody
  have h0 : ¬ (normal = justConnected) := by decide
  simp only [hs, h0, if_false, if_true, tokBye, tokStar, startsWith_digit t _ _ ht hd, hm]
  simp

/-- A tagged NO line read in stage Normal with a command pending and its reply slot
free: the buffer is cleared and `ErrResultNo` is delivered without data. -/
theorem listenBody_NO (tls : Nat → Option Bytes) (c : Client) (t text : Bytes)
    (hs : c.state = normal) (hrep : c.rep = some []) (ht : t ≠ [])
    (hd : ∀ d ∈ t, isDigit d = true) (htext : 10 ∉ text)
    (hword : ∀ x ∈ text.head?, isUpper x = false) :
    listenBody tls c (t ++ 32 :: 78 :: 79 :: (text ++ [13, 10])) =
      .ok { c with latestRep := [], rep := some [{ err := some .ErrResultNo, data := [] }] } := by
  have hm := regexOK_line t text 78 79 ht hd (by decide) (by decide) htext
  have hst : statusWord 78 79 text = tokNo := by
    cases text with
    | nil => rfl
    | cons x xs =>
      have := hword x (by simp)
      simp [statusWord, this, tokNo]
  rw [hst] at hm
  rw [listenBody_tagged tls c t _ tokNo hs ht hd hm]
  simp [tagged, hrep, send]

/-- A tagged BAD line read in stage Normal with a command pending and its reply slot
free: the buffer is cleared and `ErrResultBad` is delivered without data. -/
theorem listenBody_BAD (tls : Nat → Option Bytes) (c : Client) (t text : Bytes)
    (hs : c.state = normal) (hrep : c.rep = some []) (ht : t ≠ [])
    (hd : ∀ d ∈ t, isDigit d = true) (htext : 10 ∉ text) :
    listenBody tls c (t ++ 32 :: 66 :: 65 :: 68 :: (text ++ [13, 10])) =
      .ok { c with latestRep := [], rep := some [{ err := some .ErrResultBad, data := [] }] } := by
  have h10 : 10 ∉ (68 :: text) := by simpa using htext
  have hm := regexOK_line t (68 :: text) 66 65 ht hd (by decide) (by decide) h10
  have h68 : isUpper 68 = true := by decide
  simp only [statusWord, h68, if_true, List.cons_append] at hm
  rw [listenBody_tagged tls c t _ tokBad hs ht hd hm]
  simp [tagged, hrep, send, tokBad, tokNo]

/-- A tagged OK line read in stage Normal with a command other than STARTTLS pending
and its reply slot free: the buffer is cleared and its former content is delivered
with a nil error. -/
theorem listenBody_OK (tls : Nat → Option Bytes) (c : Client) (t text : Bytes)
    (hs : c.state = normal) (hrep : c.rep = some []) (hcmd : c.cmd ≠ tokStartTLS)
    (ht : t ≠ []) (hd : ∀ d ∈ t, isDigit d = true) (htext : 10 ∉ text) :
    listenBody tls c (t ++ 32 :: 79 :: 75 :: (text ++ [13, 10])) =
      .ok { c with latestRep := [], rep := some [{ err := none, data := c.latestRep }] } := by
  have hm := regexOK_line t text 79 75 ht hd (by decide) (by decide) htext
  rw [listenBody_tagged tls c t _ _ hs ht hd hm]
  have hno : statusWord 79 75 text ≠ tokNo := by
    cases text with
    | nil => decide
    | cons x xs => by_cases hx : isUpper x = true <;> simp [statusWord, hx, tokNo]
  have hbad : statusWord 79 75 text ≠ tokBad := by
    cases text with
    | nil => decide
    | cons x xs => by_cases hx : isUpper x = true <;> simp [statusWord, hx, tokBad]
  simp [tagged, hrep, hno, hbad, upgrade, hcmd, send]

/-! ## The loop of `listen` comes to an end -/

/-- A read, failed or not, does not lengthen the stream. -/
theorem ReadBytes_le (s : Bytes) : (ReadBytes s).2.1.length ≤ s.length := by
  cases h : (ReadBytes s).2.2 with
  | true => exact Nat.le_of_lt (ReadBytes_shorter s h)
  | false => simp [ReadBytes_failed s h]

theorem readBulk_rep (c c1 : Client) (line : Bytes) (h : readBulk c line = .ok c1) :
    c1.rep = c.rep ∧ c1.r.length ≤ c.r.length := by
  unfold readBulk at h
  cases hb : regexBulkStart line with
  | none =>
    simp only [hb, Res.ok.injEq] at h
    subst h
    simp
  | some sub =>
    simp only [hb] at h
    by_cases hl : c.allocLimit < (Atoi sub).toNat
    · simp [hl] at h
    · simp only [hl, if_false] at h
      unfold ReadFull at h
      by_cases hn : (Atoi sub).toNat ≤ c.r.length
      · simp only [hn, if_true] at h
        have h1 := ReadBytes_le (List.drop (Atoi sub).toNat c.r)
        have h2 : (List.drop (Atoi sub).toNat c.r).length ≤ c.r.length := by simp
        split at h <;>
          (simp only [Res.ok.injEq] at h; subst h; exact ⟨rfl, by simp only []; omega⟩)
      · simp only [hn, if_false, Res.ok.injEq] at h
        subst h
        simp

theorem updateCounters_rep (c c1 : Client) (line : Bytes)
    (h : updateCounters c line = .ok c1) : c1.rep = c.rep ∧ c1.r = c.r := by
  unfold updateCounters at h
  cases hm : c.selectedMailbox with
  | none =>
    simp only [hm] at h
    cases h
    exact ⟨rfl, rfl⟩
  | some mb =>
    simp only [hm] at h
    cases he : setExists mb line with
    | panic f => simp [he] at h
    | blocked b => simp [he] at h
    | ok e =>
      simp only [he, Res.bind_ok] at h
      cases hu : setRecent e.1 e.2 line with
      | panic f => simp [hu] at h
      | blocked b => simp [hu] at h
      | ok u =>
        simp only [hu, Res.bind_ok] at h
        cases h
        exact ⟨rfl, rfl⟩

theorem untagged_progress (c c1 : Client) (line : Bytes) (h : untagged c line = .ok c1) :
    c1.r.length ≤ c.r.length ∧ c1.rep = c.rep := by
  unfold untagged at h
  cases hu : updateCounters c line with
  | panic f => simp [hu] at h
  | blocked b => simp [hu] at h
  | ok c2 =>
    simp only [hu, Res.bind_ok] at h
    have h1 := updateCounters_rep c c2 line hu
    have h2 := readBulk_rep { c2 with latestRep := c2.latestRep ++ [line.drop 2] } c1 line h
    refine ⟨?_, ?_⟩
    · have := h2.2
      rw [← h1.2]
      exact this
    · rw [h2.1]
      exact h1.1

/-- A send that goes through found the slot free and fills it. -/
theorem send_ok (c c1 : Client) (v : repValue) (h : send c v = .ok c1) :
    c.rep = some [] ∧ c1.rep = some [v] := by
  unfold send at h
  cases hrep : c.rep with
  | none => simp [hrep] at h
  | some q =>
    cases q with
    | nil =>
      simp only [hrep] at h
      cases h
      exact ⟨rfl, rfl⟩
    | cons v q => simp [hrep] at h

theorem upgrade_rep (tls : Nat → Option Bytes) (c : Client) (u : Client × Bool)
    (h : upgrade tls c = .ok u) : u.1.rep = c.rep ∧ (u.2 = false → u.1.r = c.r) := by
  unfold upgrade at h
  by_cases h3 : c.cmd = tokStartTLS
  · simp only [h3, if_true] at h
    cases hk : c.conn with
    | none => simp [hk] at h
    | some k =>
      simp only [hk] at h
      cases ht : tls c.handshakes with
      | none =>
        simp only [ht] at h
        cases h
        exact ⟨rfl, fun _ => rfl⟩
      | some s =>
        simp only [ht] at h
        cases h
        exact ⟨rfl, fun hh => by simp at hh⟩
  · simp only [h3, if_false] at h
    cases h
    exact ⟨rfl, fun hh => by simp at hh⟩

theorem tagged_progress (tls : Nat → Option Bytes) (c c1 : Client) (st : Bytes)
    (h : tagged tls c st = .ok c1) :
    (c1.r.length ≤ c.r.length ∧ c1.rep = c.rep) ∨ (c.rep = some [] ∧ ∃ v, c1.rep = some [v]) := by
  unfold tagged at h
  obtain hrep | ⟨q, hrep⟩ : c.rep = none ∨ ∃ q, c.rep = some q := by
    cases c.rep <;> simp
  · simp only [hrep] at h
    cases h
    exact Or.inl ⟨Nat.le_refl _, hrep.symm⟩
  · simp only [hrep] at h
    by_cases h1 : st = tokNo
    · rw [if_pos h1] at h
      have := send_ok _ _ _ h
      exact Or.inr ⟨hrep.trans this.1, _, this.2⟩
    · by_cases h2 : st = tokBad
      · rw [if_neg h1, if_pos h2] at h
        have := send_ok _ _ _ h
        exact Or.inr ⟨hrep.trans this.1, _, this.2⟩
      · rw [if_neg h1, if_neg h2] at h
        cases hu : upgrade tls { c with latestRep := [] } with
        | panic f =>
          simp only [hrep] at hu
          simp [hu] at h
        | blocked b =>
          simp only [hrep] at hu
          simp [hu] at h
        | ok u =>
          have hup := upgrade_rep tls _ u hu
          simp only [hrep] at hu
          simp only [hu, Res.bind_ok] at h
          cases hb : u.2 with
          | false =>
            simp only [hb] at h
            cases h
            exact Or.inl ⟨by rw [hup.2 hb], hup.1⟩
          | true =>
            simp only [hb, if_true] at h
            have := send_ok _ _ _ h
            exact Or.inr ⟨hup.1.symm.trans this.1, _, this.2⟩

/-- A turn of the loop that goes on either keeps the reply channel and does not
lengthen the stream, or has just filled the free reply slot. -/
theorem listenBody_progress (tls : Nat → Option Bytes) (c c1 : Client) (line : Bytes)
    (h : listenBody tls c line = .ok c1) :
    (c1.r.length ≤ c.r.length ∧ c1.rep = c.rep) ∨ (c.rep = some [] ∧ ∃ v, c1.rep = some [v]) := by
  unfold listenBody at h
  split at h
  · split at h <;> cases h <;> exact Or.inl ⟨Nat.le_refl _, rfl⟩
  · split at h
    · split at h
      · cases h
        exact Or.inl ⟨Nat.le_refl _, rfl⟩
      · split at h
        · exact Or.inl (untagged_progress c c1 line h)
        · split at h
          · exact tagged_progress tls c c1 _ h
          · cases h
            exact Or.inl ⟨Nat.le_refl _, rfl⟩
    · cases h
      exact Or.inl ⟨Nat.le_refl _, rfl⟩

theorem listenIter_progress (tls : Nat → Option Bytes) (c c1 : Client)
    (h : listenIter tls c = some (.ok c1)) :
    (c1.r.length < c.r.length ∧ c1.rep = c.rep) ∨ (c.rep = some [] ∧ ∃ v, c1.rep = some [v]) := by
  unfold listenIter at h
  by_cases hr : (ReadBytes c.r).2.2 = true
  · simp only [hr, if_true, Option.some.injEq] at h
    have hlt := ReadBytes_shorter c.r hr
    rcases listenBody_progress tls _ c1 _ h with h1 | h1
    · left
      refine ⟨?_, h1.2⟩
      have := h1.1
      simp only [] at this
      omega
    · right
      exact h1
  · simp [hr] at h

/-- Once the reply slot is taken or the channel is nil, the stream only shrinks. -/
theorem listen_total_settled (tls : Nat → Option Bytes) (n : Nat) :
    ∀ c : Client, c.rep ≠ some [] → c.r.length < n → ∃ res, listen tls n c = some res := by
  induction n with
  | zero => intro c _ h; omega
  | succ n ih =>
    intro c hrep hn
    unfold listen
    cases hi : listenIter tls c with
    | none => exact ⟨_, rfl⟩
    | some x =>
      cases x with
      | panic f => exact ⟨_, rfl⟩
      | blocked b => exact ⟨_, rfl⟩
      | ok c1 =>
        simp only
        rcases listenIter_progress tls c c1 hi with h1 | h1
        · exact ih c1 (by rw [h1.2]; exact hrep) (by omega)
        · exact absurd h1.1 hrep

/-- More fuel does not change a result. -/
theorem listen_mono (tls : Nat → Option Bytes) (n : Nat) :
    ∀ (c : Client) (res : Res Client) (k : Nat),
      listen tls n c = some res → listen tls (n + k) c = some res := by
  induction n with
  | zero => intro c res k h; simp [listen] at h
  | succ n ih =>
    intro c res k h
    have e : n + 1 + k = (n + k) + 1 := by omega
    rw [e]
    unfold listen at h ⊢
    cases hi : listenIter tls c with
    | none => simpa [hi] using h
    | some x =>
      cases x with
      | panic f => simpa [hi] using h
      | blocked b => simpa [hi] using h
      | ok c1 =>
        simp only [hi] at h ⊢
        exact ih c1 res k h

/-- The reader always comes to an end: for every state some fuel gives a result (the
exit code has run, or the reader has panicked or is parked). -/
theorem listen_total (tls : Nat → Option Bytes) (c : Client) :
    ∃ fuel res, listen tls fuel c = some res := by
  by_cases hrep : c.rep = some []
  · have key : ∀ (n : Nat) (c : Client), c.r.length < n →
        ∃ fuel res, listen tls fuel c = some res := by
      intro n
      induction n with
      | zero => intro c h; omega
      | succ n ih =>
        intro c hn
        cases hi : listenIter tls c with
        | none => exact ⟨1, _, by unfold listen; rw [hi]⟩
        | some x =>
          cases x with
          | panic f => exact ⟨1, _, by unfold listen; rw [hi]⟩
          | blocked b => exact ⟨1, _, by unfold listen; rw [hi]⟩
          | ok c1 =>
            rcases listenIter_progress tls c c1 hi with h1 | h1
            · obtain ⟨fuel, res, h⟩ := ih c1 (by omega)
              exact ⟨fuel + 1, res, by unfold listen; rw [hi]; exact h⟩
            · obtain ⟨v, hv⟩ := h1.2
              obtain ⟨res, h⟩ := listen_total_settled tls (c1.r.length + 1) c1
                (by rw [hv]; simp) (by omega)
              exact ⟨c1.r.length + 1 + 1, res, by unfold listen; rw [hi]; exact h⟩
    exact key (c.r.length + 1) c (by omega)
  · obtain ⟨res, h⟩ := listen_total_settled tls (c.r.length + 1) c hrep (by omega)
    exact ⟨_, res, h⟩

/-! ## Decimal numbers -/

theorem digitsVal_snoc (ds : Bytes) (d : Nat) :
    digitsVal (ds ++ [d]) = digitsVal ds * 10 + (d - 48) := by
  simp [digitsVal, List.foldl_append]

theorem natDigitsAux_spec (fuel : Nat) :
    ∀ (n : Nat) (acc : Bytes), n < fuel →
      ∃ ds, natDigitsAux fuel n acc = ds ++ acc ∧ ds ≠ [] ∧
        (∀ d ∈ ds, isDigit d = true) ∧ digitsVal ds = n := by
  induction fuel with
  | zero => intro n acc h; omega
  | succ fuel ih =>
    intro n acc hn
    by_cases h10 : n < 10
    · refine ⟨[n + 48], by simp [natDigitsAux, h10], by simp, ?_, ?_⟩
      · intro d hd
        simp at hd
        subst hd
        simp [isDigit]
        omega
      · simp [digitsVal]
    · have hlt : n / 10 < fuel := by omega
      obtain ⟨ds, h1, _, h3, h4⟩ := ih (n / 10) ((n % 10 + 48) :: acc) hlt
      refine ⟨ds ++ [n % 10 + 48], by simp [natDigitsAux, h10, h1], by simp, ?_, ?_⟩
      · intro d hd
        rcases List.mem_append.1 hd with hd | hd
        · exact h3 d hd
        · simp at hd
          subst hd
          simp [isDigit]
          omega
      · rw [digitsVal_snoc, h4]
        omega

/-- The decimal rendering is a non-empty run of digits whose value is the number. -/
theorem natDigits_spec (n : Nat) :
    natDigits n ≠ [] ∧ (∀ d ∈ natDigits n, isDigit d = true) ∧ digitsVal (natDigits n) = n := by
  obtain ⟨ds, h1, h2, h3, h4⟩ := natDigitsAux_spec (n + 1) n [] (by omega)
  have : natDigits n = ds := by simpa [natDigits] using h1
  rw [this]
  exact ⟨h2, h3, h4⟩

/-- Value of `Atoi` on a non-empty run of digits within the range of `int`. -/
theorem Atoi_digits (ds : Bytes) (h1 : ds ≠ []) (h2 : ∀ d ∈ ds, isDigit d = true)
    (h3 : digitsVal ds < 2 ^ 63) : Atoi ds = (digitsVal ds : Int) := by
  cases ds with
  | nil => exact absurd rfl h1
  | cons d t =>
    have hd : isDigit d = true := h2 d (by simp)
    have hd' : 48 ≤ d ∧ d ≤ 57 := by simpa [isDigit] using hd
    have hall : (d :: t).all isDigit = true := by
      simp only [List.all_eq_true]
      exact h2
    have e43 : d ≠ 43 := by omega
    have e45 : d ≠ 45 := by omega
    have hbody : stripSign (d :: t) = d :: t := by
      unfold stripSign
      split
      · rename_i heq
        simp at heq
        omega
      · rename_i heq
        simp at heq
        omega
      · rfl
    unfold Atoi
    rw [hbody]
    have hlt : (digitsVal (d :: t) : Int) < 2 ^ 63 := by exact_mod_cast h3
    have hne : ¬ ((d :: t) = [] ∨ (d :: t).all isDigit = false) := by
      simp only [hall]
      simp
    rw [if_neg hne]
    have h45 : ¬ ((d :: t).head? = some 45) := by simpa using e45
    rw [if_neg h45]
    omega

/-- Round trip: `Atoi` undoes `Itoa` on the natural numbers that fit an `int`. -/
theorem Atoi_natDigits (n : Nat) (h : n < 2 ^ 63) : Atoi (natDigits n) = (n : Int) := by
  obtain ⟨h1, h2, h3⟩ := natDigits_spec n
  rw [Atoi_digits (natDigits n) h1 h2 (by rw [h3]; exact h), h3]

theorem Itoa_natCast (n : Nat) : Itoa (n : Int) = natDigits n := by
  have : ¬ ((n : Int) < 0) := by omega
  simp [Itoa, this]

/-! ## Searching a line -/

theorem startsWith_append (p t : Bytes) : startsWith (p ++ t) p = true := by
  induction p with
  | nil => cases t <;> rfl
  | cons x xs ih => simp [startsWith, ih]

/-- On a line, a pattern that ends in a line feed can only sit at the end. -/
theorem startsWith_line (body : Bytes) :
    ∀ p : Bytes, 10 ∉ body → 10 ∉ p →
      (startsWith (body ++ [10]) (p ++ [10]) = true ↔ body = p) := by
  induction body with
  | nil =>
    intro p _ hp
    cases p with
    | nil => simp [startsWith]
    | cons y ys =>
      have hy : (10 : Nat) ≠ y := by
        intro h
        exact hp (by simp [h])
      simp [startsWith, hy]
  | cons x xs ih =>
    intro p hb hp
    have hx : x ≠ 10 := by
      intro h
      exact hb (by simp [h])
    have hxs : 10 ∉ xs := by
      intro h
      exact hb (by simp [h])
    cases p with
    | nil => simp [startsWith, hx]
    | cons y ys =>
      have hys : 10 ∉ ys := by
        intro h
        exact hp (by simp [h])
      simp [startsWith, ih ys hxs hys]

/-- Search: `bytes.Index` finds a pattern that ends in a line feed at the end of the line. -/
theorem Index_suffix (pre p : Bytes) (h1 : 10 ∉ pre) (h2 : 10 ∉ p) :
    Index (pre ++ (p ++ [10])) (p ++ [10]) = some pre.length := by
  induction pre with
  | nil =>
    cases p with
    | nil => simp [Index, startsWith]
    | cons y ys =>
      have := startsWith_append (y :: ys ++ [10]) []
      simp only [List.append_nil, List.cons_append] at this
      simp [Index, this]
  | cons x xs ih =>
    have hxs : 10 ∉ xs := by
      intro h
      exact h1 (by simp [h])
    have hbody : 10 ∉ x :: xs ++ p := by
      intro h
      rcases List.mem_append.1 h with h | h
      · exact h1 h
      · exact h2 h
    have hne : x :: xs ++ p ≠ p := by
      intro h
      have := congrArg List.length h
      simp at this
      omega
    have hs : startsWith (x :: (xs ++ (p ++ [10]))) (p ++ [10]) = false := by
      have := (startsWith_line (x :: xs ++ p) p hbody h2).not.2 hne
      simpa using this
    simp [Index, hs, ih hxs]

/-- Search: `bytes.Index` finds nothing when the line does not end in the pattern. -/
theorem Index_none (body : Bytes) :
    ∀ p : Bytes, 10 ∉ body → 10 ∉ p → (∀ pre, body ≠ pre ++ p) →
      Index (body ++ [10]) (p ++ [10]) = none := by
  induction body with
  | nil =>
    intro p _ hp h
    have hne : p ≠ [] := by
      intro hp0
      exact h [] (by simp [hp0])
    cases p with
    | nil => exact absurd rfl hne
    | cons y ys =>
      have hy : (10 : Nat) ≠ y := by
        intro h
        exact hp (by simp [h])
      simp [Index, startsWith, hy]
  | cons x xs ih =>
    intro p hb hp h
    have hxs : 10 ∉ xs := by
      intro hm
      exact hb (by simp [hm])
    have hs : startsWith (x :: (xs ++ [10])) (p ++ [10]) = false := by
      have := (startsWith_line (x :: xs) p hb hp).not.2 (by simpa using h [])
      simpa using this
    have hih := ih p hxs hp (fun pre hpre => h (x :: pre) (by simp [hpre]))
    simp [Index, hs, hih]

/-! ## The counter lines -/

/-- The text ` EXISTS\r`, the pattern without its line feed. -/
theorem tokExists_eq : tokExists = [32, 69, 88, 73, 83, 84, 83, 13] ++ [10] := rfl

theorem tokRecent_eq : tokRecent = [32, 82, 69, 67, 69, 78, 84, 13] ++ [10] := rfl

/-- On `* <digits> EXISTS\r\n` the counter `Exists` is set from the digits and
` RECENT\r\n` is not found. -/
theorem counters_exists_line (mb : MailboxInfo) (ds : Bytes)
    (hd : ∀ d ∈ ds, isDigit d = true) :
    setExists mb (42 :: 32 :: (ds ++ tokExists)) = .ok ({ mb with Exists := Atoi ds }, true) ∧
    setRecent { mb with Exists := Atoi ds } true (42 :: 32 :: (ds ++ tokExists)) =
      .ok ({ mb with Exists := Atoi ds }, true) := by
  have hds : 10 ∉ ds := digits_no_lf hd
  have hpre : 10 ∉ 42 :: 32 :: ds := by simp [hds]
  have hi : Index (42 :: 32 :: (ds ++ tokExists)) tokExists = some (ds.length + 2) := by
    have := Index_suffix (42 :: 32 :: ds) [32, 69, 88, 73, 83, 84, 83, 13] hpre (by decide)
    simpa [tokExists_eq] using this
  have hn : Index (42 :: 32 :: (ds ++ tokExists)) tokRecent = none := by
    have hbody : 10 ∉ 42 :: 32 :: (ds ++ [32, 69, 88, 73, 83, 84, 83, 13]) := by simp [hds]
    have := Index_none (42 :: 32 :: (ds ++ [32, 69, 88, 73, 83, 84, 83, 13]))
      [32, 82, 69, 67, 69, 78, 84, 13] hbody (by decide) (by
        intro pre h
        have h' : (42 :: 32 :: ds) ++ [32, 69, 88, 73, 83, 84, 83, 13] =
            pre ++ [32, 82, 69, 67, 69, 78, 84, 13] := by simpa using h
        have := (List.append_inj' h' rfl).2
        simp at this)
    simpa [tokExists_eq, tokRecent_eq] using this
  have hslice : List.drop 2 (List.take (ds.length + 2) (42 :: 32 :: (ds ++ tokExists))) = ds := by
    simp [List.take_append_eq_append_take]
  refine ⟨?_, ?_⟩
  · simp [setExists, hi, hslice]
  · simp [setRecent, hn]

/-- On `* <digits> RECENT\r\n` ` EXISTS\r\n` is not found and the counter `Recent` is
set from the digits. -/
theorem counters_recent_line (mb : MailboxInfo) (ds : Bytes)
    (hd : ∀ d ∈ ds, isDigit d = true) :
    setExists mb (42 :: 32 :: (ds ++ tokRecent)) = .ok (mb, false) ∧
    setRecent mb false (42 :: 32 :: (ds ++ tokRecent)) =
      .ok ({ mb with Recent := Atoi ds }, true) := by
  have hds : 10 ∉ ds := digits_no_lf hd
  have hpre : 10 ∉ 42 :: 32 :: ds := by simp [hds]
  have hi : Index (42 :: 32 :: (ds ++ tokRecent)) tokRecent = some (ds.length + 2) := by
    have := Index_suffix (42 :: 32 :: ds) [32, 82, 69, 67, 69, 78, 84, 13] hpre (by decide)
    simpa [tokRecent_eq] using this
  have hn : Index (42 :: 32 :: (ds ++ tokRecent)) tokExists = none := by
    have hbody : 10 ∉ 42 :: 32 :: (ds ++ [32, 82, 69, 67, 69, 78, 84, 13]) := by simp [hds]
    have := Index_none (42 :: 32 :: (ds ++ [32, 82, 69, 67, 69, 78, 84, 13]))
      [32, 69, 88, 73, 83, 84, 83, 13] hbody (by decide) (by
        intro pre h
        have h' : (42 :: 32 :: ds) ++ [32, 82, 69, 67, 69, 78, 84, 13] =
            pre ++ [32, 69, 88, 73, 83, 84, 83, 13] := by simpa using h
        have := (List.append_inj' h' rfl).2
        simp at this)
    simpa [tokExists_eq, tokRecent_eq] using this
  have hslice : List.drop 2 (List.take (ds.length + 2) (42 :: 32 :: (ds ++ tokRecent))) = ds := by
    simp [List.take_append_eq_append_take]
  refine ⟨?_, ?_⟩
  · simp [setExists, hn]
  · simp [setRecent, hi, hslice]

/-- A line `* <digits><text>` is neither a BYE line nor one without the `* `. -/
theorem startsWith_counter_line (ds rest : Bytes) (hne : ds ≠ [])
    (hd : ∀ d ∈ ds, isDigit d = true) :
    startsWith (42 :: 32 :: (ds ++ rest)) tokBye = false ∧
    startsWith (42 :: 32 :: (ds ++ rest)) tokStar = true := by
  cases ds with
  | nil => exact absurd rfl hne
  | cons d t =>
    have hd' : 48 ≤ d ∧ d ≤ 57 := by simpa [isDigit] using hd d (by simp)
    have : d ≠ 66 := by omega
    simp [startsWith, tokBye, tokStar, this]

theorem regexBulkStart_counter_line (pre : Bytes) :
    regexBulkStart (pre ++ tokExists) = none ∧ regexBulkStart (pre ++ tokRecent) = none := by
  simp [regexBulkStart, tokExists, tokRecent]

/-- What the exit code delivers: the reply `ErrConnDead` without data. -/
theorem listenExit_ok (c c1 : Client) (h : listenExit c = .ok c1) :
    c1.conn = none ∧
      (c1.rep = none ∨ c1.rep = some [{ err := some .ErrConnDead, data := [] }]) := by
  unfold listenExit at h
  obtain hrep | ⟨q, hrep⟩ : c.rep = none ∨ ∃ q, c.rep = some q := by
    cases c.rep <;> simp
  · simp only [hrep] at h
    cases h
    exact ⟨rfl, Or.inl rfl⟩
  · simp only [hrep] at h
    cases q with
    | nil =>
      simp only [send] at h
      cases h
      exact ⟨rfl, Or.inr rfl⟩
    | cons v q => simp [send] at h

theorem listen_ok (tls : Nat → Option Bytes) (fuel : Nat) :
    ∀ c c1 : Client, listen tls fuel c = some (.ok c1) →
      c1.conn = none ∧
        (c1.rep = none ∨ c1.rep = some [{ err := some .ErrConnDead, data := [] }]) := by
  induction fuel with
  | zero => intro c c1 h; simp [listen] at h
  | succ fuel ih =>
    intro c c1 h
    unfold listen at h
    cases hi : listenIter tls c with
    | none =>
      simp only [hi, Option.some.injEq] at h
      exact listenExit_ok _ c1 h
    | some x =>
      cases x with
      | panic f => simp [hi] at h
      | blocked b => simp [hi] at h
      | ok c2 =>
        simp only [hi] at h
        exact ih c2 c1 h

/-! ## Literals -/

/-- Value of `regexBulkStart` on a line `<front>{<digits>}\r\n`: the digits. -/
theorem regexBulkStart_marker (front ds : Bytes) (hf : 10 ∉ front) (hne : ds ≠ [])
    (hd : ∀ d ∈ ds, isDigit d = true) :
    regexBulkStart (front ++ 123 :: (ds ++ [125, 13, 10])) = some ds := by
  have hrev : (front ++ 123 :: (ds ++ [125, 13, 10])).reverse =
      10 :: 13 :: 125 :: (ds.reverse ++ 123 :: front.reverse) := by simp
  have hdr : ∀ d ∈ ds.reverse, isDigit d = true := fun d h => hd d (List.mem_reverse.1 h)
  have h1 : (ds.reverse ++ 123 :: front.reverse).takeWhile isDigit = ds.reverse := by
    rw [List.takeWhile_append_of_pos hdr]
    simp [isDigit]
  have h2 : (ds.reverse ++ 123 :: front.reverse).dropWhile isDigit = 123 :: front.reverse := by
    rw [List.dropWhile_append_of_pos hdr]
    simp [isDigit]
  have h3 : front.reverse.all (fun b => decide (b ≠ 10)) = true := by
    simp only [List.all_eq_true, List.mem_reverse, decide_eq_true_eq]
    intro x hx hx10
    exact hf (hx10 ▸ hx)
  unfold regexBulkStart
  rw [hrev]
  simp only [h1, h2, h3, List.reverse_reverse, hne, if_false, if_true]

/-- A line that ends in `}\r\n` carries no counter. -/
theorem Index_marker_line (front : Bytes) (hf : 10 ∉ front) :
    Index (front ++ [125, 13, 10]) tokExists = none ∧
    Index (front ++ [125, 13, 10]) tokRecent = none := by
  have hbody : 10 ∉ front ++ [125, 13] := by simp [hf]
  have e : front ++ [125, 13, 10] = (front ++ [125, 13]) ++ [10] := by simp
  rw [e, tokExists_eq, tokRecent_eq]
  constructor
  · apply Index_none _ _ hbody (by decide)
    intro pre h
    have h' : front ++ [125, 13] = (pre ++ [32, 69, 88, 73, 83, 84]) ++ [83, 13] := by
      simpa using h
    have := (List.append_inj' h' rfl).2
    simp at this
  · apply Index_none _ _ hbody (by decide)
    intro pre h
    have h' : front ++ [125, 13] = (pre ++ [32, 82, 69, 67, 69, 78]) ++ [84, 13] := by
      simpa using h
    have := (List.append_inj' h' rfl).2
    simp at this

/-- A line without a counter leaves the state as it is. -/
theorem updateCounters_none (c : Client) (line : Bytes) (h1 : Index line tokExists = none)
    (h2 : Index line tokRecent = none) : updateCounters c line = .ok c := by
  unfold updateCounters
  cases hm : c.selectedMailbox with
  | none => rfl
  | some mb =>
    simp only [setExists, setRecent, h1, h2, Res.bind_ok]
    cases c
    simp_all

/-- The literal is read whole: `n` bytes, then up to the line feed that follows. -/
theorem ReadFull_exact (b rest : Bytes) : ReadFull b.length (b ++ rest) = (some b, rest) := by
  simp [ReadFull]

/-- The turn of the loop on an untagged line `* <pre>{<digits>}\r\n` that is not a BYE
line, followed by a payload `b` of the announced length, which `make` allocates, by a
trailer without a line feed and by a line feed: the line without its `* ` and the payload
are appended, the trailer is dropped, and the stream stands right after that line feed. -/
theorem listenIter_literal (tls : Nat → Option Bytes) (c : Client)
    (pre ds b trailer tail : Bytes) (hs : c.state = normal) (hpre : 10 ∉ pre)
    (hne : ds ≠ []) (hd : ∀ d ∈ ds, isDigit d = true) (hv : digitsVal ds < 2 ^ 63)
    (hlim : digitsVal ds ≤ c.allocLimit)
    (hb : b.length = digitsVal ds) (htr : 10 ∉ trailer)
    (hbye : startsWith (42 :: 32 :: (pre ++ 123 :: (ds ++ [125, 13, 10]))) tokBye = false)
    (hr : c.r = 42 :: 32 :: (pre ++ 123 :: (ds ++ 125 :: 13 :: 10 ::
            (b ++ (trailer ++ 10 :: tail))))) :
    listenIter tls c =
      some (.ok { c with
                  r := tail
                  latestRep := c.latestRep ++ [pre ++ 123 :: (ds ++ [125, 13, 10]), b] }) := by
  have hds : 10 ∉ ds := digits_no_lf hd
  have hr' : c.r = (42 :: 32 :: (pre ++ 123 :: (ds ++ [125, 13]))) ++
      10 :: (b ++ (trailer ++ 10 :: tail)) := by simp [hr]
  rw [listenIter_line tls c _ _ hr' (by simp [hpre, hds])]
  have hline : 42 :: 32 :: (pre ++ 123 :: (ds ++ [125, 13])) ++ [10] =
      42 :: 32 :: (pre ++ 123 :: (ds ++ [125, 13, 10])) := by simp
  rw [hline]
  have h0 : ¬ (normal = justConnected) := by decide
  have hstar : startsWith (42 :: 32 :: (pre ++ 123 :: (ds ++ [125, 13, 10]))) tokStar = true := by
    cases pre <;> simp [startsWith, tokStar]
  have hfront : 10 ∉ 42 :: 32 :: pre := by simp [hpre]
  have hbulk : regexBulkStart (42 :: 32 :: (pre ++ 123 :: (ds ++ [125, 13, 10]))) = some ds := by
    have := regexBulkStart_marker (42 :: 32 :: pre) ds hfront hne hd
    simpa using this
  have hidx := Index_marker_line (42 :: 32 :: (pre ++ 123 :: ds)) (by simp [hpre, hds])
  have hcount : ∀ c1 : Client,
      updateCounters c1 (42 :: 32 :: (pre ++ 123 :: (ds ++ [125, 13, 10]))) = .ok c1 := by
    intro c1
    apply updateCounters_none
    · simpa using hidx.1
    · simpa using hidx.2
  have hat : (Atoi ds).toNat = b.length := by
    rw [Atoi_digits ds hne hd hv, hb]
    simp
  have hfull : ReadFull (Atoi ds).toNat (b ++ (trailer ++ 10 :: tail)) =
      (some b, trailer ++ 10 :: tail) := by
    rw [hat]
    exact ReadFull_exact b _
  have hrest := ReadBytes_line trailer tail htr
  have hnl : ¬ (c.allocLimit < (Atoi ds).toNat) := by
    rw [hat, hb]
    omega
  simp only [listenBody, hs, h0, if_false, if_true, hbye, hstar, untagged, hcount, Res.bind_ok,
    readBulk, hbulk, hnl, hfull, hrest]
  simp

/-! ## Items -/

theorem updateCounters_frame (c c1 : Client) (line : Bytes)
    (h : updateCounters c line = .ok c1) :
    c1.r = c.r ∧ c1.latestRep = c.latestRep ∧ control c1 = control c := by
  unfold updateCounters at h
  cases hm : c.selectedMailbox with
  | none =>
    simp only [hm] at h
    cases h
    exact ⟨rfl, rfl, rfl⟩
  | some mb =>
    simp only [hm] at h
    cases he : setExists mb line with
    | panic f => simp [he] at h
    | blocked b => simp [he] at h
    | ok e =>
      simp only [he, Res.bind_ok] at h
      cases hu : setRecent e.1 e.2 line with
      | panic f => simp [hu] at h
      | blocked b => simp [hu] at h
      | ok u =>
        simp only [hu, Res.bind_ok] at h
        cases h
        exact ⟨rfl, rfl, rfl⟩

/-- The counters are updated without a panic when neither pattern sits at index 0
or 1. -/
theorem updateCounters_ok (c : Client) (line : Bytes)
    (h1 : ∀ ind, Index line tokExists = some ind → 2 ≤ ind)
    (h2 : ∀ ind, Index line tokRecent = some ind → 2 ≤ ind) :
    ∃ c1, updateCounters c line = .ok c1 := by
  unfold updateCounters
  cases hm : c.selectedMailbox with
  | none => exact ⟨c, rfl⟩
  | some mb =>
    simp only
    have he : ∃ e, setExists mb line = .ok e := by
      unfold setExists
      cases hi : Index line tokExists with
      | none => exact ⟨_, rfl⟩
      | some ind =>
        have := h1 ind hi
        have hlt : ¬ ind < 2 := by omega
        simp only [hlt, if_false]
        exact ⟨_, rfl⟩
    obtain ⟨e, he⟩ := he
    have hu : ∃ u, setRecent e.1 e.2 line = .ok u := by
      unfold setRecent
      cases hi : Index line tokRecent with
      | none => exact ⟨_, rfl⟩
      | some ind =>
        have := h2 ind hi
        have hlt : ¬ ind < 2 := by omega
        simp only [hlt, if_false]
        exact ⟨_, rfl⟩
    obtain ⟨u, hu⟩ := hu
    exact ⟨_, by rw [he, Res.bind_ok, hu, Res.bind_ok]⟩

theorem Index_cons (x : Nat) (xs sep : Bytes) :
    Index (x :: xs) sep =
      if startsWith (x :: xs) sep then some 0 else (Index xs sep).map (· + 1) := rfl

/-- On a line `* <text>\n` a pattern ` <word>\n` is found at index 2 or later, unless
the text is the word. -/
theorem Index_untagged (text p : Bytes) (ht : 10 ∉ text) (hp : 10 ∉ p) (hne : text ≠ p) :
    ∀ ind, Index (42 :: 32 :: (text ++ [10])) (32 :: p ++ [10]) = some ind → 2 ≤ ind := by
  intro ind h
  have h32 : 10 ∉ 32 :: text := by simp [ht]
  have h32p : 10 ∉ 32 :: p := by simp [hp]
  have hs : startsWith (32 :: (text ++ [10])) (32 :: p ++ [10]) = false := by
    have := (startsWith_line (32 :: text) (32 :: p) h32 h32p).not.2 (by simpa using hne)
    simpa using this
  have hs0 : startsWith (42 :: 32 :: (text ++ [10])) (32 :: p ++ [10]) = false := by
    simp [startsWith]
  rw [Index_cons, hs0, Index_cons, hs] at h
  simp at h
  obtain ⟨a, _, rfl⟩ := h
  omega

/-- A BYE line begins with `* `. -/
theorem startsWith_bye_star (l : Bytes) (h : startsWith l tokStar = false) :
    startsWith l tokBye = false := by
  rcases l with _ | ⟨a, _ | ⟨b, l⟩⟩
  · rfl
  · simp [startsWith, tokBye, tokStar] at h ⊢
  · simp only [startsWith, tokStar, tokBye, Bool.and_true] at h ⊢
    cases ha : decide (a = 42) <;> cases hb : decide (b = 32) <;> simp_all

theorem listenBody_untagged (tls : Nat → Option Bytes) (c : Client) (line : Bytes)
    (hs : c.state = normal) (hbye : startsWith line tokBye = false)
    (hstar : startsWith line tokStar = true) : listenBody tls c line = untagged c line := by
  have h0 : ¬ (normal = justConnected) := by decide
  unfold listenBody
  rw [hs, if_neg h0, if_pos rfl, hbye, hstar]
  simp

theorem listenBody_plain (tls : Nat → Option Bytes) (c : Client) (line : Bytes)
    (hs : c.state = normal) (hstar : startsWith line tokStar = false)
    (hre : regexOK line = none) :
    listenBody tls c line = .ok { c with latestRep := c.latestRep ++ [line] } := by
  have h0 : ¬ (normal = justConnected) := by decide
  unfold listenBody
  rw [hs, if_neg h0, if_pos rfl, startsWith_bye_star line hstar, hstar, hre]
  simp

/-- The turn of the loop on a well-formed item in stage Normal: the loop goes on, the
stream stands after the item, the buffer has grown by the item's entries, and the
transport, the stage, the tag counter, the mutex, the reply channel and the command
name are as before. -/
theorem item_turn (tls : Nat → Option Bytes) (c : Client) (item : Item) (rest : Bytes)
    (hs : c.state = normal) (hw : item.wellFormed c.allocLimit)
    (hr : c.r = item.wire ++ rest) :
    ∃ c1, listenIter tls c = some (.ok c1) ∧ c1.r = rest ∧
      c1.latestRep = c.latestRep ++ item.entries ∧ control c1 = control c := by
  have h0 : ¬ (normal = justConnected) := by decide
  cases item with
  | untagged text =>
    obtain ⟨ht, hbye, hbulk, hE, hR⟩ := hw
    have hr' : c.r = (42 :: 32 :: text) ++ 10 :: rest := by simp [hr, Item.wire]
    rw [listenIter_line tls c _ rest hr' (by simp [ht])]
    have hline : 42 :: 32 :: text ++ [10] = 42 :: 32 :: (text ++ [10]) := by simp
    rw [hline]
    have hstar : startsWith (42 :: 32 :: (text ++ [10])) tokStar = true := by
      simp [startsWith, tokStar]
    obtain ⟨c2, hc2⟩ := updateCounters_ok { c with r := rest } (42 :: 32 :: (text ++ [10]))
      (Index_untagged text [69, 88, 73, 83, 84, 83, 13] ht (by decide) hE)
      (Index_untagged text [82, 69, 67, 69, 78, 84, 13] ht (by decide) hR)
    obtain ⟨f1, f2, f3⟩ := updateCounters_frame _ c2 _ hc2
    refine ⟨{ c2 with latestRep := c2.latestRep ++ [text ++ [10]] }, ?_, ?_, ?_, ?_⟩
    · rw [listenBody_untagged tls { c with r := rest } _ hs hbye hstar]
      unfold untagged
      rw [hc2, Res.bind_ok]
      simp only [readBulk, hbulk]
      rfl
    · exact f1
    · simp [f2, Item.entries]
    · exact f3
  | literal pre ds payload trailer =>
    obtain ⟨hpre, hne, hd, hv, hlim, hb, htr, hbye⟩ := hw
    have := listenIter_literal tls c pre ds payload trailer rest hs hpre hne hd hv hlim hb htr
      hbye (by simp [hr, Item.wire])
    exact ⟨_, this, rfl, by simp [Item.entries], rfl⟩
  | plain text =>
    obtain ⟨ht, hstar, hre⟩ := hw
    have hr' : c.r = text ++ 10 :: rest := by simp [hr, Item.wire]
    rw [listenIter_line tls c _ rest hr' ht]
    refine ⟨{ c with r := rest, latestRep := c.latestRep ++ [text ++ [10]] }, ?_, rfl, ?_, rfl⟩
    · rw [listenBody_plain tls { c with r := rest } _ hs hstar hre]
    · simp [Item.entries]

/-- The turns of the loop on a run of well-formed items. -/
theorem items_turns (tls : Nat → Option Bytes) (items : List Item) :
    ∀ (c : Client) (rest : Bytes), c.state = normal →
      (∀ i ∈ items, i.wellFormed c.allocLimit) → c.r = wires items ++ rest →
      ∃ c1, turns tls items.length c = some c1 ∧ c1.r = rest ∧
        c1.latestRep = c.latestRep ++ entriesOf items ∧ control c1 = control c := by
  induction items with
  | nil =>
    intro c rest _ _ hr
    exact ⟨c, rfl, by simpa [wires] using hr, by simp [entriesOf], rfl⟩
  | cons i items ih =>
    intro c rest hs hw hr
    have hr1 : c.r = i.wire ++ (wires items ++ rest) := by simp [hr, wires]
    obtain ⟨c1, h1, h2, h3, h4⟩ := item_turn tls c i _ hs (hw i (by simp)) hr1
    have hs1 : c1.state = normal := by
      have := congrArg (fun p => p.2.1) h4
      simpa [control, hs] using this
    have hl1 : c1.allocLimit = c.allocLimit := by
      have := congrArg (fun p => p.2.2.2.2.2.2) h4
      simpa [control] using this
    obtain ⟨c2, k1, k2, k3, k4⟩ :=
      ih c1 rest hs1 (fun j hj => by rw [hl1]; exact hw j (by simp [hj])) h2
    refine ⟨c2, ?_, k2, ?_, k4.trans h4⟩
    · simp only [List.length_cons, turns, h1]
      exact k1
    · rw [k3, h3]
      simp [entriesOf]

/-- The push `* 5 EXISTS\r\n` is a well-formed item. -/
theorem pushItem_wellFormed (limit : Nat) :
    ∀ i ∈ [Item.untagged [53, 32, 69, 88, 73, 83, 84, 83, 13]], i.wellFormed limit := by
  intro i hi
  simp only [List.mem_singleton] at hi
  subst hi
  refine ⟨by decide, by decide, by decide, by decide, by decide⟩

/-- The literal `* 1 FETCH (RFC822 {2}\r\nhi)\r\n` is a well-formed item. -/
theorem fetchItem_wellFormed :
    ∀ i ∈ [Item.literal [49, 32, 70, 69, 84, 67, 72, 32, 40, 82, 70, 67, 56, 50, 50, 32] [50]
            [104, 105] [41, 13]], i.wellFormed maxAlloc := by
  intro i hi
  simp only [List.mem_singleton] at hi
  subst hi
  refine ⟨by decide, by decide, by decide, by decide, by decide, by decide, by decide,
    by decide⟩

/-! ## Frames -/

/-- The literal code ends in a state or in the panic of `make`, the latter exactly when
the line announces more than `make` allocates. -/
theorem readBulk_outcome (c : Client) (line : Bytes) :
    ((∃ c1, readBulk c line = .ok c1) ∧
        ∀ sub, regexBulkStart line = some sub → (Atoi sub).toNat ≤ c.allocLimit) ∨
      (readBulk c line = .panic .makeslice ∧
        ∃ sub, regexBulkStart line = some sub ∧ c.allocLimit < (Atoi sub).toNat) := by
  unfold readBulk
  cases hb : regexBulkStart line with
  | none => exact Or.inl ⟨⟨c, rfl⟩, by simp⟩
  | some sub =>
    simp only
    by_cases hl : c.allocLimit < (Atoi sub).toNat
    · exact Or.inr ⟨by simp [hl], sub, rfl, hl⟩
    · refine Or.inl ⟨?_, ?_⟩
      · simp only [hl, if_false]
        unfold ReadFull
        by_cases hn : (Atoi sub).toNat ≤ c.r.length
        · simp only [hn, if_true]
          split <;> exact ⟨_, rfl⟩
        · simp [hn]
      · intro sub1 h1
        simp only [Option.some.injEq] at h1
        subst h1
        omega

theorem readBulk_frame (c c1 : Client) (line : Bytes) (h : readBulk c line = .ok c1) :
    c1.selectedMailbox = c.selectedMailbox ∧ c1.started = c.started := by
  unfold readBulk at h
  cases hb : regexBulkStart line with
  | none =>
    simp only [hb, Res.ok.injEq] at h
    subst h
    exact ⟨rfl, rfl⟩
  | some sub =>
    simp only [hb] at h
    by_cases hl : c.allocLimit < (Atoi sub).toNat
    · simp [hl] at h
    · simp only [hl, if_false] at h
      unfold ReadFull at h
      by_cases hn : (Atoi sub).toNat ≤ c.r.length
      · simp only [hn, if_true] at h
        split at h <;> (simp only [Res.ok.injEq] at h; subst h; exact ⟨rfl, rfl⟩)
      · simp only [hn, if_false, Res.ok.injEq] at h
        subst h
        exact ⟨rfl, rfl⟩

/-- The literal code only appends to the buffer. -/
theorem readBulk_appends (c c1 : Client) (line : Bytes) (h : readBulk c line = .ok c1) :
    ∃ added, c1.latestRep = c.latestRep ++ added := by
  unfold readBulk at h
  cases hb : regexBulkStart line with
  | none =>
    simp only [hb, Res.ok.injEq] at h
    subst h
    exact ⟨[], by simp⟩
  | some sub =>
    simp only [hb] at h
    by_cases hl : c.allocLimit < (Atoi sub).toNat
    · simp [hl] at h
    · simp only [hl, if_false] at h
      unfold ReadFull at h
      by_cases hn : (Atoi sub).toNat ≤ c.r.length
      · simp only [hn, if_true] at h
        split at h
        · simp only [Res.ok.injEq] at h
          subst h
          exact ⟨_, rfl⟩
        · simp only [Res.ok.injEq] at h
          subst h
          exact ⟨[], by simp⟩
      · simp only [hn, if_false, Res.ok.injEq] at h
        subst h
        exact ⟨[], by simp⟩

/-- In stage Normal a line that is not a tagged completion only appends to the buffer,
when the loop goes on after it. -/
theorem listenBody_appends (tls : Nat → Option Bytes) (c c1 : Client) (line : Bytes)
    (hs : c.state = normal) (hm : regexOK line = none)
    (h : listenBody tls c line = .ok c1) : ∃ added, c1.latestRep = c.latestRep ++ added := by
  have h0 : ¬ (normal = justConnected) := by decide
  by_cases hbye : startsWith line tokBye = true
  · unfold listenBody at h
    simp only [hs, h0, if_false, if_true, hbye, Res.ok.injEq] at h
    subst h
    exact ⟨[], by simp⟩
  · have hbye1 : startsWith line tokBye = false := by simpa using hbye
    by_cases hstar : startsWith line tokStar = true
    · rw [listenBody_untagged tls c line hs hbye1 hstar] at h
      unfold untagged at h
      cases hu : updateCounters c line with
      | panic f => simp [hu] at h
      | blocked b => simp [hu] at h
      | ok c2 =>
        simp only [hu, Res.bind_ok] at h
        obtain ⟨added, ha⟩ := readBulk_appends _ c1 line h
        have hf := (updateCounters_frame c c2 line hu).2.1
        exact ⟨line.drop 2 :: added, by simp [ha, hf]⟩
    · have hstar1 : startsWith line tokStar = false := by simpa using hstar
      rw [listenBody_plain tls c line hs hstar1 hm] at h
      simp only [Res.ok.injEq] at h
      subst h
      exact ⟨_, rfl⟩

/-- The turns of the loop compose. -/
theorem turns_add (tls : Nat → Option Bytes) (n m : Nat) :
    ∀ c c1 : Client, turns tls n c = some c1 → turns tls (n + m) c = turns tls m c1 := by
  induction n with
  | zero =>
    intro c c1 h
    simp only [turns, Option.some.injEq] at h
    subst h
    simp
  | succ n ih =>
    intro c c1 h
    have e : n + 1 + m = (n + m) + 1 := by omega
    rw [e]
    simp only [turns] at h ⊢
    cases hi : listenIter tls c with
    | none => simp [hi] at h
    | some x =>
      cases x with
      | panic f => simp [hi] at h
      | blocked b => simp [hi] at h
      | ok c2 =>
        simp only [hi] at h ⊢
        exact ih c2 c1 h

/-! ## The greeting stage -/

/-- In stage JustConnected a line changes nothing but, when it is a greeting, the
stage. -/
theorem listenBody_justConnected (tls : Nat → Option Bytes) (c : Client) (line : Bytes)
    (hs : c.state = justConnected) :
    listenBody tls c line =
      .ok (if startsWith line tokGreeting then { c with state := normal } else c) := by
  unfold listenBody
  rw [if_pos hs]
  split <;> rfl

/-- A run of lines that are not greetings leaves a client in stage JustConnected as
it is, the stream apart. -/
theorem turns_not_greeted (tls : Nat → Option Bytes) (texts : List Bytes) :
    ∀ (c : Client) (rest : Bytes), c.state = justConnected →
      (∀ t ∈ texts, 10 ∉ t ∧ startsWith (t ++ [10]) tokGreeting = false) →
      c.r = wireLines texts ++ rest →
      turns tls texts.length c = some { c with r := rest } := by
  induction texts with
  | nil =>
    intro c rest _ _ hr
    have : rest = c.r := by simpa [wireLines] using hr.symm
    subst this
    rfl
  | cons t texts ih =>
    intro c rest hs hw hr
    obtain ⟨ht, hg⟩ := hw t (by simp)
    have hr1 : c.r = t ++ 10 :: (wireLines texts ++ rest) := by simp [hr, wireLines]
    have h1 := listenIter_line tls c t _ hr1 ht
    rw [listenBody_justConnected tls { c with r := wireLines texts ++ rest } _ hs, hg] at h1
    simp only [List.length_cons, turns, h1]
    have := ih { c with r := wireLines texts ++ rest } rest hs
      (fun u hu => hw u (by simp [hu])) rfl
    simpa using this

/-! ## Snapshot and clear -/

/-- A line that matches `regexOK` begins with a digit, so with neither `* BYE` nor
`* `. -/
theorem regexOK_not_star (line : Bytes) (sub : Bytes × Bytes) (h : regexOK line = some sub) :
    startsWith line tokBye = false ∧ startsWith line tokStar = false := by
  cases line with
  | nil => simp [regexOK] at h
  | cons d l =>
    by_cases hd : isDigit d = true
    · have := isDigit_not_star hd
      simp [startsWith, tokBye, tokStar, this]
    · have hd' : isDigit d = false := by simpa using hd
      simp [regexOK, List.takeWhile, hd'] at h

theorem listenBody_regexOK (tls : Nat → Option Bytes) (c : Client) (line : Bytes)
    (sub : Bytes × Bytes) (hs : c.state = normal) (h : regexOK line = some sub) :
    listenBody tls c line = tagged tls c sub.2 := by
  have h0 : ¬ (normal = justConnected) := by decide
  obtain ⟨h1, h2⟩ := regexOK_not_star line sub h
  unfold listenBody
  rw [hs, if_neg h0, if_pos rfl, h1, h2, h]
  simp

theorem send_outcome (c : Client) (v : repValue) :
    (∃ c1, send c v = .ok c1 ∧ c1.latestRep = c.latestRep) ∨ send c v = .blocked c := by
  unfold send
  rcases c.rep with _ | ⟨_ | ⟨w, q⟩⟩
  · exact Or.inr rfl
  · exact Or.inl ⟨_, rfl, rfl⟩
  · exact Or.inr rfl

theorem upgrade_outcome (tls : Nat → Option Bytes) (c : Client) :
    (∃ u, upgrade tls c = .ok u ∧ u.1.latestRep = c.latestRep) ∨
      (upgrade tls c = .panic .nilConn ∧ c.conn = none ∧ c.cmd = tokStartTLS) := by
  unfold upgrade
  by_cases h3 : c.cmd = tokStartTLS
  · rw [if_pos h3]
    cases hk : c.conn with
    | none => exact Or.inr ⟨rfl, rfl, h3⟩
    | some k =>
      simp only
      cases tls c.handshakes with
      | none => exact Or.inl ⟨_, rfl, rfl⟩
      | some s => exact Or.inl ⟨_, rfl, rfl⟩
  · rw [if_neg h3]
    exact Or.inl ⟨_, rfl, rfl⟩

/-- Whatever a tagged completion line leads to, the buffer has been cleared; the one
panic is the handshake on a nil transport. -/
theorem tagged_outcome (tls : Nat → Option Bytes) (c : Client) (st : Bytes) :
    (∃ c1, tagged tls c st = .ok c1 ∧ c1.latestRep = []) ∨
    (∃ c1, tagged tls c st = .blocked c1 ∧ c1.latestRep = []) ∨
    (∃ f, tagged tls c st = .panic f ∧ c.conn = none ∧ c.cmd = tokStartTLS) := by
  unfold tagged
  obtain hrep | ⟨q, hrep⟩ : c.rep = none ∨ ∃ q, c.rep = some q := by
    cases c.rep <;> simp
  · simp only [hrep]
    exact Or.inl ⟨_, rfl, rfl⟩
  · simp only [hrep]
    have key : ∀ (c2 : Client) (v : repValue), c2.latestRep = [] →
        (∃ c1, send c2 v = .ok c1 ∧ c1.latestRep = []) ∨
        (∃ c1, send c2 v = .blocked c1 ∧ c1.latestRep = []) := by
      intro c2 v h2
      rcases send_outcome c2 v with ⟨c1, h, hl⟩ | h
      · exact Or.inl ⟨c1, h, hl.trans h2⟩
      · exact Or.inr ⟨c2, h, h2⟩
    by_cases h1 : st = tokNo
    · rw [if_pos h1]
      rcases key { c with latestRep := [], rep := some q }
        { err := some .ErrResultNo, data := [] } rfl with h | h
      · exact Or.inl h
      · exact Or.inr (Or.inl h)
    · rw [if_neg h1]
      by_cases h2 : st = tokBad
      · rw [if_pos h2]
        rcases key { c with latestRep := [], rep := some q }
          { err := some .ErrResultBad, data := [] } rfl with h | h
        · exact Or.inl h
        · exact Or.inr (Or.inl h)
      · rw [if_neg h2]
        rcases upgrade_outcome tls
          { c with latestRep := [], rep := some q } with ⟨u, hu, hl⟩ | ⟨hu, hk, hc⟩
        · rw [hu, Res.bind_ok]
          cases hb : u.2 with
          | false =>
            simp only [Bool.false_eq_true, if_false]
            exact Or.inl ⟨_, rfl, hl⟩
          | true =>
            simp only [if_true]
            rcases key u.1 { err := none, data := c.latestRep } hl with h | h
            · exact Or.inl h
            · exact Or.inr (Or.inl h)
        · rw [hu]
          exact Or.inr (Or.inr ⟨_, rfl, hk, hc⟩)

/-! ## Tags -/

theorem wrap32_small (x : Int) (h0 : 0 ≤ x) (h1 : x ≤ 2 ^ 31 - 1) : wrap32 x = x := by
  unfold wrap32
  norm_num at h1 ⊢
  omega

/-- Below the top of `int32`, `newTag` adds one to the counter and renders it. -/
theorem newTag_small (c : Client) (h0 : 0 ≤ c.latestTag) (h1 : c.latestTag + 1 ≤ 2 ^ 31 - 1) :
    (newTag c).1.latestTag = c.latestTag + 1 ∧
      (newTag c).2 = natDigits (c.latestTag + 1).toNat := by
  have hw := wrap32_small (c.latestTag + 1) (by omega) h1
  have hneg : ¬ (c.latestTag + 1 < 0) := by omega
  simp [newTag, hw, Itoa, hneg]

theorem tagsFrom_spec (n : Nat) :
    ∀ c : Client, 0 ≤ c.latestTag → c.latestTag + n ≤ 2 ^ 31 - 1 →
      ∀ i, i < n → ∃ t, (tagsFrom n c)[i]? = some t ∧ t ≠ [] ∧
        (∀ d ∈ t, isDigit d = true) ∧ Atoi t = c.latestTag + ((i : Int) + 1) := by
  induction n with
  | zero => intro c _ _ i hi; omega
  | succ n ih =>
    intro c h0 hmax i hi
    have hstep : c.latestTag + 1 ≤ 2 ^ 31 - 1 := by
      have : (0 : Int) ≤ (n : Int) := Int.natCast_nonneg n
      push_cast at hmax
      omega
    obtain ⟨e1, e2⟩ := newTag_small c h0 hstep
    cases i with
    | zero =>
      obtain ⟨g1, g2, _⟩ := natDigits_spec (c.latestTag + 1).toNat
      have hlt : (c.latestTag + 1).toNat < 2 ^ 63 := by
        norm_num at hstep ⊢
        omega
      refine ⟨(newTag c).2, by simp [tagsFrom], by rw [e2]; exact g1, by rw [e2]; exact g2, ?_⟩
      rw [e2, Atoi_natDigits _ hlt]
      simp
      omega
    | succ i =>
      obtain ⟨t, k1, k2, k3, k4⟩ := ih (newTag c).1 (by rw [e1]; omega)
        (by rw [e1]; push_cast at hmax; omega) i (by omega)
      refine ⟨t, by simpa [tagsFrom] using k1, k2, k3, ?_⟩
      rw [k4, e1]
      push_cast
      omega

/-! ## Request lines -/

theorem startsWith_crlf (l : Bytes) :
    startsWith l crlf = true ↔ ∃ t, l = 13 :: 10 :: t := by
  rcases l with _ | ⟨a, _ | ⟨b, l⟩⟩
  · simp [startsWith, crlf]
  · simp [startsWith, crlf]
  · simp [startsWith, crlf]

/-- A text without CR LF, followed by CR LF: the first CR LF is the one at the end. -/
theorem Index_crlf_end (s : Bytes) (h : Index s crlf = none) :
    Index (s ++ crlf) crlf = some s.length := by
  induction s with
  | nil => decide
  | cons x xs ih =>
    rw [Index_cons] at h
    have hs : startsWith (x :: xs) crlf = false := by
      by_contra hc
      simp only [Bool.not_eq_false] at hc
      simp [hc] at h
    have hxs : Index xs crlf = none := by
      simpa [hs] using h
    have hs' : startsWith (x :: (xs ++ crlf)) crlf = false := by
      by_contra hc
      simp only [Bool.not_eq_false] at hc
      obtain ⟨t, ht⟩ := (startsWith_crlf _).1 hc
      have hx : x = 13 := by
        have := congrArg List.head? ht
        simpa using this
      cases xs with
      | nil =>
        simp [crlf] at ht
      | cons y ys =>
        have hy : y = 10 := by
          simp at ht
          exact ht.2.1
        have : startsWith (x :: y :: ys) crlf = true :=
          (startsWith_crlf _).2 ⟨ys, by rw [hx, hy]⟩
        rw [this] at hs
        exact absurd hs (by simp)
    rw [List.cons_append, Index_cons, hs', ih hxs]
    simp

/-- Bytes other than CR in front of a text put no CR LF into it. -/
theorem Index_crlf_front (a b : Bytes) (ha : ∀ x ∈ a, x ≠ 13) (hb : Index b crlf = none) :
    Index (a ++ b) crlf = none := by
  induction a with
  | nil => simpa using hb
  | cons x xs ih =>
    have hx : x ≠ 13 := ha x (by simp)
    have hs : startsWith (x :: (xs ++ b)) crlf = false := by
      simp [startsWith, crlf, hx]
    rw [List.cons_append, Index_cons, hs, ih (fun y hy => ha y (by simp [hy]))]
    simp

/-- Two texts without CR LF joined by a space hold no CR LF. -/
theorem Index_crlf_space (u p : Bytes) (hu : Index u crlf = none) (hp : Index p crlf = none) :
    Index (u ++ 32 :: p) crlf = none := by
  induction u with
  | nil =>
    have := Index_crlf_front [32] p (by simp) hp
    simpa using this
  | cons x xs ih =>
    rw [Index_cons] at hu
    have hs : startsWith (x :: xs) crlf = false := by
      by_contra hc
      simp only [Bool.not_eq_false] at hc
      simp [hc] at hu
    have hxs : Index xs crlf = none := by
      simpa [hs] using hu
    have hs' : startsWith (x :: (xs ++ 32 :: p)) crlf = false := by
      by_contra hc
      simp only [Bool.not_eq_false] at hc
      obtain ⟨t, ht⟩ := (startsWith_crlf _).1 hc
      cases xs with
      | nil => simp at ht
      | cons y ys =>
        simp at ht
        have : startsWith (x :: y :: ys) crlf = true :=
          (startsWith_crlf _).2 ⟨ys, by rw [ht.1, ht.2.1]⟩
        rw [this] at hs
        exact absurd hs (by simp)
    rw [List.cons_append, Index_cons, hs', ih hxs]
    simp

theorem Itoa_no_cr (n : Int) : ∀ x ∈ Itoa n, x ≠ 13 := by
  intro x hx h13
  have hdig : ∀ m : Nat, ∀ y ∈ natDigits m, y ≠ 13 := by
    intro m y hy hy13
    have := (natDigits_spec m).2.1 y hy
    rw [hy13] at this
    exact absurd this (by decide)
  unfold Itoa at hx
  split at hx
  · simp only [List.mem_cons] at hx
    rcases hx with hx | hx
    · omega
    · exact hdig _ x hx h13
  · exact hdig _ x hx h13

/-- The spec's request line with a tag and a command name free of CR and arguments
free of CR LF holds one CR LF, its last two bytes. -/
theorem specRequestLine_one_crlf (tag cmd args : Bytes) (htag : ∀ x ∈ tag, x ≠ 13)
    (hcmd : ∀ x ∈ cmd, x ≠ 13) (hargs : Index args crlf = none) :
    Index (specRequestLine tag cmd args) crlf =
      some ((specRequestLine tag cmd args).length - 2) := by
  have hfront : ∀ x ∈ tag ++ 32 :: (cmd ++ [32]), x ≠ 13 := by
    intro x hx
    simp only [List.mem_append, List.mem_cons, List.mem_singleton] at hx
    rcases hx with hx | hx | hx | hx
    · exact htag x hx
    · omega
    · exact hcmd x hx
    · simp at hx
      omega
  have h1 := Index_crlf_front _ _ hfront hargs
  have h2 := Index_crlf_end _ h1
  have e : specRequestLine tag cmd args = (tag ++ 32 :: (cmd ++ [32]) ++ args) ++ crlf := by
    simp [specRequestLine]
  rw [e, h2]
  simp [crlf]
  omega

/-! ## The reply to SELECT -/

theorem splitSpace_word (f : Bytes) (hf : 32 ∉ f) : splitSpace f = [f] := by
  induction f with
  | nil => rfl
  | cons x xs ih =>
    have hx : x ≠ 32 := by
      intro h
      exact hf (by simp [h])
    have hxs : 32 ∉ xs := by
      intro h
      exact hf (by simp [h])
    simp [splitSpace, hx, ih hxs]

theorem splitSpace_append (f rest : Bytes) (hf : 32 ∉ f) :
    splitSpace (f ++ 32 :: rest) = f :: splitSpace rest := by
  induction f with
  | nil => simp [splitSpace]
  | cons x xs ih =>
    have hx : x ≠ 32 := by
      intro h
      exact hf (by simp [h])
    have hxs : 32 ∉ xs := by
      intro h
      exact hf (by simp [h])
    simp [splitSpace, hx, ih hxs]

/-- Splitting at the spaces undoes joining with spaces, for a list that is not empty
and whose words hold no space. -/
theorem splitSpace_joinSpace (flags : List Bytes) (hne : flags ≠ [])
    (hf : ∀ f ∈ flags, 32 ∉ f) : splitSpace (joinSpace flags) = flags := by
  induction flags with
  | nil => exact absurd rfl hne
  | cons a rest ih =>
    cases rest with
    | nil => simpa [joinSpace] using splitSpace_word a (hf a (by simp))
    | cons b rest =>
      have h1 := ih (by simp) (fun f h => hf f (by simp [h]))
      simp only [joinSpace]
      rw [splitSpace_append a _ (hf a (by simp))]
      simp only [joinSpace] at h1
      rw [h1]

theorem mem_joinSpace (flags : List Bytes) (x : Nat) (hx : x ∈ joinSpace flags) :
    x = 32 ∨ ∃ f ∈ flags, x ∈ f := by
  induction flags with
  | nil => simp [joinSpace] at hx
  | cons a rest ih =>
    cases rest with
    | nil => exact Or.inr ⟨a, by simp, by simpa [joinSpace] using hx⟩
    | cons b rest =>
      simp only [joinSpace, List.mem_append, List.mem_cons] at hx
      rcases hx with hx | hx | hx
      · exact Or.inr ⟨a, by simp, hx⟩
      · exact Or.inl hx
      · rcases ih (by simpa [joinSpace] using hx) with h | ⟨f, hf, hxf⟩
        · exact Or.inl h
        · exact Or.inr ⟨f, by simp only [List.mem_cons] at hf ⊢; exact Or.inr hf, hxf⟩

/-- A line `<front><x>\r\n` whose `x` is not `S` does not end in ` EXISTS\r\n`, and one
whose `x` is not `T` does not end in ` RECENT\r\n`. -/
theorem Index_other_line (front : Bytes) (x : Nat) (hf : 10 ∉ front) (hx : x ≠ 10) :
    (x ≠ 83 → Index (front ++ [x, 13, 10]) tokExists = none) ∧
    (x ≠ 84 → Index (front ++ [x, 13, 10]) tokRecent = none) := by
  have hbody : 10 ∉ front ++ [x, 13] := by
    simp only [List.mem_append, List.mem_cons, List.mem_singleton, not_or]
    exact ⟨hf, fun h => hx h.symm, by decide, by simp⟩
  have e : front ++ [x, 13, 10] = (front ++ [x, 13]) ++ [10] := by simp
  rw [e, tokExists_eq, tokRecent_eq]
  constructor
  · intro h83
    apply Index_none _ _ hbody (by decide)
    intro pre h
    have h' : front ++ [x, 13] = (pre ++ [32, 69, 88, 73, 83, 84]) ++ [83, 13] := by
      simpa using h
    have := (List.append_inj' h' rfl).2
    simp at this
    exact h83 this
  · intro h84
    apply Index_none _ _ hbody (by decide)
    intro pre h
    have h' : front ++ [x, 13] = (pre ++ [32, 82, 69, 67, 69, 78]) ++ [84, 13] := by
      simpa using h
    have := (List.append_inj' h' rfl).2
    simp at this
    exact h84 this

/-- The loop body of `Select` on the entry `FLAGS (<flags>)\r\n`. -/
theorem selectLine_flags (info : MailboxInfo) (flags : List Bytes)
    (hf : ∀ f ∈ flags, 32 ∉ f ∧ 41 ∉ f ∧ 10 ∉ f) :
    selectLine info (flagsEntry flags) =
      .ok { info with Flags := if flags = [] then [[]] else flags } := by
  have h41 : 41 ∉ joinSpace flags := by
    intro h
    rcases mem_joinSpace flags 41 h with h | ⟨f, hfm, hx⟩
    · omega
    · exact (hf f hfm).2.1 hx
  have h10 : 10 ∉ joinSpace flags := by
    intro h
    rcases mem_joinSpace flags 10 h with h | ⟨f, hfm, hx⟩
    · omega
    · exact (hf f hfm).2.2 hx
  have hidx0 := Index_other_line (tokFlags ++ 40 :: joinSpace flags) 41
    (by simp [tokFlags, h10]) (by decide)
  have e : tokFlags ++ 40 :: joinSpace flags ++ [41, 13, 10] = flagsEntry flags := by
    simp [flagsEntry]
  rw [e] at hidx0
  have hidx := And.intro (hidx0.1 (by decide)) (hidx0.2 (by decide))
  have hstart : startsWith (flagsEntry flags) tokFlags = true := startsWith_append _ _
  have hlen : ¬ ((flagsEntry flags).length < 8) := by
    simp [flagsEntry, tokFlags]
  have hslice : ((flagsEntry flags).take ((flagsEntry flags).length - 2)).drop 6 =
      40 :: (joinSpace flags ++ [41]) := by
    have e2 : flagsEntry flags = (tokFlags ++ 40 :: (joinSpace flags ++ [41])) ++ [13, 10] := by
      simp [flagsEntry]
    have hl : (flagsEntry flags).length - 2 = (tokFlags ++ 40 :: (joinSpace flags ++ [41])).length := by
      rw [e2]
      simp
      omega
    rw [hl, e2, List.take_left]
    simp [tokFlags]
  have herase : ((40 :: (joinSpace flags ++ [41])).erase 40).erase 41 = joinSpace flags := by
    rw [List.erase_cons_head, List.erase_append_right _ h41]
    simp
  have hsplit : splitSpace (joinSpace flags) = if flags = [] then [[]] else flags := by
    by_cases hne : flags = []
    · subst hne
      rfl
    · rw [if_neg hne]
      exact splitSpace_joinSpace flags hne (fun f h => (hf f h).1)
  unfold selectLine
  rw [hidx.1, hidx.2]
  simp only [hstart, if_true, flagsOf, hlen, if_false, hslice, herase, hsplit, Res.bind_ok]

/-- The loop body of `Select` on the entries `<digits> EXISTS\r\n` and
`<digits> RECENT\r\n`. -/
theorem selectLine_counters (info : MailboxInfo) (ds : Bytes)
    (hd : ∀ d ∈ ds, isDigit d = true) :
    selectLine info (ds ++ tokExists) = .ok { info with Exists := Atoi ds } ∧
    selectLine info (ds ++ tokRecent) = .ok { info with Recent := Atoi ds } := by
  have hds : 10 ∉ ds := digits_no_lf hd
  have h1 : Index (ds ++ tokExists) tokExists = some ds.length := by
    have := Index_suffix ds [32, 69, 88, 73, 83, 84, 83, 13] hds (by decide)
    simpa [tokExists_eq] using this
  have h2 : Index (ds ++ tokRecent) tokRecent = some ds.length := by
    have := Index_suffix ds [32, 82, 69, 67, 69, 78, 84, 13] hds (by decide)
    simpa [tokRecent_eq] using this
  have h3 : Index (ds ++ tokRecent) tokExists = none := by
    have := (Index_other_line (ds ++ [32, 82, 69, 67, 69, 78]) 84 (by simp [hds])
      (by decide)).1 (by decide)
    simpa [tokRecent] using this
  constructor
  · simp [selectLine, h1]
  · simp [selectLine, h2, h3]

/-- The loop body of `Select` on an entry that matches none of its three tests. -/
theorem selectLine_other (info : MailboxInfo) (text : Bytes)
    (h1 : Index text tokExists = none) (h2 : Index text tokRecent = none)
    (h3 : startsWith text tokFlags = false) : selectLine info text = .ok info := by
  simp [selectLine, h1, h2, h3]

/-- The loop of `Select` on a run of well-formed entries: each field is set by the last
entry of its kind. -/
theorem selectLoop_entries (es : List SelectEntry) :
    ∀ info : MailboxInfo, (∀ e ∈ es, e.wellFormed) →
      selectLoop (es.map SelectEntry.wire) info =
        .ok { Name := info.Name, Exists := lastExists info.Exists es,
              Recent := lastRecent info.Recent es, Flags := lastFlags info.Flags es } := by
  induction es with
  | nil => intro info _; rfl
  | cons e es ih =>
    intro info hw
    have hrest : ∀ x ∈ es, x.wellFormed := fun x hx => hw x (by simp [hx])
    have he := hw e (by simp)
    cases e with
    | existsN n =>
      have h : selectLine info (Itoa (n : Int) ++ tokExists) =
          .ok { info with Exists := (n : Int) } := by
        rw [Itoa_natCast, (selectLine_counters info (natDigits n) (natDigits_spec n).2.1).1,
          Atoi_natDigits n he]
      simp only [List.map_cons, SelectEntry.wire, selectLoop, h, Res.bind_ok, ih _ hrest,
        lastExists, lastRecent, lastFlags]
    | recentN n =>
      have h : selectLine info (Itoa (n : Int) ++ tokRecent) =
          .ok { info with Recent := (n : Int) } := by
        rw [Itoa_natCast, (selectLine_counters info (natDigits n) (natDigits_spec n).2.1).2,
          Atoi_natDigits n he]
      simp only [List.map_cons, SelectEntry.wire, selectLoop, h, Res.bind_ok, ih _ hrest,
        lastExists, lastRecent, lastFlags]
    | flags fl =>
      have h := selectLine_flags info fl he
      simp only [List.map_cons, SelectEntry.wire, selectLoop, h, Res.bind_ok, ih _ hrest,
        lastExists, lastRecent, lastFlags]
    | other text =>
      have h := selectLine_other info text he.1 he.2.1 he.2.2
      simp only [List.map_cons, SelectEntry.wire, selectLoop, h, Res.bind_ok, ih _ hrest,
        lastExists, lastRecent, lastFlags]

/-- The entries of `inboxEntries` are well-formed. -/
theorem inboxEntries_wellFormed : ∀ e ∈ inboxEntries, e.wellFormed := by
  intro e he
  simp only [inboxEntries, List.mem_cons, List.mem_singleton, List.not_mem_nil, or_false] at he
  rcases he with rfl | rfl | rfl | rfl | rfl
  · show (3 : Nat) < 2 ^ 63
    decide
  · exact ⟨by decide, by decide, by decide⟩
  · show ∀ f ∈ [[92, 83, 101, 101, 110], [92, 68, 101, 108, 101, 116, 101, 100]],
      32 ∉ f ∧ 41 ∉ f ∧ 10 ∉ f
    decide
  · show (2 : Nat) < 2 ^ 63
    decide
  · show (5 : Nat) < 2 ^ 63
    decide

/-! ## The claims -/

/-- C8 (the code does not do this): with the transport absent (`conn = nil`),
`prepareCmd` records the command name and returns the empty tag and a nil error, so
`Noop` does not return an error: it goes on to `writeString`, which panics on the nil
transport. -/
theorem prepareCmd_absent_transport (c : Client) (cmd : Bytes) (h : c.conn = none) :
    prepareCmd c cmd = .ok ({ c with cmd := cmd }, [], none) ∧
      NoopSend c = .panic .nilConn := by
  have h1 : prepareCmd c cmd = .ok ({ c with cmd := cmd }, [], none) := by
    simp [prepareCmd, h]
  refine ⟨h1, ?_⟩
  have h2 : prepareCmd c tokNoop = .ok ({ c with cmd := tokNoop }, [], none) := by
    simp [prepareCmd, h]
  simp [NoopSend, issue, h2, writeString, write, h]

/-- C8, at the client left behind by the reader. -/
theorem prepareCmd_absent_transport_witness :
    deadClient.conn = none ∧
      prepareCmd deadClient tokNoop = .ok ({ deadClient with cmd := tokNoop }, [], none) ∧
      NoopSend deadClient = .panic .nilConn :=
  ⟨rfl, prepareCmd_absent_transport deadClient tokNoop rfl⟩

/-- C7, as stated, fails on a client whose transport is gone: while `Idle` is parked at
its receive the stream ends, the reader leaves its loop, clears `conn` and delivers
`ErrConnDead`; `idling` is still set and `doneEmitted` is not, and `Done`, called before
`Idle` has taken the reply, panics in `writeString` on the nil transport: it writes
nothing and does not set `doneEmitted`. -/
theorem Done_without_transport_panics :
    listen (fun _ => none) 1 idleClient =
      some (.ok { idleClient with
                  conn := none
                  rep := some [{ err := some .ErrConnDead, data := [] }] }) ∧
    ({ idleClient with
       conn := none
       rep := some [{ err := some .ErrConnDead, data := [] }] } : Client).idling = true ∧
    ({ idleClient with
       conn := none
       rep := some [{ err := some .ErrConnDead, data := [] }] } : Client).doneEmitted = false ∧
    Done { idleClient with
           conn := none
           rep := some [{ err := some .ErrConnDead, data := [] }] } = .panic .nilConn := by
  decide

/-- C7, amended: `Done` writes nothing and changes nothing unless `idling` is set and
`doneEmitted` is not; in that state, on a client that has a transport, it hands exactly
`DONE\r\n` to the transport and sets `doneEmitted`.  Hence any number `n ≥ 1` of calls
made while `Idle` is parked at its receive, on a client that has its transport, put
exactly one `DONE\r\n` on the wire, and a call made after `Idle` has returned with its
reply, success or error, writes nothing. -/
theorem Done_writes_once :
    (∀ c : Client, (c.idling = true ∧ c.doneEmitted = false → False) → Done c = .ok (c, none)) ∧
    (∀ (c : Client) (k : Conn), c.conn = some k → c.idling = true → c.doneEmitted = false →
        Done c = .ok ({ c with conn := some { k with written := k.written ++ tokDone },
                               doneEmitted := true },
                      if k.failing then some .ErrConnDead else none)) ∧
    (∀ (c c1 : Client) (n : Nat), IdleSend c = .ok (.waiting c1) → 1 ≤ n →
        ∃ k, c1.conn = some k ∧
          DoneTimes n c1 = .ok { c1 with conn := some { k with written := k.written ++ tokDone },
                                         doneEmitted := true }) ∧
    (∀ (c c1 : Client) (e : Option Err), IdleReturn c = .ok (c1, e) → Done c1 = .ok (c1, none)) ∧
    (∀ (c : Client) (k : Conn) (n : Nat), c.conn = some k → c.idling = true →
        c.doneEmitted = false → 1 ≤ n →
        DoneTimes n c = .ok { c with conn := some { k with written := k.written ++ tokDone },
                                     doneEmitted := true }) := by
  have hnoop : ∀ c : Client, (c.idling = true ∧ c.doneEmitted = false → False) →
      Done c = .ok (c, none) := by
    intro c h
    unfold Done
    split
    · rename_i hc
      simp at hc
      exact absurd hc (by simpa using h)
    · rfl
  have hone : ∀ (c : Client) (k : Conn), c.conn = some k → c.idling = true →
      c.doneEmitted = false →
      Done c = .ok ({ c with conn := some { k with written := k.written ++ tokDone },
                             doneEmitted := true },
                    if k.failing then some .ErrConnDead else none) := by
    intro c k hk hi hd
    simp [Done, hi, hd, writeString, write, hk]
  have hmany : ∀ (n : Nat) (c : Client), c.doneEmitted = true → DoneTimes n c = .ok c := by
    intro n
    induction n with
    | zero => intro c _; rfl
    | succ n ih =>
      intro c hd
      simp [DoneTimes, hnoop c (by simp [hd]), ih c hd]
  have hrun : ∀ (c : Client) (k : Conn) (n : Nat), c.conn = some k → c.idling = true →
      c.doneEmitted = false → 1 ≤ n →
      DoneTimes n c = .ok { c with conn := some { k with written := k.written ++ tokDone },
                                   doneEmitted := true } := by
    intro c k n hk hi hd hn
    obtain ⟨m, rfl⟩ : ∃ m, n = m + 1 := ⟨n - 1, by omega⟩
    simp [DoneTimes, hone c k hk hi hd]
    exact hmany m _ rfl
  refine ⟨hnoop, hone, ?_, ?_, hrun⟩
  · intro c c1 n hs hn
    have hc1 : ∃ k, c1.conn = some k ∧ c1.idling = true ∧ c1.doneEmitted = false := by
      unfold IdleSend issue prepareCmd writeString write newTag at hs
      cases hconn : c.conn with
      | none => simp [hconn] at hs
      | some k =>
        simp only [hconn] at hs
        by_cases hm : c.mux = true
        · simp [hm] at hs
        · by_cases hf : k.failing = true
          · simp [hm, hf, cleanCmd] at hs
          · simp [hm, hf] at hs
            subst hs
            exact ⟨_, rfl, rfl, rfl⟩
    obtain ⟨k, hk, hi, hd⟩ := hc1
    refine ⟨k, hk, ?_⟩
    obtain ⟨m, rfl⟩ : ∃ m, n = m + 1 := ⟨n - 1, by omega⟩
    simp [DoneTimes, hone c1 k hk hi hd]
    exact hmany m _ rfl
  · intro c c1 e hr
    apply hnoop
    unfold IdleReturn recv at hr
    cases hrep : c.rep with
    | none => simp [hrep] at hr
    | some q =>
      cases q with
      | nil => simp [hrep] at hr
      | cons v q =>
        simp only [hrep, Res.bind_ok, cleanCmd] at hr
        by_cases hm : c.mux = true
        · simp [hm] at hr
          obtain ⟨rfl, _⟩ := hr
          simp
        · simp [hm] at hr

/-- C7, amended, on a live client: `Idle` is issued with tag `1`, then `Done` is called
three times. -/
theorem Done_writes_once_witness :
    ∃ k, idleClient.conn = some k ∧
      DoneTimes 3 idleClient =
        .ok { idleClient with conn := some { k with written := k.written ++ tokDone },
                              doneEmitted := true } :=
  Done_writes_once.2.2.1 liveClient idleClient 3 (by decide) (by decide)

/-- C4 (the code does not do this): the `break` of `handler.go` 38 leaves the `switch`
only, so the loop goes on after a `* BYE` line.  On `* BYE\r\n* 3 EXISTS\r\n` with a
mailbox selected the later line is read, accumulated and sets `Exists` to 3 before the
stream ends; on `* BYE\r\n7 OK\r\n` with a command pending, two turns of the loop leave
the transport in place and deliver a success reply from the later tagged line. -/
theorem bye_does_not_end_loop :
    listen (fun _ => none) 3
        { liveClient with r := byeThenExists, selectedMailbox := some inbox } =
      some (.ok { liveClient with
                  conn := none
                  selectedMailbox := some { inbox with Exists := 3 }
                  latestRep := [[51, 32, 69, 88, 73, 83, 84, 83, 13, 10]] }) ∧
    turns (fun _ => none) 2 { pendingClient with r := byeThenOK } =
      some { pendingClient with rep := some [{ err := none, data := [] }] } := by
  decide

/-- C9 (the code does not do this): for two messages the reader delivers four entries
(line, payload, line, payload: the `)\r\n` after a payload is read and dropped), while
the loop of `FetchRFC822` moves on by three after a match, so it steps over the second
message's line.  On the reply `fetchTwo` to `FETCH 1,2 RFC822` the map has the single
entry `1 ↦ hi`: message 2 is missing.  `FetchRFC822Header` does the same. -/
theorem fetch_two_messages_loses_second :
    FetchRFC822Send liveClient [1, 2] = .ok (.waiting fetchPending) ∧
    (turns (fun _ => none) 3 { fetchPending with r := fetchTwo }).map (fun c => c.rep) =
      some (some [{ err := none,
                    data := [[49, 32, 70, 69, 84, 67, 72, 32, 40, 82, 70, 67, 56, 50, 50, 32,
                              123, 50, 125, 13, 10],
                             [104, 105],
                             [50, 32, 70, 69, 84, 67, 72, 32, 40, 82, 70, 67, 56, 50, 50, 32,
                              123, 50, 125, 13, 10],
                             [121, 111]] }]) ∧
    afterTurns (fun _ => none) 3 fetchPending fetchTwo (fun c => fetched (FetchRFC822Return c)) =
      some (.ok (some [(1, [104, 105])], none)) ∧
    FetchRFC822HeaderSend liveClient [1, 2] = .ok (.waiting fetchHeaderPending) ∧
    afterTurns (fun _ => none) 3 fetchHeaderPending fetchTwoHeader
        (fun c => fetched (FetchRFC822HeaderReturn c)) =
      some (.ok (some [(1, [104, 105])], none)) := by
  decide

/-- C3, as stated, fails when the following command is STARTTLS: on `1 NO\r\n2 OK\r\n`
with `Noop` pending, the first line delivers `ErrResultNo`, `Noop` returns it,
`StartTLS("h")` is issued with tag `2`, and the tagged OK line that comes next, with a
handshake that fails, delivers nothing: the reply slot is still empty after it, and
`StartTLS` stays parked at its receive. -/
theorem starttls_after_no_gets_no_reply :
    listenIter (fun _ => none) { pendingClient with r := noThenOK } =
      some (.ok { pendingClient with
                  r := [50, 32, 79, 75, 13, 10]
                  rep := some [{ err := some .ErrResultNo, data := [] }] }) ∧
    await { pendingClient with
            r := [50, 32, 79, 75, 13, 10]
            rep := some [{ err := some .ErrResultNo, data := [] }] } =
      .ok ({ pendingClient with r := [50, 32, 79, 75, 13, 10], rep := none, mux := false },
           some .ErrResultNo) ∧
    StartTLSSend { pendingClient with r := [50, 32, 79, 75, 13, 10], rep := none, mux := false }
        [104] =
      .ok (.waiting tlsAfterNo) ∧
    listenIter (fun _ => none) tlsAfterNo =
      some (.ok { tlsAfterNo with r := [], handshakes := 1 }) ∧
    ({ tlsAfterNo with r := [], handshakes := 1 } : Client).rep = some [] ∧
    await { tlsAfterNo with r := [], handshakes := 1 } =
      .blocked { tlsAfterNo with r := [], handshakes := 1 } := by
  decide

/-- C3, amended: in stage Normal, with a command pending (the mutex held, the reply slot
free) on a transport whose writes succeed, a tagged line `<tag> NO<text>\r\n` (the
status word is exactly NO: the text does not go on with a capital) or
`<tag> BAD<text>\r\n` delivers `ErrResultNo`, respectively `ErrResultBad`, without
data; the transport stays in place, the stage stays Normal, the buffer is empty and the
loop goes on.  The command function returns that error and releases the mutex; a
following command other than STARTTLS (whose reply waits for a handshake) is issued,
and the tagged OK line that comes next delivers it a success reply, which it returns as
a nil error. -/
theorem no_bad_keeps_connection (tls : Nat → Option Bytes) (c : Client) (k : Conn)
    (bad : Bool) (t text t2 text2 tail cmd req : Bytes)
    (hs : c.state = normal) (hk : c.conn = some k) (hf : k.failing = false)
    (hmux : c.mux = true) (hrep : c.rep = some [])
    (ht : t ≠ []) (hd : ∀ d ∈ t, isDigit d = true) (htext : 10 ∉ text)
    (hword : bad = false → ∀ x ∈ text.head?, isUpper x = false)
    (ht2 : t2 ≠ []) (hd2 : ∀ d ∈ t2, isDigit d = true) (htext2 : 10 ∉ text2)
    (hcmd : cmd ≠ tokStartTLS)
    (hr : c.r = t ++ 32 :: ((if bad then tokBad else tokNo) ++ (text ++ 13 :: 10 ::
            (t2 ++ 32 :: 79 :: 75 :: (text2 ++ 13 :: 10 :: tail))))) :
    ∃ c1 c2 c3 c4 c5,
      listenIter tls c = some (.ok c1) ∧
      c1.rep = some [{ err := some (if bad then .ErrResultBad else .ErrResultNo), data := [] }] ∧
      c1.conn = some k ∧ c1.state = normal ∧ c1.latestRep = [] ∧
      await c1 = .ok (c2, some (if bad then .ErrResultBad else .ErrResultNo)) ∧
      issue c2 cmd req = .ok (.waiting c3) ∧
      listenIter tls c3 = some (.ok c4) ∧
      c4.rep = some [{ err := none, data := [] }] ∧
      await c4 = .ok (c5, none) ∧ c5.conn ≠ none := by
  have hline2 : 10 ∉ t2 ++ 32 :: 79 :: 75 :: (text2 ++ [13]) := by
    have := digits_no_lf hd2
    simp [this, htext2]
  have h1 : ∃ c1, listenIter tls c = some (.ok c1) ∧
      c1 = { c with r := t2 ++ 32 :: 79 :: 75 :: (text2 ++ 13 :: 10 :: tail),
                    latestRep := [],
                    rep := some [{ err := some (if bad then .ErrResultBad else .ErrResultNo),
                                   data := [] }] } := by
    cases bad with
    | false =>
      have hl : 10 ∉ t ++ 32 :: 78 :: 79 :: (text ++ [13]) := by
        have := digits_no_lf hd
        simp [this, htext]
      have hr1 : c.r = (t ++ 32 :: 78 :: 79 :: (text ++ [13])) ++ 10 ::
          (t2 ++ 32 :: 79 :: 75 :: (text2 ++ 13 :: 10 :: tail)) := by
        simp [hr, tokNo]
      rw [listenIter_line tls c _ _ hr1 hl]
      have hb := listenBody_NO tls
        { c with r := t2 ++ 32 :: 79 :: 75 :: (text2 ++ 13 :: 10 :: tail) } t text hs hrep ht hd
        htext (hword rfl)
      simp only [List.append_assoc, List.cons_append, List.nil_append] at hb ⊢
      exact ⟨_, by rw [hb], by simp⟩
    | true =>
      have hl : 10 ∉ t ++ 32 :: 66 :: 65 :: 68 :: (text ++ [13]) := by
        have := digits_no_lf hd
        simp [this, htext]
      have hr1 : c.r = (t ++ 32 :: 66 :: 65 :: 68 :: (text ++ [13])) ++ 10 ::
          (t2 ++ 32 :: 79 :: 75 :: (text2 ++ 13 :: 10 :: tail)) := by
        simp [hr, tokBad]
      rw [listenIter_line tls c _ _ hr1 hl]
      have hb := listenBody_BAD tls
        { c with r := t2 ++ 32 :: 79 :: 75 :: (text2 ++ 13 :: 10 :: tail) } t text hs hrep ht hd
        htext
      simp only [List.append_assoc, List.cons_append, List.nil_append] at hb ⊢
      exact ⟨_, by rw [hb], by simp⟩
  obtain ⟨c1, hc1, hc1eq⟩ := h1
  have h2 : await c1 = .ok ({ c1 with rep := none, mux := false },
      some (if bad then .ErrResultBad else .ErrResultNo)) := by
    simp [await, recv, cleanCmd, hc1eq, hmux]
  have h3 : ∃ c3, issue { c1 with rep := none, mux := false } cmd req = .ok (.waiting c3) ∧
      c3.state = normal ∧ c3.rep = some [] ∧ c3.cmd = cmd ∧ c3.latestRep = [] ∧
      c3.r = (t2 ++ 32 :: 79 :: 75 :: (text2 ++ [13])) ++ 10 :: tail ∧ c3.mux = true ∧
      c3.conn ≠ none := by
    refine ⟨{ c1 with
              rep := some [], mux := true, cmd := cmd
              latestTag := wrap32 (c1.latestTag + 1)
              conn := some { k with written := k.written ++
                               (Itoa (wrap32 (c1.latestTag + 1)) ++ req) } }, ?_, ?_⟩
    · simp [issue, prepareCmd, newTag, writeString, write, hc1eq, hk, hf]
    · simp [hc1eq, hs]
  obtain ⟨c3, hc3, hs3, hrep3, hcmd3, hbuf3, hr3, hmux3, hconn3⟩ := h3
  have h4 : listenIter tls c3 =
      some (.ok { c3 with
                  r := tail, latestRep := []
                  rep := some [{ err := none, data := [] }] }) := by
    rw [listenIter_line tls c3 _ tail hr3 hline2]
    have h5 := listenBody_OK tls { c3 with r := tail } t2 text2 hs3 hrep3 (by simpa [hcmd3] using hcmd)
      ht2 hd2 htext2
    simp only [List.append_assoc, List.cons_append, List.nil_append] at h5 ⊢
    rw [h5]
    simp [hbuf3]
  have h6 : await { c3 with
                    r := tail, latestRep := []
                    rep := some [{ err := none, data := [] }] } =
      .ok ({ c3 with r := tail, latestRep := [], rep := none, mux := false }, none) := by
    simp [await, recv, cleanCmd, hmux3]
  exact ⟨c1, _, c3, _, _, hc1, by simp [hc1eq], by simp [hc1eq, hk], by simp [hc1eq, hs],
    by simp [hc1eq], h2, hc3, h4, rfl, h6, hconn3⟩

/-- C3, amended, on `1 NO\r\n2 OK\r\n` read while `Noop` is pending; the next command is
`Noop` again. -/
theorem no_bad_keeps_connection_witness :
    { pendingClient with r := noThenOK }.state = normal ∧
    { pendingClient with r := noThenOK }.rep = some [] ∧
    ∃ c1 c2 c3 c4 c5,
      listenIter (fun _ => none) { pendingClient with r := noThenOK } = some (.ok c1) ∧
      c1.rep = some [{ err := some (if false = true then .ErrResultBad else .ErrResultNo),
                       data := [] }] ∧
      c1.conn = some pendingConn ∧ c1.state = normal ∧ c1.latestRep = [] ∧
      await c1 = .ok (c2, some (if false = true then .ErrResultBad else .ErrResultNo)) ∧
      issue c2 tokNoop reqNoop = .ok (.waiting c3) ∧
      listenIter (fun _ => none) c3 = some (.ok c4) ∧
      c4.rep = some [{ err := none, data := [] }] ∧
      await c4 = .ok (c5, none) ∧ c5.conn ≠ none :=
  ⟨rfl, rfl,
    no_bad_keeps_connection (fun _ => none) { pendingClient with r := noThenOK } pendingConn
      false [49] [] [50] [] [] tokNoop reqNoop rfl rfl rfl rfl rfl (by decide) (by decide)
      (by decide) (by decide) (by decide) (by decide) (by decide) (by decide) rfl⟩

/-- C10, as stated, fails: `Noop` is issued with tag `1` (`1 NOOP\r\n` is written) and
the reader then reads `2 OK\r\n`; the line carries another tag, yet a success reply is
delivered to the pending command. -/
theorem reply_despite_other_tag :
    NoopSend liveClient = .ok (.waiting pendingClient) ∧
    pendingClient.conn = some { written := [49, 32, 78, 79, 79, 80, 13, 10], failing := false,
                                secure := false } ∧
    pendingClient.rep = some [] ∧
    listenIter (fun _ => none) { pendingClient with r := [50, 32, 79, 75, 13, 10] } =
      some (.ok { pendingClient with rep := some [{ err := none, data := [] }] }) := by
  decide

/-- C10, amended: the tag of a tagged completion line is not compared with anything.
In stage Normal, for every line `<t> <rest>` that matches the tagged-completion pattern
and every other tag `t'` (a non-empty run of digits), the line `<t'> <rest>` does to the
state, and delivers to the pending command, exactly what `<t> <rest>` does. -/
theorem tag_not_compared (tls : Nat → Option Bytes) (c : Client) (t t' rest : Bytes)
    (hs : c.state = normal) (ht : t ≠ []) (hd : ∀ d ∈ t, isDigit d = true)
    (ht' : t' ≠ []) (hd' : ∀ d ∈ t', isDigit d = true)
    (hm : regexOK (t ++ 32 :: rest) ≠ none) :
    listenBody tls c (t' ++ 32 :: rest) = listenBody tls c (t ++ 32 :: rest) := by
  have e1 := regexOK_tag t rest ht hd
  have e2 := regexOK_tag t' rest ht' hd'
  cases h0 : regexOK (48 :: 32 :: rest) with
  | none =>
    rw [h0] at e1
    exact absurd e1 hm
  | some p =>
    rw [h0] at e1 e2
    rw [listenBody_tagged tls c t rest p.2 hs ht hd e1,
      listenBody_tagged tls c t' rest p.2 hs ht' hd' e2]

/-- C10, amended, on the pending `Noop` with tag `1`: the line `2 OK\r\n` does what
`1 OK\r\n` does. -/
theorem tag_not_compared_witness :
    pendingClient.state = normal ∧
    regexOK ([49] ++ 32 :: [79, 75, 13, 10]) ≠ none ∧
    listenBody (fun _ => none) pendingClient ([50] ++ 32 :: [79, 75, 13, 10]) =
      listenBody (fun _ => none) pendingClient ([49] ++ 32 :: [79, 75, 13, 10]) :=
  ⟨rfl, by decide,
    tag_not_compared (fun _ => none) pendingClient [49] [50] [79, 75, 13, 10] rfl (by decide)
      (by decide) (by decide) (by decide) (by decide)⟩

/-- C6: in stage Normal with a mailbox selected, for every natural number `n` that fits
a 64-bit signed `int`, the turn of the loop that reads `* n EXISTS\r\n` sets `Exists`
to `n`, leaves `Name`, `Recent` and `Flags` as they were, starts the callback once when
it is set (and not at all when it is not), appends the line without its `* ` to the
buffer and goes on; `* n RECENT\r\n` does the same for `Recent`. -/
theorem counter_push (tls : Nat → Option Bytes) (c : Client) (mb : MailboxInfo) (n : Nat)
    (tail : Bytes) (hn : n < 2 ^ 63) (hs : c.state = normal)
    (hm : c.selectedMailbox = some mb) :
    (c.r = 42 :: 32 :: (Itoa (n : Int) ++ tokExists ++ tail) →
      listenIter tls c =
        some (.ok { c with
                    r := tail
                    selectedMailbox := some { mb with Exists := (n : Int) }
                    started := if c.UpdateCallback then c.started + 1 else c.started
                    latestRep := c.latestRep ++ [Itoa (n : Int) ++ tokExists] })) ∧
    (c.r = 42 :: 32 :: (Itoa (n : Int) ++ tokRecent ++ tail) →
      listenIter tls c =
        some (.ok { c with
                    r := tail
                    selectedMailbox := some { mb with Recent := (n : Int) }
                    started := if c.UpdateCallback then c.started + 1 else c.started
                    latestRep := c.latestRep ++ [Itoa (n : Int) ++ tokRecent] })) := by
  obtain ⟨hne, hd, _⟩ := natDigits_spec n
  have hat := Atoi_natDigits n hn
  have hds : 10 ∉ natDigits n := digits_no_lf hd
  have h0 : ¬ (normal = justConnected) := by decide
  rw [Itoa_natCast]
  constructor
  · intro hr
    have hr' : c.r = (42 :: 32 :: (natDigits n ++ [32, 69, 88, 73, 83, 84, 83, 13])) ++
        10 :: tail := by simp [hr, tokExists]
    rw [listenIter_line tls c _ tail hr' (by simp [hds])]
    have hline : 42 :: 32 :: (natDigits n ++ [32, 69, 88, 73, 83, 84, 83, 13]) ++ [10] =
        42 :: 32 :: (natDigits n ++ tokExists) := by simp [tokExists]
    rw [hline]
    obtain ⟨hb1, hb2⟩ := startsWith_counter_line (natDigits n) tokExists hne hd
    obtain ⟨he, hrc⟩ := counters_exists_line mb (natDigits n) hd
    have hbulk := (regexBulkStart_counter_line (42 :: 32 :: natDigits n)).1
    simp only [List.cons_append] at hbulk
    rw [hat] at he hrc
    simp [listenBody, hs, h0, hb1, hb2, untagged, updateCounters, hm, he, hrc, readBulk,
      hbulk]
  · intro hr
    have hr' : c.r = (42 :: 32 :: (natDigits n ++ [32, 82, 69, 67, 69, 78, 84, 13])) ++
        10 :: tail := by simp [hr, tokRecent]
    rw [listenIter_line tls c _ tail hr' (by simp [hds])]
    have hline : 42 :: 32 :: (natDigits n ++ [32, 82, 69, 67, 69, 78, 84, 13]) ++ [10] =
        42 :: 32 :: (natDigits n ++ tokRecent) := by simp [tokRecent]
    rw [hline]
    obtain ⟨hb1, hb2⟩ := startsWith_counter_line (natDigits n) tokRecent hne hd
    obtain ⟨he, hrc⟩ := counters_recent_line mb (natDigits n) hd
    have hbulk := (regexBulkStart_counter_line (42 :: 32 :: natDigits n)).2
    simp only [List.cons_append] at hbulk
    rw [hat] at hrc
    simp [listenBody, hs, h0, hb1, hb2, untagged, updateCounters, hm, he, hrc, readBulk,
      hbulk]

/-- C6 at the spec's instance: `* 42 EXISTS\r\n` with `INBOX` selected and the callback
set. -/
theorem counter_push_witness :
    (42 : Nat) < 2 ^ 63 ∧ watching.state = normal ∧ watching.selectedMailbox = some inbox ∧
    listenIter (fun _ => none) watching =
      some (.ok { watching with
                  r := []
                  selectedMailbox := some { inbox with Exists := 42 }
                  started := 1
                  latestRep := [[52, 50, 32, 69, 88, 73, 83, 84, 83, 13, 10]] }) :=
  ⟨by decide, rfl, rfl,
    (counter_push (fun _ => none) watching inbox 42 [] (by decide) rfl rfl).1 (by decide)⟩

/-- C5: from every state and on every stream the reader comes to an end.  When a read
fails (the stream has ended, or has no line feed left) the loop is left and the exit
code runs: it clears `conn`; with no command pending (`rep` nil) it delivers nothing;
with a command pending and its reply slot free it delivers exactly the reply
`ErrConnDead` without data; with an earlier reply still unread in the slot of capacity
one, it parks at that same send, `conn` already cleared.  So every run of `listen`
that returns leaves `conn` nil and, in a non-nil reply channel, exactly the one reply
`ErrConnDead`. -/
theorem exit_marks_dead (tls : Nat → Option Bytes) (c : Client) :
    (∃ fuel res, listen tls fuel c = some res) ∧
    (listenIter tls c = none →
      ∀ fuel, listen tls (fuel + 1) c = some (listenExit { c with r := [] })) ∧
    (c.rep = none → listenExit c = .ok { c with conn := none }) ∧
    (c.rep = some [] →
      listenExit c =
        .ok { c with conn := none, rep := some [{ err := some .ErrConnDead, data := [] }] }) ∧
    (∀ v q, c.rep = some (v :: q) → listenExit c = .blocked { c with conn := none }) ∧
    (∀ fuel c1, listen tls fuel c = some (.ok c1) →
      c1.conn = none ∧
        (c1.rep = none ∨ c1.rep = some [{ err := some .ErrConnDead, data := [] }])) := by
  refine ⟨listen_total tls c, ?_, ?_, ?_, ?_, fun fuel c1 h => listen_ok tls fuel c c1 h⟩
  · intro hi fuel
    have hr : (ReadBytes c.r).2.2 = false := by
      unfold listenIter at hi
      by_cases h : (ReadBytes c.r).2.2 = true
      · simp [h] at hi
      · simpa using h
    unfold listen
    rw [hi, ReadBytes_failed c.r hr]
  · intro h
    simp [listenExit, h]
  · intro h
    simp [listenExit, h, send]
  · intro v q h
    simp [listenExit, h, send]

/-- C5 on a stream that ends in the middle of a line while `Noop` is pending: the
reader returns, `conn` is nil and `ErrConnDead` is in the reply slot. -/
theorem exit_marks_dead_witness :
    listenIter (fun _ => none) { pendingClient with r := [42, 32, 79] } = none ∧
    listen (fun _ => none) 1 { pendingClient with r := [42, 32, 79] } =
      some (.ok { pendingClient with
                  conn := none
                  rep := some [{ err := some .ErrConnDead, data := [] }] }) :=
  ⟨by decide,
    ((exit_marks_dead (fun _ => none) { pendingClient with r := [42, 32, 79] }).2.1
      (by decide) 0).trans (by decide)⟩

/-- C2, as stated, fails on an untagged line that is a BYE line: on
`* BYE {5}\r\n` followed by the five bytes `a\r\nbc` and `\r\n`, the line is skipped
(nothing is appended for it, no literal is read), and the payload is then read as the
two lines `a\r\n` and `bc\r\n`: it is split at its embedded line terminator and
both halves are appended as plain lines.  It fails as well on a length that fits an
`int` and is more than `make` allocates: on `* x {9223372036854775807}\r\n` the reader
panics at `make([]byte, bulkSize)`, before it reads a byte of the literal. -/
theorem literal_after_bye_is_split :
    turns (fun _ => none) 1
        { liveClient with
          r := [42, 32, 66, 89, 69, 32, 123, 53, 125, 13, 10, 97, 13, 10, 98, 99, 13, 10] } =
      some { liveClient with r := [97, 13, 10, 98, 99, 13, 10] } ∧
    turns (fun _ => none) 3
        { liveClient with
          r := [42, 32, 66, 89, 69, 32, 123, 53, 125, 13, 10, 97, 13, 10, 98, 99, 13, 10] } =
      some { liveClient with latestRep := [[97, 13, 10], [98, 99, 13, 10]] } ∧
    listenIter (fun _ => none)
        { liveClient with
          r := [42, 32, 120, 32, 123, 57, 50, 50, 51, 51, 55, 50, 48, 51, 54, 56, 53, 52, 55, 55,
                53, 56, 48, 55, 125, 13, 10] } =
      some (.panic .makeslice) := by
  decide

/-- C2, amended: for every length `N` that fits an `int` and that `make` allocates
(`N` is at most `allocLimit`), and every block `b` of `N` bytes, whatever they are, when
in stage Normal the reader reads an untagged line `* <pre>{N}\r\n` that does not begin
with `* BYE`, followed by `b` and by `\r\n`, the buffer grows by exactly two entries,
the line without its `* ` and then `b` itself, and the stream stands right after the
trailing `\r\n`; nothing else changes. -/
theorem literal_round_trip (tls : Nat → Option Bytes) (c : Client) (pre b tail : Bytes)
    (N : Nat) (hN : N < 2 ^ 63) (hlim : N ≤ c.allocLimit) (hb : b.length = N)
    (hs : c.state = normal) (hpre : 10 ∉ pre)
    (hbye : startsWith (42 :: 32 :: (pre ++ 123 :: (Itoa (N : Int) ++ [125, 13, 10]))) tokBye
      = false)
    (hr : c.r = 42 :: 32 :: (pre ++ 123 :: (Itoa (N : Int) ++ 125 :: 13 :: 10 ::
            (b ++ 13 :: 10 :: tail)))) :
    listenIter tls c =
      some (.ok { c with
                  r := tail
                  latestRep := c.latestRep ++
                    [pre ++ 123 :: (Itoa (N : Int) ++ [125, 13, 10]), b] }) := by
  rw [Itoa_natCast] at hbye hr ⊢
  obtain ⟨hne, hd, hval⟩ := natDigits_spec N
  exact listenIter_literal tls c pre (natDigits N) b [13] tail hs hpre hne hd
    (by rw [hval]; exact hN) (by rw [hval]; exact hlim) (by rw [hval]; exact hb) (by decide)
    hbye (by simpa using hr)

/-- C2, amended, at the spec's instance: `* 1 FETCH (RFC822 {5}\r\n`, the five bytes
`a\r\nbc`, `\r\n`, and one more line `* x\r\n` left on the stream. -/
theorem literal_round_trip_witness :
    (5 : Nat) < 2 ^ 63 ∧ 5 ≤ liveClient.allocLimit ∧ [97, 13, 10, 98, 99].length = 5 ∧
    listenIter (fun _ => none)
        { liveClient with
          r := [42, 32, 49, 32, 70, 69, 84, 67, 72, 32, 40, 82, 70, 67, 56, 50, 50, 32, 123, 53,
                125, 13, 10, 97, 13, 10, 98, 99, 13, 10, 42, 32, 120, 13, 10] } =
      some (.ok { liveClient with
                  r := [42, 32, 120, 13, 10]
                  latestRep := [[49, 32, 70, 69, 84, 67, 72, 32, 40, 82, 70, 67, 56, 50, 50, 32,
                                 123, 53, 125, 13, 10],
                                [97, 13, 10, 98, 99]] }) :=
  ⟨by decide, by decide, rfl,
    literal_round_trip (fun _ => none)
      { liveClient with
        r := [42, 32, 49, 32, 70, 69, 84, 67, 72, 32, 40, 82, 70, 67, 56, 50, 50, 32, 123, 53,
              125, 13, 10, 97, 13, 10, 98, 99, 13, 10, 42, 32, 120, 13, 10] }
      [49, 32, 70, 69, 84, 67, 72, 32, 40, 82, 70, 67, 56, 50, 50, 32] [97, 13, 10, 98, 99]
      [42, 32, 120, 13, 10] 5 (by decide) (by decide) rfl rfl (by decide) (by decide)
      (by decide)⟩

/-- C1, as stated, fails: the buffer is not cleared when a command is issued.  With no
command pending the reader reads the push `* 5 EXISTS\r\n`; `Noop` is then issued;
the tagged line `1 OK\r\n` delivers a success reply whose data is that push, received
before the issuance. -/
theorem reply_holds_earlier_push :
    turns (fun _ => none) 1
        { liveClient with
          r := [42, 32, 53, 32, 69, 88, 73, 83, 84, 83, 13, 10, 49, 32, 79, 75, 13, 10] } =
      some { liveClient with
             r := [49, 32, 79, 75, 13, 10]
             latestRep := [[53, 32, 69, 88, 73, 83, 84, 83, 13, 10]] } ∧
    NoopSend { liveClient with
               r := [49, 32, 79, 75, 13, 10]
               latestRep := [[53, 32, 69, 88, 73, 83, 84, 83, 13, 10]] } =
      .ok (.waiting { pendingClient with
                      r := [49, 32, 79, 75, 13, 10]
                      latestRep := [[53, 32, 69, 88, 73, 83, 84, 83, 13, 10]] }) ∧
    listenIter (fun _ => none)
        { pendingClient with
          r := [49, 32, 79, 75, 13, 10]
          latestRep := [[53, 32, 69, 88, 73, 83, 84, 83, 13, 10]] } =
      some (.ok { pendingClient with
                  rep := some [{ err := none,
                                 data := [[53, 32, 69, 88, 73, 83, 84, 83, 13, 10]] }] }) := by
  decide

/-- C1, amended: the data of a success reply is what the buffer has gathered since the
last tagged completion line, whether it arrived before or after the command was
issued.  The lines read are well-formed items: none is a BYE line, none is the bare
`* EXISTS\r\n` or `* RECENT\r\n`, and every literal has a length that fits an `int` and
that `make` allocates (at most `allocLimit`).  In stage Normal, on a transport whose
writes succeed and with no command pending (the mutex is free), let the reader read the
items `before`, let a command other than STARTTLS be issued, and let the reader read
the items `after` and then a tagged line `<tag> OK<text>\r\n`: the loop goes on, and
the reply delivered has a nil error and, as data, the buffer as it was followed by the
entries of `before` and of `after` in arrival order (each untagged line without its
`* `, each literal's line without its `* ` and then its payload as one entry, each
other line as it is); the stream stands after the tagged line. -/
theorem reply_is_buffer_since_completion (tls : Nat → Option Bytes) (c : Client) (k : Conn)
    (before after : List Item) (cmd req t text tail : Bytes)
    (hs : c.state = normal) (hk : c.conn = some k) (hf : k.failing = false)
    (hmux : c.mux = false)
    (hb : ∀ i ∈ before, i.wellFormed c.allocLimit)
    (ha : ∀ i ∈ after, i.wellFormed c.allocLimit)
    (hcmd : cmd ≠ tokStartTLS) (ht : t ≠ []) (hd : ∀ d ∈ t, isDigit d = true)
    (htext : 10 ∉ text)
    (hr : c.r = wires before ++ (wires after ++
            (t ++ 32 :: 79 :: 75 :: (text ++ 13 :: 10 :: tail)))) :
    ∃ c1 c2 c3 c4,
      turns tls before.length c = some c1 ∧
      issue c1 cmd req = .ok (.waiting c2) ∧
      turns tls after.length c2 = some c3 ∧
      listenIter tls c3 = some (.ok c4) ∧
      c4.rep = some [{ err := none,
                       data := c.latestRep ++ (entriesOf before ++ entriesOf after) }] ∧
      c4.latestRep = [] ∧ c4.r = tail := by
  obtain ⟨c1, h1, hr1, hbuf1, hctl1⟩ := items_turns tls before c _ hs hb hr
  simp only [control, Prod.mk.injEq] at hctl1
  obtain ⟨e1, e2, e3, e4, e5, e6, e7⟩ := hctl1
  have hc2 : ∃ c2, issue c1 cmd req = .ok (.waiting c2) ∧ c2.state = normal ∧
      c2.rep = some [] ∧ c2.cmd = cmd ∧ c2.latestRep = c1.latestRep ∧ c2.r = c1.r ∧
      c2.allocLimit = c1.allocLimit := by
    refine ⟨{ c1 with
              rep := some [], mux := true, cmd := cmd
              latestTag := wrap32 (c1.latestTag + 1)
              conn := some { k with written := k.written ++
                               (Itoa (wrap32 (c1.latestTag + 1)) ++ req) } }, ?_, ?_⟩
    · simp [issue, prepareCmd, newTag, writeString, write, e1, hk, hf, e4, hmux]
    · simp [e2, hs]
  obtain ⟨c2, h2, hs2, hrep2, hcmd2, hbuf2, hr2, hl2⟩ := hc2
  obtain ⟨c3, h3, hr3, hbuf3, hctl3⟩ := items_turns tls after c2 _ hs2
    (by rw [hl2, e7]; exact ha) (hr2.trans hr1)
  simp only [control, Prod.mk.injEq] at hctl3
  obtain ⟨g1, g2, g3, g4, g5, g6, g7⟩ := hctl3
  have hline : 10 ∉ t ++ 32 :: 79 :: 75 :: (text ++ [13]) := by
    have := digits_no_lf hd
    simp [this, htext]
  have hr3' : c3.r = (t ++ 32 :: 79 :: 75 :: (text ++ [13])) ++ 10 :: tail := by
    simp [hr3]
  have h4 := listenIter_line tls c3 _ tail hr3' hline
  have h5 := listenBody_OK tls { c3 with r := tail } t text (g2.trans hs2) (g5.trans hrep2)
    (by
      show c3.cmd ≠ tokStartTLS
      rw [g6, hcmd2]
      exact hcmd) ht hd htext
  simp only [List.append_assoc, List.cons_append, List.nil_append] at h4 h5
  rw [h5] at h4
  refine ⟨c1, c2, c3, _, h1, h2, h3, h4, ?_, rfl, rfl⟩
  simp [hbuf3, hbuf2, hbuf1]

/-- C1, amended, on the stream `* 5 EXISTS\r\n`, then `Noop` issued, then
`* 1 FETCH (RFC822 {2}\r\nhi)\r\n1 OK\r\n`: the reply holds the push, the literal's
line and the literal. -/
theorem reply_is_buffer_since_completion_witness :
    (∀ i ∈ [Item.untagged [53, 32, 69, 88, 73, 83, 84, 83, 13]], i.wellFormed maxAlloc) ∧
    (∀ i ∈ [Item.literal [49, 32, 70, 69, 84, 67, 72, 32, 40, 82, 70, 67, 56, 50, 50, 32] [50]
              [104, 105] [41, 13]], i.wellFormed maxAlloc) ∧
    ∃ c1 c2 c3 c4,
      turns (fun _ => none) 1 { liveClient with r := pushFetchOK } = some c1 ∧
      issue c1 tokNoop reqNoop = .ok (.waiting c2) ∧
      turns (fun _ => none) 1 c2 = some c3 ∧
      listenIter (fun _ => none) c3 = some (.ok c4) ∧
      c4.rep = some [{ err := none,
                       data := [] ++ (entriesOf [Item.untagged [53, 32, 69, 88, 73, 83, 84, 83, 13]]
                         ++ entriesOf [Item.literal
                              [49, 32, 70, 69, 84, 67, 72, 32, 40, 82, 70, 67, 56, 50, 50, 32]
                              [50] [104, 105] [41, 13]]) }] ∧
      c4.latestRep = [] ∧ c4.r = [] :=
  ⟨pushItem_wellFormed maxAlloc, fetchItem_wellFormed,
    reply_is_buffer_since_completion (fun _ => none) { liveClient with r := pushFetchOK }
      { written := [], failing := false, secure := false }
      [Item.untagged [53, 32, 69, 88, 73, 83, 84, 83, 13]]
      [Item.literal [49, 32, 70, 69, 84, 67, 72, 32, 40, 82, 70, 67, 56, 50, 50, 32] [50]
        [104, 105] [41, 13]]
      tokNoop reqNoop [49] [] [] rfl rfl rfl rfl (pushItem_wellFormed maxAlloc)
      fetchItem_wellFormed
      (by decide) (by decide) (by decide) (by decide) (by decide)⟩

/-- C11 (the code does not do this): the `break` of `handler.go` 100 leaves the
`switch` only, as the one of line 38 does (the defect of C4).  With `StartTLS` pending
and a handshake that fails, the tagged OK line delivers nothing, leaves the transport
in place and the loop goes on: on `1 OK\r\n* 3 EXISTS\r\n` the later line is read and
accumulated; on `1 OK\r\n1 OK\r\n`, with a second handshake that succeeds, the pending
command gets a success reply. -/
theorem handshake_failure_does_not_end_loop :
    StartTLSSend liveClient [104] = .ok (.waiting tlsPending) ∧
    listenIter (fun _ => none) { tlsPending with r := okThenExists } =
      some (.ok { tlsPending with
                  r := [42, 32, 51, 32, 69, 88, 73, 83, 84, 83, 13, 10]
                  handshakes := 1 }) ∧
    turns (fun _ => none) 2 { tlsPending with r := okThenExists } =
      some { tlsPending with
             handshakes := 1
             latestRep := [[51, 32, 69, 88, 73, 83, 84, 83, 13, 10]] } ∧
    turns failsOnce 2 { tlsPending with r := okTwice } =
      some { tlsPending with
             conn := some { written := [49, 32, 83, 84, 65, 82, 84, 84, 76, 83, 13, 10],
                            failing := false, secure := true }
             handshakes := 2
             rep := some [{ err := none, data := [] }] } := by
  decide

/-- C12, as stated, fails: with `Noop` pending and `x` in the buffer, the lines
`7 FOO x\r\n` and `7 FETCH (x)\r\n` match the pattern of a tagged completion (status
`FOO`, `FET`); each clears the buffer and delivers a success reply with its content,
and neither is appended. -/
theorem unknown_status_is_success :
    listenIter (fun _ => none)
        { pendingClient with
          r := [55, 32, 70, 79, 79, 32, 120, 13, 10]
          latestRep := [[120]] } =
      some (.ok { pendingClient with rep := some [{ err := none, data := [[120]] }] }) ∧
    listenIter (fun _ => none)
        { pendingClient with
          r := [55, 32, 70, 69, 84, 67, 72, 32, 40, 120, 41, 13, 10]
          latestRep := [[120]] } =
      some (.ok { pendingClient with rep := some [{ err := none, data := [[120]] }] }) := by
  decide

/-- C12, amended: in stage Normal, with a command other than STARTTLS pending and its
reply slot free, a line `<tag> <A><B><text>\r\n` with capitals `A`, `B` is a tagged
completion whatever the capitals are.  The status tested is `AB`, or `ABx` when the text
begins with a capital `x`; the buffer is cleared, and the reply is `ErrResultNo` for the
status `NO`, `ErrResultBad` for `BAD`, and a success reply with the content of the
buffer for every other status, `FOO` or `FET` as well as `OK`.  A line `<tag> <a><b>...`
whose `a`, `b` are not both capitals is not a tagged completion: it delivers nothing
and is appended as it is. -/
theorem status_other_than_no_bad_is_success (tls : Nat → Option Bytes) (c : Client)
    (t text rest : Bytes) (a b : Nat) (hs : c.state = normal) (hrep : c.rep = some [])
    (hcmd : c.cmd ≠ tokStartTLS) (ht : t ≠ []) (hd : ∀ d ∈ t, isDigit d = true)
    (htext : 10 ∉ text) :
    (isUpper a = true → isUpper b = true →
      listenBody tls c (t ++ 32 :: a :: b :: (text ++ [13, 10])) =
        .ok { c with
              latestRep := []
              rep := some [if statusWord a b text = tokNo then
                             { err := some .ErrResultNo, data := [] }
                           else if statusWord a b text = tokBad then
                             { err := some .ErrResultBad, data := [] }
                           else { err := none, data := c.latestRep }] }) ∧
    ((isUpper a && isUpper b) = false →
      listenBody tls c (t ++ 32 :: a :: b :: rest) =
        .ok { c with latestRep := c.latestRep ++ [t ++ 32 :: a :: b :: rest] }) := by
  constructor
  · intro ha hb
    have hm := regexOK_line t text a b ht hd ha hb htext
    rw [listenBody_tagged tls c t _ _ hs ht hd hm]
    by_cases h1 : statusWord a b text = tokNo
    · simp [tagged, hrep, h1, send]
    · by_cases h2 : statusWord a b text = tokBad
      · have hne : ¬ (tokBad = tokNo) := by decide
        simp [tagged, hrep, h2, hne, send]
      · simp [tagged, hrep, h1, h2, upgrade, hcmd, send]
  · intro hab
    have hre : regexOK (t ++ 32 :: a :: b :: rest) = none := by
      rw [regexOK_tag t _ ht hd]
      have h3 : (48 :: 32 :: a :: b :: rest).takeWhile isDigit = [48] := by simp [isDigit]
      have h4 : (48 :: 32 :: a :: b :: rest).dropWhile isDigit = 32 :: a :: b :: rest := by
        simp [isDigit]
      unfold regexOK
      simp only [h3, h4]
      simp [hab]
    have hstar : startsWith (t ++ 32 :: a :: b :: rest) tokStar = false :=
      startsWith_digit t _ [32] ht hd
    exact listenBody_plain tls c _ hs hstar hre

/-- C12, amended, on the pending `Noop`: `7 FOO x\r\n` delivers a success reply, and
`7 Ok x\r\n` is appended as it is. -/
theorem status_other_than_no_bad_is_success_witness :
    pendingClient.state = normal ∧ pendingClient.rep = some [] ∧
    listenBody (fun _ => none) pendingClient ([55] ++ 32 :: 70 :: 79 :: ([79, 32, 120] ++ [13, 10])) =
      .ok { pendingClient with
            latestRep := []
            rep := some [if statusWord 70 79 [79, 32, 120] = tokNo then
                           { err := some .ErrResultNo, data := [] }
                         else if statusWord 70 79 [79, 32, 120] = tokBad then
                           { err := some .ErrResultBad, data := [] }
                         else { err := none, data := pendingClient.latestRep }] } ∧
    listenBody (fun _ => none) pendingClient ([55] ++ 32 :: 79 :: 107 :: [32, 120, 13, 10]) =
      .ok { pendingClient with
            latestRep := pendingClient.latestRep ++ [[55] ++ 32 :: 79 :: 107 :: [32, 120, 13, 10]] } :=
  ⟨rfl, rfl,
    (status_other_than_no_bad_is_success (fun _ => none) pendingClient [55] [79, 32, 120]
      [32, 120, 13, 10] 70 79 rfl rfl (by decide) (by decide) (by decide) (by decide)).1
      (by decide) (by decide),
    (status_other_than_no_bad_is_success (fun _ => none) pendingClient [55] [79, 32, 120]
      [32, 120, 13, 10] 79 107 rfl rfl (by decide) (by decide) (by decide) (by decide)).2
      (by decide)⟩

/-- C13 (the code does not do this): on the reply `* 1 FETCH (FLAGS (\Seen))\r\n`,
`1 OK\r\n` the reader delivers a success reply whose data is the single entry
`1 FETCH (FLAGS (\Seen))\r\n`; the loop of `FetchRFC822` matches it and reads
`rep.data[i+1]`, one past the end: index out of range.  `FetchRFC822Header` does the
same. -/
theorem fetch_reads_past_the_end :
    (turns (fun _ => none) 2 { fetchPending with r := fetchFlagsOnly }).map (fun c => c.rep) =
      some (some [{ err := none,
                    data := [[49, 32, 70, 69, 84, 67, 72, 32, 40, 70, 76, 65, 71, 83, 32, 40, 92,
                              83, 101, 101, 110, 41, 41, 13, 10]] }]) ∧
    afterTurns (fun _ => none) 2 fetchPending fetchFlagsOnly
        (fun c => fetched (FetchRFC822Return c)) = some (.panic .indexRange) ∧
    afterTurns (fun _ => none) 2 fetchHeaderPending fetchFlagsOnly
        (fun c => fetched (FetchRFC822HeaderReturn c)) = some (.panic .indexRange) := by
  decide

/-- C16, as stated, fails: with `INBOX` selected, `Exists` at 7 and the callback set,
the untagged line `* foo EXISTS\r\n`, which carries no decimal number, sets `Exists`
to 0 and starts the callback. -/
theorem non_number_updates_counter :
    listenIter (fun _ => none)
        { liveClient with
          r := [42, 32, 102, 111, 111, 32, 69, 88, 73, 83, 84, 83, 13, 10]
          selectedMailbox := some { inbox with Exists := 7 }
          UpdateCallback := true } =
      some (.ok { liveClient with
                  selectedMailbox := some { inbox with Exists := 0 }
                  UpdateCallback := true
                  started := 1
                  latestRep := [[102, 111, 111, 32, 69, 88, 73, 83, 84, 83, 13, 10]] }) := by
  decide

/-- C16, amended: with a mailbox selected and stage Normal, for every untagged line
that does not end in ` EXISTS\r\n` or in ` RECENT\r\n`, the counter code of lines
41-59 leaves the state as it is: every field of the selected `MailboxInfo` stays and the
callback is not started.  When the line is a BYE line, or announces no literal, or one
that `make` allocates, the turn of the loop goes on and ends with the selected mailbox
and the count of callbacks started as they were.  Otherwise, on a line that announces
a literal longer than `make` allocates, the reader panics at the `make` of line 63,
after the counter code.  (A line that ends in one of the two patterns is taken for a
counter update whatever stands before, decimal number or not.) -/
theorem other_untagged_keeps_mailbox (tls : Nat → Option Bytes) (c : Client)
    (text rest : Bytes) (hs : c.state = normal) (ht : 10 ∉ text)
    (hE : ∀ pre, 42 :: 32 :: (text ++ [10]) ≠ pre ++ tokExists)
    (hR : ∀ pre, 42 :: 32 :: (text ++ [10]) ≠ pre ++ tokRecent)
    (hr : c.r = 42 :: 32 :: (text ++ 10 :: rest)) :
    updateCounters { c with r := rest } (42 :: 32 :: (text ++ [10])) =
      .ok { c with r := rest } ∧
    ((startsWith (42 :: 32 :: (text ++ [10])) tokBye = true ∨
        ∀ sub, regexBulkStart (42 :: 32 :: (text ++ [10])) = some sub →
          (Atoi sub).toNat ≤ c.allocLimit) →
      ∃ c1, listenIter tls c = some (.ok c1) ∧ c1.selectedMailbox = c.selectedMailbox ∧
        c1.started = c.started) ∧
    (startsWith (42 :: 32 :: (text ++ [10])) tokBye = false →
      ∀ sub, regexBulkStart (42 :: 32 :: (text ++ [10])) = some sub →
        c.allocLimit < (Atoi sub).toNat → listenIter tls c = some (.panic .makeslice)) := by
  have hbody : 10 ∉ 42 :: 32 :: text := by simp [ht]
  have hr' : c.r = (42 :: 32 :: text) ++ 10 :: rest := by simp [hr]
  rw [listenIter_line tls c _ rest hr' hbody]
  have hline : 42 :: 32 :: text ++ [10] = 42 :: 32 :: (text ++ [10]) := by simp
  rw [hline]
  have hiE : Index (42 :: 32 :: (text ++ [10])) tokExists = none := by
    have := Index_none (42 :: 32 :: text) [32, 69, 88, 73, 83, 84, 83, 13] hbody (by decide)
      (fun pre h => hE pre (by
        have := congrArg (fun l => l ++ [10]) h
        simpa [tokExists] using this))
    simpa [tokExists_eq] using this
  have hiR : Index (42 :: 32 :: (text ++ [10])) tokRecent = none := by
    have := Index_none (42 :: 32 :: text) [32, 82, 69, 67, 69, 78, 84, 13] hbody (by decide)
      (fun pre h => hR pre (by
        have := congrArg (fun l => l ++ [10]) h
        simpa [tokRecent] using this))
    simpa [tokRecent_eq] using this
  have hstar : startsWith (42 :: 32 :: (text ++ [10])) tokStar = true := by
    simp [startsWith, tokStar]
  refine ⟨updateCounters_none _ _ hiE hiR, ?_, ?_⟩
  · intro hcase
    by_cases hbye : startsWith (42 :: 32 :: (text ++ [10])) tokBye = true
    · refine ⟨{ c with r := rest }, ?_, rfl, rfl⟩
      have h0 : ¬ (normal = justConnected) := by decide
      unfold listenBody
      simp only [hs, h0, if_false, if_true, hbye]
    · have hbye' : startsWith (42 :: 32 :: (text ++ [10])) tokBye = false := by
        simpa using hbye
      have hsub := hcase.resolve_left hbye
      rw [listenBody_untagged tls { c with r := rest } _ hs hbye' hstar]
      unfold untagged
      rw [updateCounters_none _ _ hiE hiR, Res.bind_ok]
      rcases readBulk_outcome
          { c with r := rest, latestRep := c.latestRep ++ [(42 :: 32 :: (text ++ [10])).drop 2] }
          (42 :: 32 :: (text ++ [10])) with ⟨⟨c1, h1⟩, _⟩ | ⟨_, sub, h2, h3⟩
      · have hf := readBulk_frame _ c1 _ h1
        exact ⟨c1, by rw [← h1], hf.1, hf.2⟩
      · have := hsub sub h2
        simp only [] at h3
        omega
  · intro hbye sub hsub hlim
    rw [listenBody_untagged tls { c with r := rest } _ hs hbye hstar]
    unfold untagged
    rw [updateCounters_none _ _ hiE hiR, Res.bind_ok]
    simp [readBulk, hsub, hlim]

/-- C16, amended, on `* 3 FETCH (FLAGS (\Seen))\r\n` with `INBOX` selected at
`Exists` 7 and the callback set. -/
theorem other_untagged_keeps_mailbox_witness :
    ∃ c1, listenIter (fun _ => none)
        { liveClient with
          r := 42 :: 32 :: ([51, 32, 70, 69, 84, 67, 72, 32, 40, 70, 76, 65, 71, 83, 32, 40, 92,
                             83, 101, 101, 110, 41, 41, 13] ++ 10 :: [])
          selectedMailbox := some { inbox with Exists := 7 }
          UpdateCallback := true } = some (.ok c1) ∧
      c1.selectedMailbox = some { inbox with Exists := 7 } ∧ c1.started = 0 :=
  (other_untagged_keeps_mailbox (fun _ => none)
    { liveClient with
      r := 42 :: 32 :: ([51, 32, 70, 69, 84, 67, 72, 32, 40, 70, 76, 65, 71, 83, 32, 40, 92,
                         83, 101, 101, 110, 41, 41, 13] ++ 10 :: [])
      selectedMailbox := some { inbox with Exists := 7 }
      UpdateCallback := true }
    [51, 32, 70, 69, 84, 67, 72, 32, 40, 70, 76, 65, 71, 83, 32, 40, 92, 83, 101, 101, 110, 41,
     41, 13] [] rfl (by decide)
    (fun pre h => by
      have h' : [42, 32, 51, 32, 70, 69, 84, 67, 72, 32, 40, 70, 76, 65, 71, 83, 32, 40] ++
          [92, 83, 101, 101, 110, 41, 41, 13, 10] = pre ++ tokExists := by simpa using h
      have := (List.append_inj' h' rfl).2
      simp [tokExists] at this)
    (fun pre h => by
      have h' : [42, 32, 51, 32, 70, 69, 84, 67, 72, 32, 40, 70, 76, 65, 71, 83, 32, 40] ++
          [92, 83, 101, 101, 110, 41, 41, 13, 10] = pre ++ tokRecent := by simpa using h
      have := (List.append_inj' h' rfl).2
      simp [tokRecent] at this)
    rfl).2.1
    (Or.inr (fun sub h => Option.noConfusion
      ((show regexBulkStart (42 :: 32 :: ([51, 32, 70, 69, 84, 67, 72, 32, 40, 70, 76, 65, 71,
          83, 32, 40, 92, 83, 101, 101, 110, 41, 41, 13] ++ [10])) = none from
        by decide).symm.trans h)))

/-- C18, as stated, fails: on `hello\r\n* OK ready\r\n` the first line is not a
greeting and leaves the stage at JustConnected, and the second line, a greeting, makes
it Normal. -/
theorem late_greeting_is_taken :
    turns (fun _ => none) 1
        (dialed liveConn [104, 101, 108, 108, 111, 13, 10, 42, 32, 79, 75, 32, 114, 101, 97, 100,
                          121, 13, 10]) =
      some (dialed liveConn [42, 32, 79, 75, 32, 114, 101, 97, 100, 121, 13, 10]) ∧
    turns (fun _ => none) 2
        (dialed liveConn [104, 101, 108, 108, 111, 13, 10, 42, 32, 79, 75, 32, 114, 101, 97, 100,
                          121, 13, 10]) =
      some { dialed liveConn [] with state := normal } := by
  decide

/-- C18, amended: in stage JustConnected a line is only tested for the greeting: it
is not accumulated, updates no counter and delivers no reply.  A first line that begins
with `* OK` makes the stage Normal.  Lines that are not greetings are ignored and
leave the stage at JustConnected, for as long as no greeting comes; the first later
line that begins with `* OK` makes the stage Normal. -/
theorem greeting_stage (tls : Nat → Option Bytes) (c : Client) (texts : List Bytes)
    (greet rest : Bytes) (hs : c.state = justConnected)
    (hw : ∀ t ∈ texts, 10 ∉ t ∧ startsWith (t ++ [10]) tokGreeting = false)
    (hg : 10 ∉ greet) (hgreet : startsWith (greet ++ [10]) tokGreeting = true)
    (hr : c.r = wireLines texts ++ (greet ++ 10 :: rest)) :
    (∀ line, listenBody tls c line =
      .ok (if startsWith line tokGreeting then { c with state := normal } else c)) ∧
    turns tls texts.length c = some { c with r := greet ++ 10 :: rest } ∧
    turns tls (texts.length + 1) c = some { c with r := rest, state := normal } := by
  have h1 := turns_not_greeted tls texts c _ hs hw hr
  refine ⟨fun line => listenBody_justConnected tls c line hs, h1, ?_⟩
  rw [turns_add tls texts.length 1 c _ h1]
  have h2 := listenIter_line tls { c with r := greet ++ 10 :: rest } greet rest rfl hg
  rw [listenBody_justConnected tls { c with r := rest } _ hs, hgreet] at h2
  simp only [turns, h2, if_true]

/-- C18, amended, on `hello\r\n* OK ready\r\n` from the state that `Dial` builds. -/
theorem greeting_stage_witness :
    (dialed liveConn ([104, 101, 108, 108, 111, 13] ++ 10 ::
        ([42, 32, 79, 75, 32, 114, 101, 97, 100, 121, 13] ++ 10 :: []))).state = justConnected ∧
    turns (fun _ => none) 1
        (dialed liveConn ([104, 101, 108, 108, 111, 13] ++ 10 ::
          ([42, 32, 79, 75, 32, 114, 101, 97, 100, 121, 13] ++ 10 :: []))) =
      some (dialed liveConn ([42, 32, 79, 75, 32, 114, 101, 97, 100, 121, 13] ++ 10 :: [])) ∧
    turns (fun _ => none) 2
        (dialed liveConn ([104, 101, 108, 108, 111, 13] ++ 10 ::
          ([42, 32, 79, 75, 32, 114, 101, 97, 100, 121, 13] ++ 10 :: []))) =
      some { dialed liveConn [] with state := normal } :=
  ⟨rfl,
    (greeting_stage (fun _ => none)
      (dialed liveConn ([104, 101, 108, 108, 111, 13] ++ 10 ::
        ([42, 32, 79, 75, 32, 114, 101, 97, 100, 121, 13] ++ 10 :: [])))
      [[104, 101, 108, 108, 111, 13]] [42, 32, 79, 75, 32, 114, 101, 97, 100, 121, 13] [] rfl
      (by decide) (by decide) (by decide) (by decide)).2⟩

/-- C20, as stated, fails on an untagged line that is a BYE line: on
`* BYE {2}\r\n`, the two bytes `x\n`, and `7 OK\r\n`, with `Noop` pending, the line
is skipped and no literal is read; `x\n` is read as a line and appended, and what
follows it, `7 OK\r\n`, is classified: it completes the pending command with a
success reply.  It fails as well when the line announces more than `make` allocates: on
`* 1 FETCH (RFC822 {9223372036854775807}\r\n` the reader panics at
`make([]byte, bulkSize)`, so it consumes nothing after the line and does not resume. -/
theorem bytes_after_bye_literal_are_classified :
    turns (fun _ => none) 3
        { pendingClient with
          r := [42, 32, 66, 89, 69, 32, 123, 50, 125, 13, 10, 120, 10, 55, 32, 79, 75, 13, 10] } =
      some { pendingClient with rep := some [{ err := none, data := [[120, 10]] }] } ∧
    listenIter (fun _ => none)
        { pendingClient with
          r := [42, 32, 49, 32, 70, 69, 84, 67, 72, 32, 40, 82, 70, 67, 56, 50, 50, 32, 123, 57,
                50, 50, 51, 51, 55, 50, 48, 51, 54, 56, 53, 52, 55, 55, 53, 56, 48, 55, 125, 13, 10,
                104, 105, 41, 13, 10] } =
      some (.panic .makeslice) := by
  decide

/-- C20, amended: in stage Normal, on an untagged line `* <pre>{N}\r\n` that does not
begin with `* BYE` (`N` fitting an `int` and at most `allocLimit`, what `make`
allocates), followed by the `N` payload bytes `b`, by a trailer of any bytes but the
line feed, and by a line feed, the turn of the loop appends the line without its `* `
and the payload, and nothing else: the trailer goes into no entry, nothing else of the
state changes (no counter, no reply, no second literal), and the stream stands right
after that line feed. -/
theorem bytes_after_literal_are_dropped (tls : Nat → Option Bytes) (c : Client)
    (pre b trailer tail : Bytes) (N : Nat) (hN : N < 2 ^ 63) (hlim : N ≤ c.allocLimit)
    (hb : b.length = N) (hs : c.state = normal) (hpre : 10 ∉ pre) (htr : 10 ∉ trailer)
    (hbye : startsWith (42 :: 32 :: (pre ++ 123 :: (Itoa (N : Int) ++ [125, 13, 10]))) tokBye
      = false)
    (hr : c.r = 42 :: 32 :: (pre ++ 123 :: (Itoa (N : Int) ++ 125 :: 13 :: 10 ::
            (b ++ (trailer ++ 10 :: tail))))) :
    listenIter tls c =
      some (.ok { c with
                  r := tail
                  latestRep := c.latestRep ++
                    [pre ++ 123 :: (Itoa (N : Int) ++ [125, 13, 10]), b] }) := by
  rw [Itoa_natCast] at hbye hr ⊢
  obtain ⟨hne, hd, hval⟩ := natDigits_spec N
  exact listenIter_literal tls c pre (natDigits N) b trailer tail hs hpre hne hd
    (by rw [hval]; exact hN) (by rw [hval]; exact hlim) (by rw [hval]; exact hb) htr hbye hr

/-- C20, amended, with `Noop` pending and `INBOX` selected: `* 1 FETCH (RFC822 {2}\r\n`,
the payload `hi`, and on the same line ` 7 OK 5 EXISTS\r\n`. -/
theorem bytes_after_literal_are_dropped_witness :
    (2 : Nat) < 2 ^ 63 ∧ 2 ≤ pendingClient.allocLimit ∧ [104, 105].length = 2 ∧
    listenIter (fun _ => none)
        { pendingClient with
          selectedMailbox := some inbox
          r := [42, 32, 49, 32, 70, 69, 84, 67, 72, 32, 40, 82, 70, 67, 56, 50, 50, 32, 123, 50,
                125, 13, 10, 104, 105, 32, 55, 32, 79, 75, 32, 53, 32, 69, 88, 73, 83, 84, 83,
                13, 10] } =
      some (.ok { pendingClient with
                  selectedMailbox := some inbox
                  r := []
                  latestRep := [[49, 32, 70, 69, 84, 67, 72, 32, 40, 82, 70, 67, 56, 50, 50, 32,
                                 123, 50, 125, 13, 10],
                                [104, 105]] }) :=
  ⟨by decide, by decide, rfl,
    bytes_after_literal_are_dropped (fun _ => none)
      { pendingClient with
        selectedMailbox := some inbox
        r := [42, 32, 49, 32, 70, 69, 84, 67, 72, 32, 40, 82, 70, 67, 56, 50, 50, 32, 123, 50,
              125, 13, 10, 104, 105, 32, 55, 32, 79, 75, 32, 53, 32, 69, 88, 73, 83, 84, 83,
              13, 10] }
      [49, 32, 70, 69, 84, 67, 72, 32, 40, 82, 70, 67, 56, 50, 50, 32] [104, 105]
      [32, 55, 32, 79, 75, 32, 53, 32, 69, 88, 73, 83, 84, 83, 13] [] 2 (by decide)
      (by decide) rfl rfl (by decide) (by decide) (by decide) (by decide)⟩

/-- C19: in stage Normal, a line that matches the tagged-completion pattern does not
begin with `* `, and whatever it leads to (the loop goes on, or the reader parks at a
send on a taken reply slot) the buffer `latestRep` is empty afterwards; the reader
panics only at the handshake on a nil transport.  With no command pending nothing
else changes: nothing is delivered, no handshake is attempted, the stage, the selected
mailbox and the transport stay.  With a command other than STARTTLS pending, its slot
free and a status other than NO and BAD, the reply holds the buffer as it was.  Hence,
from a state with an empty buffer, the data of the next success reply is exactly the
entries of the well-formed items read since, in arrival order (a literal is well-formed
when `make` allocates its length).  In general, between two tagged completion lines the
buffer only grows: a line that does not match the pattern, when the loop goes on after
it, leaves the buffer as it was, followed by what the line added. -/
theorem snapshot_and_clear (tls : Nat → Option Bytes) (c : Client) (line : Bytes)
    (sub : Bytes × Bytes) (hs : c.state = normal) (hm : regexOK line = some sub) :
    startsWith line tokStar = false ∧
    ((∃ c1, listenBody tls c line = .ok c1 ∧ c1.latestRep = []) ∨
      (∃ c1, listenBody tls c line = .blocked c1 ∧ c1.latestRep = []) ∨
      (∃ f, listenBody tls c line = .panic f ∧ c.conn = none ∧ c.cmd = tokStartTLS)) ∧
    (c.rep = none → listenBody tls c line = .ok { c with latestRep := [] }) ∧
    (c.rep = some [] → c.cmd ≠ tokStartTLS → sub.2 ≠ tokNo → sub.2 ≠ tokBad →
      listenBody tls c line =
        .ok { c with latestRep := [], rep := some [{ err := none, data := c.latestRep }] }) ∧
    (∀ (c0 : Client) (items : List Item) (t text tail : Bytes),
      c0.state = normal → c0.latestRep = [] → c0.rep = some [] → c0.cmd ≠ tokStartTLS →
      (∀ i ∈ items, i.wellFormed c0.allocLimit) → t ≠ [] → (∀ d ∈ t, isDigit d = true) →
      10 ∉ text →
      c0.r = wires items ++ (t ++ 32 :: 79 :: 75 :: (text ++ 13 :: 10 :: tail)) →
      ∃ c3 c4, turns tls items.length c0 = some c3 ∧ listenIter tls c3 = some (.ok c4) ∧
        c4.rep = some [{ err := none, data := entriesOf items }] ∧ c4.latestRep = []) ∧
    (∀ (c0 c1 : Client) (other : Bytes), c0.state = normal → regexOK other = none →
      listenBody tls c0 other = .ok c1 → ∃ added, c1.latestRep = c0.latestRep ++ added) := by
  have hb := listenBody_regexOK tls c line sub hs hm
  refine ⟨(regexOK_not_star line sub hm).2, ?_, ?_, ?_, ?_,
    fun c0 c1 other h0 h1 h2 => listenBody_appends tls c0 c1 other h0 h1 h2⟩
  · rw [hb]
    exact tagged_outcome tls c sub.2
  · intro hrep
    rw [hb]
    simp [tagged, hrep]
  · intro hrep hcmd h1 h2
    rw [hb]
    simp [tagged, hrep, h1, h2, upgrade, hcmd, send]
  · intro c0 items t text tail hs0 hbuf hrep hcmd hw ht hd htext hr
    obtain ⟨c3, h3, hr3, hbuf3, hctl3⟩ := items_turns tls items c0 _ hs0 hw hr
    simp only [control, Prod.mk.injEq] at hctl3
    obtain ⟨_, g2, _, _, g5, g6, _⟩ := hctl3
    have hline : 10 ∉ t ++ 32 :: 79 :: 75 :: (text ++ [13]) := by
      have := digits_no_lf hd
      simp [this, htext]
    have hr3' : c3.r = (t ++ 32 :: 79 :: 75 :: (text ++ [13])) ++ 10 :: tail := by
      simp [hr3]
    have h4 := listenIter_line tls c3 _ tail hr3' hline
    have h5 := listenBody_OK tls { c3 with r := tail } t text (g2.trans hs0) (g5.trans hrep)
      (by
        show c3.cmd ≠ tokStartTLS
        rw [g6]
        exact hcmd) ht hd htext
    simp only [List.append_assoc, List.cons_append, List.nil_append] at h4 h5
    rw [h5] at h4
    exact ⟨c3, _, h3, h4, by simp [hbuf3, hbuf], rfl⟩

/-- C19 on `7 NO\r\n` read with no command pending and `x` in the buffer. -/
theorem snapshot_and_clear_witness :
    regexOK [55, 32, 78, 79, 13, 10] = some ([55], [78, 79]) ∧
    listenBody (fun _ => none) { liveClient with latestRep := [[120]] } [55, 32, 78, 79, 13, 10] =
      .ok { liveClient with latestRep := [] } :=
  ⟨by decide,
    ((snapshot_and_clear (fun _ => none) { liveClient with latestRep := [[120]] }
      [55, 32, 78, 79, 13, 10] ([55], [78, 79]) rfl (by decide)).2.2.1 rfl).trans (by decide)⟩

/-- C17, as stated, fails: with `latestTag` at 2147483647 the 32-bit counter wraps and
`newTag` returns `-2147483648`, which is not made of digits only and is smaller than
every tag returned before. -/
theorem tag_wraps :
    newTag { liveClient with latestTag := 2147483647 } =
      ({ liveClient with latestTag := -2147483648 },
       [45, 50, 49, 52, 55, 52, 56, 51, 54, 52, 56]) ∧
    isDigit 45 = false := by
  decide

/-- C17, amended: as long as the counter stays below the top of `int32` (it starts
at 0 and `n` calls take it to at most 2^31 - 1), the tags are decimal integers, unique
and strictly increasing: call number `i` (from 0) of `n` calls in a row returns a
non-empty run of digits whose value is `latestTag + i + 1`; each call adds 1 to
`latestTag`; the first tag of a fresh connection is `1`. -/
theorem tags_increase (c : Client) (n : Nat) (h0 : 0 ≤ c.latestTag)
    (hmax : c.latestTag + n ≤ 2 ^ 31 - 1) :
    (∀ i, i < n → ∃ t, (tagsFrom n c)[i]? = some t ∧ t ≠ [] ∧
      (∀ d ∈ t, isDigit d = true) ∧ Atoi t = c.latestTag + ((i : Int) + 1)) ∧
    (1 ≤ n → (newTag c).1.latestTag = c.latestTag + 1) ∧
    (∀ (k : Conn) (s : Bytes), (newTag (dialed k s)).2 = [49]) := by
  refine ⟨tagsFrom_spec n c h0 hmax, ?_, ?_⟩
  · intro hn
    have hstep : c.latestTag + 1 ≤ 2 ^ 31 - 1 := by
      have : (1 : Int) ≤ (n : Int) := by exact_mod_cast hn
      omega
    exact (newTag_small c h0 hstep).1
  · intro k s
    rfl

/-- C17, amended, on a fresh connection: the first three tags are `1`, `2`, `3`. -/
theorem tags_increase_witness :
    (0 : Int) ≤ (dialed liveConn []).latestTag ∧
    tagsFrom 3 (dialed liveConn []) = [[49], [50], [51]] ∧
    ∃ t, (tagsFrom 3 (dialed liveConn []))[2]? = some t ∧ t ≠ [] ∧
      (∀ d ∈ t, isDigit d = true) ∧ Atoi t = (dialed liveConn []).latestTag + (((2 : Nat) : Int) + 1) :=
  ⟨by decide, by decide,
    (tags_increase (dialed liveConn []) 3 (by decide) (by decide)).1 2 (by decide)⟩

/-- C15, as stated, fails: `Select("x\r\n2 LOGOUT")` with tag `1` writes
`1 SELECT x\r\n2 LOGOUT\r\n`, 22 bytes whose first CR LF is at index 10: two lines, the
second one a command of its own. -/
theorem select_writes_two_lines :
    (SelectSend liveClient nameWithCRLF).bind (fun s => .ok (s.client.conn)) =
      .ok (some { liveConn with written := twoLines }) ∧
    twoLines.length = 22 ∧ Index twoLines crlf = some 10 := by
  decide

/-- C15, amended: for every tag and all argument strings that hold no CR LF, the bytes
that `Login(user, pass)`, `Select(name)` and `Search(criteria)` hand to the transport
are exactly the request line `<tag> <COMMAND-NAME> <arguments>\r\n` with the tag that
`newTag` allots, and that line holds one CR LF, its last two bytes (the first CR LF
is at its end). -/
theorem request_is_one_line (c : Client) (k : Conn) (user pass name criteria : Bytes)
    (hk : c.conn = some k) (hmux : c.mux = false) (hu : Index user crlf = none)
    (hp : Index pass crlf = none) (hn : Index name crlf = none)
    (hc : Index criteria crlf = none) :
    ((∃ s, LoginSend c user pass = .ok s ∧
        s.client.conn = some { k with written := k.written ++
                                      specRequestLine (newTag c).2 tokLogin (user ++ 32 :: pass) }) ∧
      Index (specRequestLine (newTag c).2 tokLogin (user ++ 32 :: pass)) crlf =
        some ((specRequestLine (newTag c).2 tokLogin (user ++ 32 :: pass)).length - 2)) ∧
    ((∃ s, SelectSend c name = .ok s ∧
        s.client.conn = some { k with written := k.written ++
                                      specRequestLine (newTag c).2 tokSelect name }) ∧
      Index (specRequestLine (newTag c).2 tokSelect name) crlf =
        some ((specRequestLine (newTag c).2 tokSelect name).length - 2)) ∧
    ((∃ s, SearchSend c criteria = .ok s ∧
        s.client.conn = some { k with written := k.written ++
                                      specRequestLine (newTag c).2 tokSearch criteria }) ∧
      Index (specRequestLine (newTag c).2 tokSearch criteria) crlf =
        some ((specRequestLine (newTag c).2 tokSearch criteria).length - 2)) := by
  have htag : ∀ x ∈ (newTag c).2, x ≠ 13 := Itoa_no_cr _
  have hsend : ∀ cmd req : Bytes, ∃ s, issue c cmd req = .ok s ∧
      s.client.conn = some { k with written := k.written ++ ((newTag c).2 ++ req) } := by
    intro cmd req
    by_cases hf : k.failing = true
    · refine ⟨.returned
        { c with
          cmd := cmd
          latestTag := wrap32 (c.latestTag + 1)
          conn := some { k with written := k.written ++ ((newTag c).2 ++ req) }
          mux := false, rep := none } (some .ErrConnDead), ?_, rfl⟩
      simp [issue, prepareCmd, newTag, writeString, write, hk, hmux, hf, cleanCmd]
    · refine ⟨.waiting
        { c with
          cmd := cmd
          latestTag := wrap32 (c.latestTag + 1)
          conn := some { k with written := k.written ++ ((newTag c).2 ++ req) }
          mux := true, rep := some [] }, ?_, rfl⟩
      simp [issue, prepareCmd, newTag, writeString, write, hk, hmux, hf]
  refine ⟨⟨?_, ?_⟩, ⟨?_, ?_⟩, ⟨?_, ?_⟩⟩
  · obtain ⟨s, h1, h2⟩ := hsend tokLogin (32 :: tokLogin ++ 32 :: user ++ 32 :: pass ++ crlf)
    exact ⟨s, h1, by simpa [specRequestLine] using h2⟩
  · exact specRequestLine_one_crlf _ _ _ htag (by decide) (Index_crlf_space user pass hu hp)
  · obtain ⟨s, h1, h2⟩ := hsend tokSelect (32 :: tokSelect ++ 32 :: name ++ crlf)
    exact ⟨s, h1, by simpa [specRequestLine] using h2⟩
  · exact specRequestLine_one_crlf _ _ _ htag (by decide) hn
  · obtain ⟨s, h1, h2⟩ := hsend tokSearch (32 :: tokSearch ++ 32 :: criteria ++ crlf)
    exact ⟨s, h1, by simpa [specRequestLine] using h2⟩
  · exact specRequestLine_one_crlf _ _ _ htag (by decide) hc

/-- C15, amended, on `Select("INBOX")` with tag `1`: `1 SELECT INBOX\r\n`, 16 bytes,
the CR LF at index 14. -/
theorem request_is_one_line_witness :
    Index [73, 78, 66, 79, 88] crlf = none ∧
    (∃ s, SelectSend liveClient [73, 78, 66, 79, 88] = .ok s ∧
      s.client.conn = some { liveConn with written := liveConn.written ++
                                      specRequestLine (newTag liveClient).2 tokSelect [73, 78, 66, 79, 88] }) ∧
    Index (specRequestLine (newTag liveClient).2 tokSelect [73, 78, 66, 79, 88]) crlf =
      some ((specRequestLine (newTag liveClient).2 tokSelect [73, 78, 66, 79, 88]).length - 2) ∧
    specRequestLine (newTag liveClient).2 tokSelect [73, 78, 66, 79, 88] =
      [49, 32, 83, 69, 76, 69, 67, 84, 32, 73, 78, 66, 79, 88, 13, 10] :=
  ⟨by decide,
    (request_is_one_line liveClient liveConn [117] [112] [73, 78, 66, 79, 88] [65, 76, 76]
      rfl rfl (by decide) (by decide) (by decide) (by decide)).2.1.1,
    (request_is_one_line liveClient liveConn [117] [112] [73, 78, 66, 79, 88] [65, 76, 76]
      rfl rfl (by decide) (by decide) (by decide) (by decide)).2.1.2,
    by decide⟩

/-- C14, as stated, fails: on the reply `* FLAGS ()\r\n`, `1 OK\r\n` to
`Select("INBOX")` the field `Flags` is not the empty list: it has one element, the
empty string, as `strings.Split("", " ")` gives. -/
theorem select_empty_flags :
    SelectSend liveClient [73, 78, 66, 79, 88] = .ok (.waiting selectPending) ∧
    afterTurns (fun _ => none) 2 selectPending flagsEmptyOK
        (fun c => selected (SelectReturn c [73, 78, 66, 79, 88])) =
      some (.ok (some { Name := [73, 78, 66, 79, 88], Exists := 0, Recent := 0, Flags := [[]] },
                 none)) := by
  decide

/-- C14, amended: `Select` is a full replacement.  For every mailbox name and every
reply data made, in any order and number, of entries `n EXISTS\r\n`, entries
`n RECENT\r\n` (`n` fitting an `int`), entries `FLAGS (<flags>)\r\n` and entries that
match none of the three tests of the loop (they hold neither ` EXISTS\r\n` nor
` RECENT\r\n` and do not begin with `FLAGS `), `Select` returns, and installs as the
selected mailbox, a `MailboxInfo` with the requested name, with the number of the last
entry `n EXISTS\r\n` as `Exists` and 0 when there is none, with the number of the last
entry `n RECENT\r\n` as `Recent` and 0 when there is none, and with the flags of the
last entry `FLAGS (<flags>)\r\n` as `Flags`: the flags between the parentheses, in
order, when there is at least one, the list of one empty string for `FLAGS ()\r\n`, and
no flags when there is no such entry.  Nothing of the mailbox selected before goes into
it. -/
theorem select_replaces_mailbox (c : Client) (name : Bytes) (es : List SelectEntry)
    (q : List repValue) (hmux : c.mux = true) (hw : ∀ e ∈ es, e.wellFormed)
    (hrep : c.rep = some ({ err := none, data := es.map SelectEntry.wire } :: q)) :
    SelectReturn c name =
      .ok ({ c with
             rep := none, mux := false
             selectedMailbox := some { Name := name, Exists := lastExists 0 es,
                                       Recent := lastRecent 0 es, Flags := lastFlags [] es } },
           some { Name := name, Exists := lastExists 0 es, Recent := lastRecent 0 es,
                  Flags := lastFlags [] es },
           none) := by
  have hloop := selectLoop_entries es { Name := name, Exists := 0, Recent := 0, Flags := [] } hw
  unfold SelectReturn recv
  rw [hrep]
  simp only [Res.bind_ok, hloop, cleanCmd, hmux, if_true]

/-- C14, amended, on the reply `3 EXISTS`, `OK`, `FLAGS (\Seen \Deleted)`, `2 RECENT`,
`5 EXISTS` to `Select("INBOX")`, with another mailbox selected before. -/
theorem select_replaces_mailbox_witness :
    (∀ e ∈ inboxEntries, e.wellFormed) ∧
    inboxEntries.map SelectEntry.wire =
      [[51, 32, 69, 88, 73, 83, 84, 83, 13, 10], [79, 75, 13, 10],
       [70, 76, 65, 71, 83, 32, 40, 92, 83, 101, 101, 110, 32, 92, 68, 101, 108, 101, 116, 101,
        100, 41, 13, 10],
       [50, 32, 82, 69, 67, 69, 78, 84, 13, 10], [53, 32, 69, 88, 73, 83, 84, 83, 13, 10]] ∧
    SelectReturn
        { selectPending with
          selectedMailbox := some { Name := [79], Exists := 9, Recent := 9, Flags := [[79]] }
          rep := some [{ err := none, data := inboxEntries.map SelectEntry.wire }] }
        [73, 78, 66, 79, 88] =
      .ok ({ selectPending with
             rep := none, mux := false
             selectedMailbox := some { Name := [73, 78, 66, 79, 88], Exists := 5, Recent := 2,
                                       Flags := [[92, 83, 101, 101, 110],
                                                 [92, 68, 101, 108, 101, 116, 101, 100]] } },
           some { Name := [73, 78, 66, 79, 88], Exists := 5, Recent := 2,
                  Flags := [[92, 83, 101, 101, 110], [92, 68, 101, 108, 101, 116, 101, 100]] },
           none) :=
  ⟨inboxEntries_wellFormed, by decide,
    select_replaces_mailbox
      { selectPending with
        selectedMailbox := some { Name := [79], Exists := 9, Recent := 9, Flags := [[79]] }
        rep := some [{ err := none, data := inboxEntries.map SelectEntry.wire }] }
      [73, 78, 66, 79, 88] inboxEntries [] rfl inboxEntries_wellFormed rfl⟩

end Imap
